import Mathlib

/-!
# Verification of the IPTV channel-identity resolution and guide-merge engine

A shallow embedding, in Lean 4, of the Go package `internal/epg` of the
Savid/iptv repository (files `filter.go` and the merge file defining
`MergeEPGs`), together with theorems settling the frozen claims about it.

Modelling conventions:
* Go strings are modelled as `List Char`, assuming ASCII content (Go strings
  are byte slices; for ASCII input the byte-level operations of the source —
  `strings.ToUpper`, indexing by byte offset, `len` — coincide with the
  character-level operations used here).
* Go maps are modelled as association lists with Go's update semantics
  (inserting an existing key overwrites its value in place); iteration over a
  map is modelled as iteration over the association list in insertion order.
  Go's map iteration order is unspecified; theorems below are stated for this
  fixed order.
* Go's `for` loops over slices become folds; mutable local state becomes
  explicit state passing.
* Logging calls are side effects with no bearing on the data flow and are
  dropped.
-/

namespace IPTV

/-- Go string, ASCII model. -/
abbrev GoStr := List Char

/-- Coerce a Lean string literal into the Go-string model. -/
def gs (s : String) : GoStr := s.data

/-! ## Go `strings` primitives -/

/-- ASCII upper-casing of one character (`strings.ToUpper`, ASCII fragment). -/
def upChar (c : Char) : Char :=
  if 'a' ≤ c ∧ c ≤ 'z' then Char.ofNat (c.toNat - 32) else c

/-- ASCII lower-casing of one character (`strings.ToLower`, ASCII fragment). -/
def downChar (c : Char) : Char :=
  if 'A' ≤ c ∧ c ≤ 'Z' then Char.ofNat (c.toNat + 32) else c

/-- Model of `strings.ToUpper` (ASCII fragment). -/
def goUpper (s : GoStr) : GoStr := s.map upChar

/-- Model of `strings.ToLower` (ASCII fragment). -/
def goLower (s : GoStr) : GoStr := s.map downChar

/-- Model of Go strings.HasPrefix. -/
def goStartsWith (s pre : GoStr) : Bool := pre.isPrefixOf s

/-- Whitespace per Go's `unicode.IsSpace`, ASCII fragment (used by
`strings.Fields` and `strings.TrimSpace`). -/
def isSpaceChar (c : Char) : Bool :=
  c = ' ' ∨ c = '\t' ∨ c = '\n' ∨ c = (Char.ofNat 11) ∨ c = (Char.ofNat 12) ∨ c = '\r'

/-- Model of `strings.Fields`: split around runs of whitespace, dropping empty fields. -/
def goFields (s : GoStr) : List GoStr :=
  (s.splitOnP isSpaceChar).filter (· ≠ [])

/-- Interleave a separator between the elements of a list of strings
(`strings.Join`). -/
def goJoin (ps : List GoStr) (sep : GoStr) : GoStr :=
  match ps with
  | [] => []
  | p :: rest => p ++ rest.foldl (fun acc q => acc ++ sep ++ q) []

/-- Model of `strings.TrimSpace` (ASCII fragment). -/
def goTrimSpace (s : GoStr) : GoStr :=
  (s.dropWhile isSpaceChar).reverse.dropWhile isSpaceChar |>.reverse

/-- Model of `strings.Index`: first offset at which `sub` is a
prefix of the corresponding suffix of `s` (`strings.Index`), `none` for -1. -/
def goIndex (s sub : GoStr) : Option Nat :=
  if goStartsWith s sub then some 0
  else
    match s with
    | [] => none
    | _ :: rest => (goIndex rest sub).map (· + 1)

/-- Model of `strings.Contains`. -/
def goContains (s sub : GoStr) : Bool := (goIndex s sub).isSome

/-- Model of `strings.LastIndex` for a single character, returned as an `Option`
(`none` for Go's -1). -/
def goLastIndexChar (s : GoStr) (c : Char) : Option Nat :=
  match s with
  | [] => none
  | x :: rest =>
    match goLastIndexChar rest c with
    | some i => some (i + 1)
    | none => if x = c then some 0 else none

/-! ## Decimal formatting and parsing (`fmt.Sprintf "%d"`, `strconv.Atoi`) -/

/-- Decimal digits of `n`, most significant first, via fuel-bounded division;
`fuel ≥ n` guarantees completion. -/
def digitsAux : Nat → Nat → List Nat
  | 0, _ => []
  | fuel + 1, n => if n = 0 then [] else digitsAux fuel (n / 10) ++ [n % 10]

/-- Decimal rendering of a natural number (`fmt.Sprintf "%d"` for
non-negative values). -/
def goItoa (n : Nat) : GoStr :=
  if n = 0 then ['0'] else (digitsAux (n + 1) n).map (fun d => Char.ofNat (48 + d))

/-- ASCII decimal digit test. -/
def isDigitChar (c : Char) : Bool := '0' ≤ c ∧ c ≤ '9'

/-- Numeric value of a digit list, most significant first. -/
def digitsVal (ds : List Nat) : Nat := ds.foldl (fun acc d => 10 * acc + d) 0

/-- Parse an unsigned run of decimal digits; `none` when empty or when a
non-digit occurs (`strconv.Atoi` after the sign). -/
def parseDigits (s : GoStr) : Option Nat :=
  if s = [] ∨ ¬ s.all isDigitChar then none
  else some (digitsVal (s.map (fun c => c.toNat - 48)))

/-- Model of `strconv.Atoi`: optional sign, then digits, rejected when the value
overflows a 64-bit signed integer. -/
def goAtoi (s : GoStr) : Option Int :=
  match s with
  | '+' :: rest => (parseDigits rest).bind fun n =>
      if n ≤ 2 ^ 63 - 1 then some (Int.ofNat n) else none
  | '-' :: rest => (parseDigits rest).bind fun n =>
      if n ≤ 2 ^ 63 then some (-(Int.ofNat n)) else none
  | _ => (parseDigits s).bind fun n =>
      if n ≤ 2 ^ 63 - 1 then some (Int.ofNat n) else none

/-! ## Go map model -/

/-- Go map as an association list: unique keys, insertion order retained. -/
abbrev GoMap (α β : Type) := List (α × β)

/-- Go map read: value of the first (only) entry with the given key. -/
def goLookup [DecidableEq α] (m : GoMap α β) (k : α) : Option β :=
  (m.find? (fun e => e.1 = k)).map (·.2)

/-- Go map write: overwrite in place when the key exists, else append. -/
def goInsert [DecidableEq α] (m : GoMap α β) (k : α) (v : β) : GoMap α β :=
  match m with
  | [] => [(k, v)]
  | (k', v') :: rest =>
    if k' = k then (k, v) :: rest else (k', v') :: goInsert rest k v

/-- Enumerate a list with indices starting at `i` (Go's `for i, x := range`
loop counter; structurally recursive form of `List.enum`). -/
def enumFrom (i : Nat) : List α → List (Nat × α)
  | [] => []
  | a :: as => (i, a) :: enumFrom (i + 1) as

/-- Go map read with zero value by default (`m[k]` for absent keys). -/
def goLookupD [DecidableEq α] [Inhabited β] (m : GoMap α β) (k : α) : β :=
  (goLookup m k).getD default

/-- The keys of a Go map, in insertion order. -/
def goKeys (m : GoMap α β) : List α := m.map (·.1)

/-- The values of a Go map, in insertion order. -/
def goValues (m : GoMap α β) : List β := m.map (·.2)

/-! ## MD5 (model of Go `crypto/md5` plus `fmt.Sprintf "%x"`)

Bytes are naturals below 256; 32-bit words are naturals reduced mod `2 ^ 32`.
-/

/-- Truncate to a 32-bit word. -/
def w32 (n : Nat) : Nat := n % 2 ^ 32

/-- Rotate a 32-bit word left by `c` bits (`0 < c < 32`, `x < 2 ^ 32`). -/
def rotl32 (x c : Nat) : Nat := w32 (x * 2 ^ c) + x / 2 ^ (32 - c)

/-- Bitwise complement within 32 bits (`x < 2 ^ 32`). -/
def not32 (x : Nat) : Nat := 2 ^ 32 - 1 - x

/-- The 64 MD5 sine-derived constants. -/
def md5K : List Nat :=
  [0xd76aa478, 0xe8c7b756, 0x242070db, 0xc1bdceee,
   0xf57c0faf, 0x4787c62a, 0xa8304613, 0xfd469501,
   0x698098d8, 0x8b44f7af, 0xffff5bb1, 0x895cd7be,
   0x6b901122, 0xfd987193, 0xa679438e, 0x49b40821,
   0xf61e2562, 0xc040b340, 0x265e5a51, 0xe9b6c7aa,
   0xd62f105d, 0x02441453, 0xd8a1e681, 0xe7d3fbc8,
   0x21e1cde6, 0xc33707d6, 0xf4d50d87, 0x455a14ed,
   0xa9e3e905, 0xfcefa3f8, 0x676f02d9, 0x8d2a4c8a,
   0xfffa3942, 0x8771f681, 0x6d9d6122, 0xfde5380c,
   0xa4beea44, 0x4bdecfa9, 0xf6bb4b60, 0xbebfbc70,
   0x289b7ec6, 0xeaa127fa, 0xd4ef3085, 0x04881d05,
   0xd9d4d039, 0xe6db99e5, 0x1fa27cf8, 0xc4ac5665,
   0xf4292244, 0x432aff97, 0xab9423a7, 0xfc93a039,
   0x655b59c3, 0x8f0ccc92, 0xffeff47d, 0x85845dd1,
   0x6fa87e4f, 0xfe2ce6e0, 0xa3014314, 0x4e0811a1,
   0xf7537e82, 0xbd3af235, 0x2ad7d2bb, 0xeb86d391]

/-- The 64 per-round left-rotation amounts. -/
def md5S : List Nat :=
  [7, 12, 17, 22, 7, 12, 17, 22, 7, 12, 17, 22, 7, 12, 17, 22,
   5, 9, 14, 20, 5, 9, 14, 20, 5, 9, 14, 20, 5, 9, 14, 20,
   4, 11, 16, 23, 4, 11, 16, 23, 4, 11, 16, 23, 4, 11, 16, 23,
   6, 10, 15, 21, 6, 10, 15, 21, 6, 10, 15, 21, 6, 10, 15, 21]

/-- MD5 working state: the four chaining words. -/
structure MD5State where
  a : Nat
  b : Nat
  c : Nat
  d : Nat
deriving DecidableEq, Repr

/-- Little-endian 32-bit word `j` of a 64-byte chunk. -/
def chunkWord (chunk : List Nat) (j : Nat) : Nat :=
  chunk.getD (4 * j) 0 + 2 ^ 8 * chunk.getD (4 * j + 1) 0 +
    2 ^ 16 * chunk.getD (4 * j + 2) 0 + 2 ^ 24 * chunk.getD (4 * j + 3) 0

/-- One MD5 round: round index `i`, message accessor by word index. -/
def md5Round (m : Nat → Nat) (st : MD5State) (i : Nat) : MD5State :=
  let fg : Nat × Nat :=
    if i < 16 then ((st.b &&& st.c) ||| (not32 st.b &&& st.d), i)
    else if i < 32 then ((st.d &&& st.b) ||| (not32 st.d &&& st.c), (5 * i + 1) % 16)
    else if i < 48 then (st.b ^^^ st.c ^^^ st.d, (3 * i + 5) % 16)
    else (st.c ^^^ (st.b ||| not32 st.d), (7 * i) % 16)
  let f := w32 (fg.1 + st.a + md5K.getD i 0 + m fg.2)
  { a := st.d, b := w32 (st.b + rotl32 f (md5S.getD i 0)), c := st.b, d := st.c }

/-- Compress one 64-byte chunk into the chaining state. -/
def md5Compress (h : MD5State) (chunk : List Nat) : MD5State :=
  let st := (List.range 64).foldl (md5Round (chunkWord chunk)) h
  { a := w32 (h.a + st.a), b := w32 (h.b + st.b),
    c := w32 (h.c + st.c), d := w32 (h.d + st.d) }

/-- Split a byte list into 64-byte chunks (fuel-bounded; `fuel ≥ length`
completes the split). -/
def chunks64 : Nat → List Nat → List (List Nat)
  | 0, _ => []
  | _, [] => []
  | fuel + 1, bs => bs.take 64 :: chunks64 fuel (bs.drop 64)

/-- MD5 padding: a 0x80 byte, zeros to 56 mod 64, then the original bit
length as a 64-bit little-endian quantity. -/
def md5Pad (msg : List Nat) : List Nat :=
  let lenBits := (8 * msg.length) % 2 ^ 64
  let zeros := (64 + 56 - (msg.length + 1) % 64) % 64
  msg ++ [0x80] ++ List.replicate zeros 0 ++
    (List.range 8).map (fun j => lenBits / 2 ^ (8 * j) % 2 ^ 8)

/-- Serialize a 32-bit word as four little-endian bytes. -/
def wordBytes (x : Nat) : List Nat :=
  [x % 2 ^ 8, x / 2 ^ 8 % 2 ^ 8, x / 2 ^ 16 % 2 ^ 8, x / 2 ^ 24 % 2 ^ 8]

/-- Model of Go `md5.Sum`: the 16 digest bytes of a byte message. -/
def md5Sum (msg : List Nat) : List Nat :=
  let padded := md5Pad msg
  let h := (chunks64 padded.length padded).foldl md5Compress
    ⟨0x67452301, 0xefcdab89, 0x98badcfe, 0x10325476⟩
  wordBytes h.a ++ wordBytes h.b ++ wordBytes h.c ++ wordBytes h.d

/-- Lowercase hexadecimal digit. -/
def hexDigitChar (n : Nat) : Char :=
  if n < 10 then Char.ofNat (48 + n) else Char.ofNat (87 + n)

/-- Render bytes as lowercase hex, two digits per byte (`fmt.Sprintf "%x"`
on a byte array). -/
def bytesToHex (bs : List Nat) : GoStr :=
  bs.flatMap (fun b => [hexDigitChar (b / 16), hexDigitChar (b % 16)])

/-! ## Data model (structs of `internal/m3u/parser.go` and
`internal/epg/parser.go`; the XML serialization tags and the `XMLName`
field, pure wire-format details, are dropped) -/

/-- An M3U playlist entry (`m3u.Channel`). -/
structure M3UChannel where
  Name : GoStr
  URL : GoStr
  TVGID : GoStr
  TVGName : GoStr
  TVGLogo : GoStr
  Group : GoStr
deriving DecidableEq, Repr

/-- A channel or programme icon (`epg.Icon`). -/
structure Icon where
  Src : GoStr
deriving DecidableEq, Repr

/-- An EPG guide channel (`epg.Channel`). -/
structure Channel where
  ID : GoStr
  DisplayName : GoStr
  ChIcon : Icon
deriving DecidableEq, Repr

instance : Inhabited Channel := ⟨⟨[], [], ⟨[]⟩⟩⟩

/-- An EPG programme (`epg.Programme`). -/
structure Programme where
  PChannel : GoStr
  Start : GoStr
  Stop : GoStr
  Title : GoStr
  Description : GoStr
  Category : GoStr
deriving DecidableEq, Repr

/-- An EPG document (`epg.TV`). -/
structure TV where
  Channels : List Channel
  Programs : List Programme
deriving DecidableEq, Repr

/-! ## Lookup tables of `filter.go` -/

/-- Country/region name decorations stripped for normalized matching
(`countryPrefixes`, in source order). -/
def countryPrefixes : List GoStr :=
  [gs "USA  ", gs "World  ", gs "AUS  ",
   gs "US:", gs "AU:", gs "AUS:", gs "UK:", gs "PH:", gs "BR:", gs "CA:",
   gs "NZ:", gs "MX:", gs "ID:",
   gs "USA ", gs "UK ", gs "PH ", gs "BR ", gs "ID ", gs "MY ", gs "MX ",
   gs "AUS ",
   gs "Carib ", gs "World ", gs "Latin ", gs "US "]

/-- Region-code table (`regionPrefixes`).  The Go source iterates this map in
unspecified order; all entries whose key matches a common name agree on the
region code, so the list order chosen here (source textual order) is one
valid refinement. -/
def regionPrefixes : GoMap GoStr GoStr :=
  [(gs "US:", gs "us"), (gs "USA ", gs "us"), (gs "USA  ", gs "us"), (gs "US ", gs "us"),
   (gs "AU:", gs "au"), (gs "AUS:", gs "au"), (gs "AUS ", gs "au"), (gs "AUS  ", gs "au"),
   (gs "UK:", gs "uk"), (gs "UK ", gs "uk"),
   (gs "PH:", gs "ph"), (gs "PH ", gs "ph"),
   (gs "BR:", gs "br"), (gs "BR ", gs "br"),
   (gs "CA:", gs "ca"),
   (gs "NZ:", gs "nz"),
   (gs "MX:", gs "mx"), (gs "MX ", gs "mx"),
   (gs "ID:", gs "id"), (gs "ID ", gs "id"),
   (gs "MY ", gs "my"),
   (gs "Carib ", gs "carib"),
   (gs "World ", gs "world"), (gs "World  ", gs "world"),
   (gs "Latin ", gs "latin")]

/-- Quality/variant decorations stripped anywhere in the name
(`qualitySuffixes`, in source order). -/
def qualitySuffixes : List GoStr :=
  [gs "(HD)", gs "(FHD)", gs "(SD)", gs "(4K)", gs "(UHD)",
   gs "(S)", gs "(A)", gs "(H)", gs "(D)", gs "(C)", gs "(P)", gs "(FL)",
   gs "(F)", gs "(E)", gs "(R)",
   gs "(North America)", gs "(EMEA)", gs "(PRIME)", gs "(TUBI)",
   gs " FHD", gs " HD"]

/-! ## Name normalization (`filter.go`) -/

/-- Model of `extractRegion`: the region code of the first table entry whose
key is a case-insensitive prefix of the name, else empty. -/
def extractRegion (name : GoStr) : GoStr :=
  let upperName := goUpper name
  (regionPrefixes.findSome? fun e =>
    if goStartsWith upperName (goUpper e.1) then some e.2 else none).getD []

/-- The country-prefix stripping phase of `normalizeChannelName`: one linear
pass over `countryPrefixes`; after a strip the scan continues with the next
table entry against the already-stripped name. -/
def stripCountry (name : GoStr) : GoStr :=
  countryPrefixes.foldl
    (fun normalized pre =>
      if goStartsWith (goUpper normalized) (goUpper pre)
      then normalized.drop pre.length else normalized)
    name

/-- Remove every occurrence of `suf` from `s`, leftmost first, repeating
until none remains (the inner `for strings.Contains` loop).  Fuel-bounded:
each removal of a non-empty `suf` strictly shrinks `s`, so `s.length + 1`
fuel completes the loop. -/
def stripAllOcc : Nat → GoStr → GoStr → GoStr
  | 0, _, s => s
  | fuel + 1, suf, s =>
    match goIndex (goUpper s) (goUpper suf) with
    | none => s
    | some idx => stripAllOcc fuel suf (s.take idx ++ s.drop (idx + suf.length))

/-- The quality-suffix stripping phase of `normalizeChannelName`. -/
def stripQuality (name : GoStr) : GoStr :=
  qualitySuffixes.foldl (fun normalized suf => stripAllOcc (normalized.length + 1) suf normalized) name

/-- Model of `normalizeChannelName`: strip country decorations, strip quality
decorations, collapse whitespace, lowercase. -/
def normalizeChannelName (name : GoStr) : GoStr :=
  let normalized := stripQuality (stripCountry name)
  goLower (goTrimSpace (goJoin (goFields normalized) (gs " ")))

/-! ## Building the lookup maps (`filter.go`) -/

/-- Model of `generateChannelID`: lowercase hex MD5 digest of a display
name. -/
def generateChannelID (displayName : GoStr) : GoStr :=
  bytesToHex (md5Sum (displayName.map Char.toNat))

/-- Model of `buildChannelNameMap`: the set of non-empty playlist names. -/
def buildChannelNameMap (m3uChannels : List M3UChannel) : GoMap GoStr Bool :=
  m3uChannels.foldl
    (fun m c => if c.Name ≠ [] then goInsert m c.Name true else m) []

/-- Model of `buildTVGIDMap`: tvg-id to playlist name, for id-based
matching. -/
def buildTVGIDMap (m3uChannels : List M3UChannel) : GoMap GoStr GoStr :=
  m3uChannels.foldl
    (fun m c => if c.TVGID ≠ [] ∧ c.Name ≠ [] then goInsert m c.TVGID c.Name else m) []

/-- Model of `buildCategoryMap`: playlist name to group label. -/
def buildCategoryMap (m3uChannels : List M3UChannel) : GoMap GoStr GoStr :=
  m3uChannels.foldl
    (fun m c => if c.Name ≠ [] ∧ c.Group ≠ [] then goInsert m c.Name c.Group else m) []

/-- Normalized name and region of one playlist entry
(`m3uNormalizedInfo`). -/
structure M3UNormalizedInfo where
  originalName : GoStr
  normalizedName : GoStr
  region : GoStr
deriving DecidableEq, Repr

instance : Inhabited M3UNormalizedInfo := ⟨⟨[], [], []⟩⟩

/-- The local `namesWithTVGID` set of `buildNormalizedNameMap`: playlist
names that occur on some entry carrying a tvg-id. -/
def namesWithTVGIDMap (m3uChannels : List M3UChannel) : GoMap GoStr Bool :=
  m3uChannels.foldl
    (fun m c => if c.TVGID ≠ [] ∧ c.Name ≠ [] then goInsert m c.Name true else m) []

/-- Model of `buildNormalizedNameMap`: normalized playlist name to first
matching entry, restricted to entries without a tvg-id whose name also has no
tvg-id-carrying duplicate. -/
def buildNormalizedNameMap (m3uChannels : List M3UChannel) : GoMap GoStr M3UNormalizedInfo :=
  let namesWithTVGID : GoMap GoStr Bool := namesWithTVGIDMap m3uChannels
  m3uChannels.foldl
    (fun m c =>
      if c.TVGID ≠ [] then m
      else if goLookupD namesWithTVGID c.Name then m
      else if c.Name ≠ [] then
        let normalized := normalizeChannelName c.Name
        if (goLookup m normalized).isNone then
          goInsert m normalized ⟨c.Name, normalized, extractRegion c.Name⟩
        else m
      else m)
    []

/-! ## The channel matcher (`filter.go`) -/

/-- Model of `matcherState` (the logger field is dropped). -/
structure MatcherState where
  epgChannels : List Channel
  matchedChannels : List Channel
  channelIDMap : GoMap GoStr GoStr
  matchedM3U : GoMap GoStr Bool
  matchedEPG : GoMap Nat Bool
  idUsageCount : GoMap GoStr Nat
  epgIDToCandidates : GoMap GoStr (List Nat)
deriving Repr

/-- Model of `newMatcherState`. -/
def newMatcherState (epgChannels : List Channel) : MatcherState :=
  { epgChannels
    matchedChannels := []
    channelIDMap := []
    matchedM3U := []
    matchedEPG := []
    idUsageCount := []
    epgIDToCandidates := (enumFrom 0 epgChannels).foldl
      (fun m ie =>
        if ie.2.ID ≠ [] then goInsert m ie.2.ID (goLookupD m ie.2.ID ++ [ie.1]) else m)
      [] }

/-- Model of `addMatch`: record the pair, hash an empty identifier, suffix a
reused identifier, bump the per-original-identifier usage counter. -/
def addMatch (s : MatcherState) (epgIdx : Nat) (m3uName : GoStr) : MatcherState :=
  let epgCopy := s.epgChannels.getD epgIdx default
  let epgCopy :=
    if epgCopy.ID = [] then { epgCopy with ID := generateChannelID epgCopy.DisplayName }
    else epgCopy
  let originalID := epgCopy.ID
  let epgCopy :=
    match goLookup s.idUsageCount originalID with
    | some count => { epgCopy with ID := originalID ++ '-' :: goItoa (count + 1) }
    | none => epgCopy
  { s with
    matchedEPG := goInsert s.matchedEPG epgIdx true
    matchedM3U := goInsert s.matchedM3U m3uName true
    idUsageCount := goInsert s.idUsageCount originalID (goLookupD s.idUsageCount originalID + 1)
    matchedChannels := s.matchedChannels ++ [epgCopy]
    channelIDMap := goInsert s.channelIDMap epgCopy.ID m3uName }

/-- Accumulator recursion of `findBestTVGIDCandidate`: Go's `bestIdx`
variable becomes the accumulator, the early `return idx` a non-recursive
branch. -/
def findBestTVGIDAux (s : MatcherState) (m3uName : GoStr) :
    List Nat → Option Nat → Option Nat
  | [], best => best
  | idx :: rest, best =>
    if goLookupD s.matchedEPG idx then findBestTVGIDAux s m3uName rest best
    else if (s.epgChannels.getD idx default).DisplayName = m3uName then some idx
    else findBestTVGIDAux s m3uName rest (if best = none then some idx else best)

/-- Model of `findBestTVGIDCandidate` (`none` for Go's -1). -/
def findBestTVGIDCandidate (s : MatcherState) (candidates : List Nat) (m3uName : GoStr) :
    Option Nat :=
  findBestTVGIDAux s m3uName candidates none

/-- Loop body of `matchByTVGID` for one tvg-id map entry. -/
def tvgStep (s : MatcherState) (e : GoStr × GoStr) : MatcherState :=
  if goLookupD s.matchedM3U e.2 then s
  else
    let candidates := goLookupD s.epgIDToCandidates e.1
    if candidates = [] then s
    else
      match findBestTVGIDCandidate s candidates e.2 with
      | some bestIdx => addMatch s bestIdx e.2
      | none => s

/-- Model of `matchByTVGID` (pass 1, the identifier pass). -/
def matchByTVGID (s : MatcherState) (tvgIDMap : GoMap GoStr GoStr) : MatcherState :=
  tvgIDMap.foldl tvgStep s

/-- Loop body of `matchByDisplayName` for one enumerated guide channel. -/
def dispStep (channelNameMap : GoMap GoStr Bool) (s : MatcherState) (ie : Nat × Channel) :
    MatcherState :=
  if goLookupD s.matchedEPG ie.1 then s
  else if ¬ goLookupD channelNameMap ie.2.DisplayName ∨ goLookupD s.matchedM3U ie.2.DisplayName
  then s
  else addMatch s ie.1 ie.2.DisplayName

/-- Model of `matchByDisplayName` (pass 2, the exact display-name pass). -/
def matchByDisplayName (s : MatcherState) (channelNameMap : GoMap GoStr Bool) : MatcherState :=
  (enumFrom 0 s.epgChannels).foldl (dispStep channelNameMap) s

/-- Model of `scoreRegionMatch` (2 same region, 1 no guide region, 0
conflicting regions). -/
def scoreRegionMatch (m3uRegion epgRegion : GoStr) : Int :=
  if m3uRegion ≠ [] ∧ epgRegion = m3uRegion then 2
  else if epgRegion = [] then 1
  else 0

/-- Loop body of `findBestNormalizedMatch`: skip matched guide channels and
normalized-name mismatches, keep the strictly better score. -/
def nbStep (s : MatcherState) (info : M3UNormalizedInfo)
    (acc : Option Nat × Int) (ie : Nat × Channel) : Option Nat × Int :=
  if goLookupD s.matchedEPG ie.1 then acc
  else if normalizeChannelName ie.2.DisplayName ≠ info.normalizedName then acc
  else
    let score := scoreRegionMatch info.region (extractRegion ie.2.DisplayName)
    if score > acc.2 then (some ie.1, score) else acc

/-- Model of `findBestNormalizedMatch`: best-scoring unmatched guide channel
with an equal normalized name, first wins ties (`none` for Go's -1). -/
def findBestNormalizedMatch (s : MatcherState) (info : M3UNormalizedInfo) : Option Nat :=
  ((enumFrom 0 s.epgChannels).foldl (nbStep s info) ((none : Option Nat), (-1 : Int))).1

/-- Loop body of `matchByNormalizedName` for one normalized-map entry. -/
def normPassStep (s : MatcherState) (e : GoStr × M3UNormalizedInfo) : MatcherState :=
  if goLookupD s.matchedM3U e.2.originalName then s
  else
    match findBestNormalizedMatch s e.2 with
    | some bestIdx => addMatch s bestIdx e.2.originalName
    | none => s

/-- Model of `matchByNormalizedName` (pass 3, the normalized-name pass). -/
def matchByNormalizedName (s : MatcherState) (normalizedNameMap : GoMap GoStr M3UNormalizedInfo) :
    MatcherState :=
  normalizedNameMap.foldl normPassStep s

/-- Model of `matchChannels`: the three passes in order (the trailing
`logUnmatched` call only logs and is dropped). -/
def matchChannels (epgChannels : List Channel) (channelNameMap : GoMap GoStr Bool)
    (tvgIDMap : GoMap GoStr GoStr) (normalizedNameMap : GoMap GoStr M3UNormalizedInfo) :
    List Channel × GoMap GoStr GoStr :=
  let st := newMatcherState epgChannels
  let st := matchByTVGID st tvgIDMap
  let st := matchByDisplayName st channelNameMap
  let st := matchByNormalizedName st normalizedNameMap
  (st.matchedChannels, st.channelIDMap)

/-! ## Program filtering, fake data, and the two entry points (`filter.go`) -/

/-- Model of `isNumericSuffix`. -/
def isNumericSuffix (s : GoStr) : Bool :=
  if s = [] then false else (goAtoi s).isSome

/-- The `originalIDMap` loop shared verbatim by `Filter` and
`FilterForMerge`: original identifier to the suffixed identifiers derived
from it, for every map key of the shape `<base>-<numeric suffix>`. -/
def buildOriginalIDMap (channelIDMap : GoMap GoStr GoStr) : GoMap GoStr (List GoStr) :=
  channelIDMap.foldl
    (fun m e =>
      match goLastIndexChar e.1 '-' with
      | some idx =>
        if 0 < idx ∧ isNumericSuffix (e.1.drop (idx + 1)) then
          goInsert m (e.1.take idx) (goLookupD m (e.1.take idx) ++ [e.1])
        else m
      | none => m)
    []

/-- The category rewrite applied to a kept program. -/
def withCategory (categoryMap : GoMap GoStr GoStr) (displayName : GoStr) (p : Programme) :
    Programme :=
  match goLookup categoryMap displayName with
  | some category => { p with Category := category }
  | none => p

/-- The duplicated copy of a program for one suffixed identifier. -/
def duplicateFor (channelIDMap categoryMap : GoMap GoStr GoStr) (p : Programme)
    (suffixedID : GoStr) : Programme :=
  let dup := { p with PChannel := suffixedID }
  match goLookup channelIDMap suffixedID with
  | some displayName => withCategory categoryMap displayName dup
  | none => dup

/-- The program-filtering loop shared verbatim by `Filter` and
`FilterForMerge`: keep matched programs with categories attached, and emit a
rewritten copy for every suffixed identifier sharing the program's original
identifier. -/
def filterProgramsCore (programs : List Programme) (channelIDMap categoryMap : GoMap GoStr GoStr)
    (originalIDMap : GoMap GoStr (List GoStr)) : List Programme :=
  programs.foldl
    (fun acc program =>
      let acc :=
        match goLookup channelIDMap program.PChannel with
        | some displayName => acc ++ [withCategory categoryMap displayName program]
        | none => acc
      match goLookup originalIDMap program.PChannel with
      | some suffixedIDs =>
        acc ++ suffixedIDs.map (duplicateFor channelIDMap categoryMap program)
      | none => acc)
    []

/-- The `channelsWithPrograms` set accumulated by `Filter`'s program loop. -/
def channelsWithProgramsOf (programs : List Programme) (channelIDMap : GoMap GoStr GoStr)
    (originalIDMap : GoMap GoStr (List GoStr)) : GoMap GoStr Bool :=
  programs.foldl
    (fun acc program =>
      let acc :=
        if (goLookup channelIDMap program.PChannel).isSome then
          goInsert acc program.PChannel true
        else acc
      match goLookup originalIDMap program.PChannel with
      | some suffixedIDs => suffixedIDs.foldl (fun acc sid => goInsert acc sid true) acc
      | none => acc)
    []

/-- Model of `generateFakeEPGData`: synthetic guide channels for playlist
entries with a non-empty name not matched by any map value. -/
def generateFakeEPGData (m3uChannels : List M3UChannel) (channelIDMap : GoMap GoStr GoStr) :
    List Channel :=
  let matchedM3UNames : GoMap GoStr Bool :=
    channelIDMap.foldl (fun m e => goInsert m e.2 true) []
  m3uChannels.foldl
    (fun acc c =>
      if goLookupD matchedM3UNames c.Name then acc
      else if c.Name = [] then acc
      else acc ++ [{ ID := generateChannelID c.Name, DisplayName := c.Name,
                     ChIcon := ⟨c.TVGLogo⟩ }])
    []

/-- Model of `generateFakePrograms`: one fixed-window placeholder program for
every channel without programs. -/
def generateFakePrograms (channels : List Channel) (channelsWithPrograms : GoMap GoStr Bool)
    (categoryMap channelIDMap : GoMap GoStr GoStr) : List Programme :=
  channels.foldl
    (fun acc ch =>
      if goLookupD channelsWithPrograms ch.ID then acc
      else
        let displayName := (goLookup channelIDMap ch.ID).getD ch.DisplayName
        acc ++ [{ PChannel := ch.ID
                  Start := gs "20260101000000 +0000"
                  Stop := gs "20260101235959 +0000"
                  Title := displayName
                  Description := gs "No programme information available"
                  Category := goLookupD categoryMap displayName }])
    []

/-- Result of filtering one EPG source (`FilterResult`; the `EPG` pointer may
be nil in Go, hence the `Option`). -/
structure FilterResult where
  epg : Option TV
  channelMap : GoMap GoStr GoStr
deriving DecidableEq, Repr

/-- Model of `FilterForMerge`: filter one source without fake data. -/
def FilterForMerge (epgData : TV) (m3uChannels : List M3UChannel) : FilterResult :=
  let channelNameMap := buildChannelNameMap m3uChannels
  let tvgIDMap := buildTVGIDMap m3uChannels
  let normalizedNameMap := buildNormalizedNameMap m3uChannels
  let categoryMap := buildCategoryMap m3uChannels
  let mc := matchChannels epgData.Channels channelNameMap tvgIDMap normalizedNameMap
  let originalIDMap := buildOriginalIDMap mc.2
  let filteredPrograms := filterProgramsCore epgData.Programs mc.2 categoryMap originalIDMap
  { epg := some ⟨mc.1, filteredPrograms⟩, channelMap := mc.2 }

/-- Model of `Filter`: filter one source and synthesize fake channels and
placeholder programs. -/
def Filter (epgData : TV) (m3uChannels : List M3UChannel) : TV × GoMap GoStr GoStr :=
  let channelNameMap := buildChannelNameMap m3uChannels
  let tvgIDMap := buildTVGIDMap m3uChannels
  let normalizedNameMap := buildNormalizedNameMap m3uChannels
  let categoryMap := buildCategoryMap m3uChannels
  let mc := matchChannels epgData.Channels channelNameMap tvgIDMap normalizedNameMap
  let originalIDMap := buildOriginalIDMap mc.2
  let filteredPrograms := filterProgramsCore epgData.Programs mc.2 categoryMap originalIDMap
  let channelsWithPrograms := channelsWithProgramsOf epgData.Programs mc.2 originalIDMap
  let fakeChannels := generateFakeEPGData m3uChannels mc.2
  let matchedChannels := mc.1 ++ fakeChannels
  let channelIDMap := fakeChannels.foldl (fun m ch => goInsert m ch.ID ch.DisplayName) mc.2
  let fakePrograms :=
    generateFakePrograms matchedChannels channelsWithPrograms categoryMap channelIDMap
  (⟨matchedChannels, filteredPrograms ++ fakePrograms⟩, channelIDMap)

/-! ## Multi-source merge (`MergeEPGs`) -/

/-- Merged result from multiple sources (`MergeResult`). -/
structure MergeResult where
  Channels : List Channel
  Programs : List Programme
  ChannelMap : GoMap GoStr GoStr
deriving DecidableEq, Repr

/-- Model of `hasOverlap`: a program duplicates an existing one exactly when
its start timestamp is already present. -/
def hasOverlap (existing : List Programme) (newProg : Programme) : Bool :=
  existing.any (fun p => p.Start = newProg.Start)

/-- Mutable state of the `MergeEPGs` loop. -/
structure MergeAcc where
  m3uToEPGID : GoMap GoStr GoStr
  channelPrograms : GoMap GoStr (List Programme)
  outChannels : List Channel
  outChannelMap : GoMap GoStr GoStr
deriving Repr

/-- One iteration of the program-merge loop of `MergeEPGs`: skip programs of
other channels, remap to the primary identifier, drop duplicate starts. -/
def progStep (eid primaryID : GoStr) (cp : GoMap GoStr (List Programme)) (prog : Programme) :
    GoMap GoStr (List Programme) :=
  if prog.PChannel ≠ eid then cp
  else
    let remapped := { prog with PChannel := primaryID }
    if hasOverlap (goLookupD cp primaryID) remapped then cp
    else goInsert cp primaryID (goLookupD cp primaryID ++ [remapped])

/-- Body of `MergeEPGs` for one `(guide identifier, playlist name)` pair of
one source: claim the name when unclaimed (copying the first channel with
that identifier, display name overwritten), then merge that identifier's
programs into the primary identifier's bucket, skipping duplicate starts. -/
def mergePair (tv : TV) (acc : MergeAcc) (e : GoStr × GoStr) : MergeAcc :=
  let acc :=
    if (goLookup acc.m3uToEPGID e.2).isNone then
      { acc with
        m3uToEPGID := goInsert acc.m3uToEPGID e.2 e.1
        outChannelMap := goInsert acc.outChannelMap e.1 e.2
        outChannels := acc.outChannels ++
          (match tv.Channels.find? (fun ch => ch.ID = e.1) with
           | some ch => [{ ch with DisplayName := e.2 }]
           | none => []) }
    else acc
  let primaryID := goLookupD acc.m3uToEPGID e.2
  { acc with
    channelPrograms := tv.Programs.foldl (progStep e.1 primaryID) acc.channelPrograms }

/-- Body of `MergeEPGs` for one source: skip nil results and nil guides, else
process every map pair. -/
def mergeSource (acc : MergeAcc) (r : Option FilterResult) : MergeAcc :=
  match r with
  | none => acc
  | some fr =>
    match fr.epg with
    | none => acc
    | some tv => fr.channelMap.foldl (mergePair tv) acc

/-- Model of `MergeEPGs`: earlier sources have priority; program buckets are
flattened at the end (the early return for an empty input list yields the
same empty result and is dropped). -/
def MergeEPGs (results : List (Option FilterResult)) : MergeResult :=
  let acc := results.foldl mergeSource ⟨[], [], [], []⟩
  { Channels := acc.outChannels
    Programs := acc.channelPrograms.foldl (fun ps e => ps ++ e.2) []
    ChannelMap := acc.outChannelMap }

/-- The original (pre-suffix) identifier `addMatch` works with: the guide
channel's identifier, or the content hash of its display name when empty. -/
def origIDOf (ch : Channel) : GoStr :=
  if ch.ID = [] then generateChannelID ch.DisplayName else ch.ID

/-! ## Spec-side definitions used by refinement statements -/

/-- Spec reading of the prefix phase asserted by claim C3: strip only the
first matching list entry, then stop, so at most one prefix is ever removed
from one input. -/
def stripCountryOnceSpec (name : GoStr) : GoStr :=
  match countryPrefixes.find? (fun pre => goStartsWith (goUpper name) (goUpper pre)) with
  | some pre => name.drop pre.length
  | none => name

/-! ## Claim C4 -/

set_option maxRecDepth 40000 in
/-- C4: the normalizer maps "US: ESPN", "ESPN" and "USA  ESPN (HD)" (two
spaces after USA) to one and the same string "espn". -/
theorem c4_normalize_espn_variants :
    normalizeChannelName (gs "US: ESPN") = gs "espn" ∧
    normalizeChannelName (gs "ESPN") = gs "espn" ∧
    normalizeChannelName (gs "USA  ESPN (HD)") = gs "espn" ∧
    normalizeChannelName (gs "US: ESPN") = normalizeChannelName (gs "ESPN") ∧
    normalizeChannelName (gs "ESPN") = normalizeChannelName (gs "USA  ESPN (HD)") := by
  decide

/-! ## Claim C3 -/

set_option maxRecDepth 40000 in
/-- C3 counterexample: on the input "US:UK: Foo" the normalizer strips two
prefixes of the ordered list — "US:" first, then "UK:" later in the same
linear pass — so its prefix phase differs from the at-most-one-strip reading,
refuting "no second prefix removal occurs on the same input". -/
theorem c3_counterexample_two_strips :
    stripCountry (gs "US:UK: Foo") = gs " Foo" ∧
    stripCountryOnceSpec (gs "US:UK: Foo") = gs "UK: Foo" ∧
    stripCountry (gs "US:UK: Foo") ≠ stripCountryOnceSpec (gs "US:UK: Foo") ∧
    normalizeChannelName (gs "US:UK: Foo") = gs "foo" ∧
    gs "US:" ∈ countryPrefixes ∧ gs "UK:" ∈ countryPrefixes ∧
    gs "US:UK: Foo" = gs "US:" ++ gs "UK:" ++ gs " Foo" := by
  decide

/-- Upper-casing distributes over append. -/
theorem goUpper_append (a b : GoStr) : goUpper (a ++ b) = goUpper a ++ goUpper b :=
  List.map_append upChar a b

/-- Upper-casing commutes with take. -/
theorem goUpper_take (l : GoStr) (n : Nat) : goUpper (l.take n) = (goUpper l).take n :=
  List.map_take upChar l n

/-- Upper-casing preserves length. -/
theorem goUpper_length (l : GoStr) : (goUpper l).length = l.length :=
  List.length_map l upChar

/-- The prefix phase of the normalizer over any ordered table is a single
linear pass: the removed part of the input is the concatenation (up to case)
of a sublist of the table, so each table entry strips at most once, in table
order, with no re-scan. -/
theorem stripFold_single_pass (L : List GoStr) :
    ∀ name : GoStr, ∃ ps t, List.Sublist ps L ∧
      name = t ++ L.foldl (fun normalized pre =>
          if goStartsWith (goUpper normalized) (goUpper pre)
          then normalized.drop pre.length else normalized) name ∧
      goUpper t = goUpper ps.flatten := by
  induction L with
  | nil =>
    intro name
    exact ⟨[], [], List.Sublist.refl _, rfl, rfl⟩
  | cons pre L ih =>
    intro name
    rw [List.foldl_cons]
    by_cases h : goStartsWith (goUpper name) (goUpper pre) = true
    · obtain ⟨ps, t, hps, heq, hup⟩ := ih (name.drop pre.length)
      have hpre : goUpper pre <+: goUpper name := by
        rw [← List.isPrefixOf_iff_prefix]
        simpa [goStartsWith] using h
      have htake : goUpper (name.take pre.length) = goUpper pre := by
        rw [goUpper_take]
        have := List.prefix_iff_eq_take.mp hpre
        rw [goUpper_length] at this
        exact this.symm
      refine ⟨pre :: ps, name.take pre.length ++ t, List.Sublist.cons₂ _ hps, ?_, ?_⟩
      · rw [if_pos h, List.append_assoc, ← heq]
        exact (List.take_append_drop _ name).symm
      · rw [goUpper_append, htake, hup, List.flatten_cons, goUpper_append]
    · obtain ⟨ps, t, hps, heq, hup⟩ := ih name
      rw [if_neg h]
      exact ⟨ps, t, List.Sublist.cons _ hps, heq, hup⟩

/-- C3 amended: the region-prefix stripping is one linear pass over the
ordered list — the removed part of the name is, up to letter case, the
concatenation of a sublist of `countryPrefixes` (each list entry strips at
most once, in order, and the list is never re-scanned from the start) — but
more than one prefix may be removed from a single input. -/
theorem c3_strip_is_single_ordered_pass (name : GoStr) :
    ∃ ps t, List.Sublist ps countryPrefixes ∧ name = t ++ stripCountry name ∧
      goUpper t = goUpper ps.flatten :=
  stripFold_single_pass countryPrefixes name

/-! ## Association-list map lemmas -/

theorem goLookup_goInsert_self [DecidableEq α] (m : GoMap α β) (k : α) (v : β) :
    goLookup (goInsert m k v) k = some v := by
  induction m with
  | nil => simp [goInsert, goLookup, List.find?]
  | cons e rest ih =>
    obtain ⟨k', v'⟩ := e
    by_cases h : k' = k
    · simp [goInsert, h, goLookup, List.find?]
    · simpa [goInsert, h, goLookup, List.find?] using ih

theorem goLookup_goInsert_ne [DecidableEq α] (m : GoMap α β) (k k' : α) (v : β)
    (h : k' ≠ k) : goLookup (goInsert m k v) k' = goLookup m k' := by
  induction m with
  | nil => simp [goInsert, goLookup, List.find?, Ne.symm h]
  | cons e rest ih =>
    obtain ⟨k₀, v₀⟩ := e
    by_cases h₀ : k₀ = k
    · subst h₀
      simp [goInsert, goLookup, List.find?, Ne.symm h]
    · by_cases h₁ : k₀ = k'
      · simp [goInsert, h₀, h, goLookup, List.find?, h₁]
      · simpa [goInsert, h₀, goLookup, List.find?, h₁] using ih

theorem goLookupD_goInsert_self [DecidableEq α] [Inhabited β] (m : GoMap α β) (k : α) (v : β) :
    goLookupD (goInsert m k v) k = v := by
  simp [goLookupD, goLookup_goInsert_self]

theorem goLookupD_goInsert_ne [DecidableEq α] [Inhabited β] (m : GoMap α β) (k k' : α) (v : β)
    (h : k' ≠ k) : goLookupD (goInsert m k v) k' = goLookupD m k' := by
  simp [goLookupD, goLookup_goInsert_ne m k k' v h]

theorem mem_goInsert [DecidableEq α] (m : GoMap α β) (k : α) (v : β) (e : α × β) :
    e ∈ goInsert m k v → e = (k, v) ∨ e ∈ m := by
  induction m with
  | nil => simp [goInsert]
  | cons e₀ rest ih =>
    obtain ⟨k₀, v₀⟩ := e₀
    by_cases h : k₀ = k
    · simp only [goInsert, if_pos h, List.mem_cons]
      rintro (rfl | hm)
      · exact Or.inl rfl
      · exact Or.inr (Or.inr hm)
    · simp only [goInsert, if_neg h, List.mem_cons]
      rintro (rfl | hm)
      · exact Or.inr (Or.inl rfl)
      · rcases ih hm with h' | h'
        · exact Or.inl h'
        · exact Or.inr (Or.inr h')

/-- Any playlist entry with a tvg-id and a non-empty name is recorded in the
`namesWithTVGID` set, whatever the fold started from. -/
theorem namesWithTVGID_lookup_true (l : List M3UChannel) :
    ∀ (init : GoMap GoStr Bool) (c : M3UChannel),
      (goLookupD init c.Name = true ∨ (c ∈ l ∧ c.TVGID ≠ [] ∧ c.Name ≠ [])) →
      goLookupD (l.foldl
        (fun m x => if x.TVGID ≠ [] ∧ x.Name ≠ [] then goInsert m x.Name true else m) init)
        c.Name = true := by
  induction l with
  | nil =>
    intro init c h
    rcases h with h | ⟨h, _⟩
    · exact h
    · simp at h
  | cons x l ih =>
    intro init c h
    rw [List.foldl_cons]
    rcases h with h | ⟨hc, ht, hn⟩
    · refine ih _ c (Or.inl ?_)
      by_cases hx : x.TVGID ≠ [] ∧ x.Name ≠ []
      · rw [if_pos hx]
        by_cases hk : c.Name = x.Name
        · rw [hk, goLookupD_goInsert_self]
        · rw [goLookupD_goInsert_ne _ _ _ _ hk]
          exact h
      · rw [if_neg hx]
        exact h
    · rcases List.mem_cons.mp hc with rfl | hc'
      · refine ih _ c (Or.inl ?_)
        rw [if_pos ⟨ht, hn⟩, goLookupD_goInsert_self]
      · exact ih _ c (Or.inr ⟨hc', ht, hn⟩)

/-- Every entry of the normalized-name map stems from a playlist entry with a
non-empty name that is absent from the `namesWithTVGID` set. -/
theorem buildNormalizedNameMap_originalName (m3uChannels : List M3UChannel) :
    ∀ e ∈ buildNormalizedNameMap m3uChannels,
      e.2.originalName ≠ [] ∧
      goLookupD (namesWithTVGIDMap m3uChannels) e.2.originalName = false := by
  show ∀ e ∈ m3uChannels.foldl _ [], _
  have main : ∀ (l : List M3UChannel) (init : GoMap GoStr M3UNormalizedInfo),
      (∀ e ∈ init, e.2.originalName ≠ [] ∧
        goLookupD (namesWithTVGIDMap m3uChannels) e.2.originalName = false) →
      ∀ e ∈ l.foldl
        (fun m c =>
          if c.TVGID ≠ [] then m
          else if goLookupD (namesWithTVGIDMap m3uChannels) c.Name then m
          else if c.Name ≠ [] then
            let normalized := normalizeChannelName c.Name
            if (goLookup m normalized).isNone then
              goInsert m normalized ⟨c.Name, normalized, extractRegion c.Name⟩
            else m
          else m) init,
        e.2.originalName ≠ [] ∧
        goLookupD (namesWithTVGIDMap m3uChannels) e.2.originalName = false := by
    intro l
    induction l with
    | nil => intro init hinit e he; exact hinit e he
    | cons c l ih =>
      intro init hinit e he
      rw [List.foldl_cons] at he
      refine ih _ ?_ e he
      intro e' he'
      by_cases h₁ : c.TVGID ≠ []
      · rw [if_pos h₁] at he'
        exact hinit e' he'
      · rw [if_neg h₁] at he'
        by_cases h₂ : goLookupD (namesWithTVGIDMap m3uChannels) c.Name = true
        · rw [if_pos h₂] at he'
          exact hinit e' he'
        · rw [if_neg h₂] at he'
          by_cases h₃ : c.Name ≠ []
          · rw [if_pos h₃] at he'
            simp only at he'
            by_cases h₄ : (goLookup init (normalizeChannelName c.Name)).isNone = true
            · rw [if_pos h₄] at he'
              rcases mem_goInsert _ _ _ _ he' with rfl | hm
              · exact ⟨h₃, Bool.not_eq_true _ ▸ (by simpa using h₂)⟩
              · exact hinit e' hm
            · rw [if_neg h₄] at he'
              exact hinit e' he'
          · rw [if_neg h₃] at he'
            exact hinit e' he'
  exact main m3uChannels [] (by simp)

/-- Unfolding of the normalized-name pass by one map entry. -/
theorem matchByNormalizedName_cons (s : MatcherState) (e : GoStr × M3UNormalizedInfo)
    (m : GoMap GoStr M3UNormalizedInfo) :
    matchByNormalizedName s (e :: m) = matchByNormalizedName
      (if goLookupD s.matchedM3U e.2.originalName then s
       else match findBestNormalizedMatch s e.2 with
            | some bestIdx => addMatch s bestIdx e.2.originalName
            | none => s) m := rfl

/-- The normalized-name pass can change the matched status only of names
that occur as the original name of some normalized-map entry. -/
theorem matchByNormalizedName_matchedM3U_stable (m : GoMap GoStr M3UNormalizedInfo) :
    ∀ (s : MatcherState) (name : GoStr),
      (∀ e ∈ m, e.2.originalName ≠ name) →
      goLookupD (matchByNormalizedName s m).matchedM3U name = goLookupD s.matchedM3U name := by
  induction m with
  | nil => intro s name _; rfl
  | cons e m ih =>
    intro s name hne
    have hne' : ∀ e' ∈ m, e'.2.originalName ≠ name := fun e' he' =>
      hne e' (List.mem_cons_of_mem _ he')
    rw [matchByNormalizedName_cons]
    by_cases h₁ : goLookupD s.matchedM3U e.2.originalName = true
    · rw [if_pos h₁]
      exact ih s name hne'
    · rw [if_neg h₁]
      rcases hbest : findBestNormalizedMatch s e.2 with _ | bestIdx
      · exact ih s name hne'
      · rw [ih _ name hne']
        show goLookupD (goInsert s.matchedM3U e.2.originalName true) name = _
        exact goLookupD_goInsert_ne _ _ _ _
          (fun hcontra => hne e (List.mem_cons_self _ _) (hcontra ▸ rfl))

/-! ## Claim C1 -/

/-- C1 amended: a playlist entry carrying a non-empty guide-id hint is never
claimed by the normalized-name pass — that pass leaves its matched status
untouched — though (per the counterexample) it can still be claimed by the
exact display-name pass when its hint resolves to no guide channel. -/
theorem c1_idhint_never_claimed_by_normalized_pass
    (m3uChannels : List M3UChannel) (c : M3UChannel) (s : MatcherState)
    (hc : c ∈ m3uChannels) (ht : c.TVGID ≠ []) :
    goLookupD (matchByNormalizedName s (buildNormalizedNameMap m3uChannels)).matchedM3U c.Name
      = goLookupD s.matchedM3U c.Name := by
  apply matchByNormalizedName_matchedM3U_stable
  intro e he heq
  obtain ⟨hne, hfalse⟩ := buildNormalizedNameMap_originalName m3uChannels e he
  by_cases hn : c.Name = []
  · exact hne (heq.trans hn)
  · have htrue := namesWithTVGID_lookup_true m3uChannels [] c (Or.inr ⟨hc, ht, hn⟩)
    rw [heq] at hfalse
    rw [show (namesWithTVGIDMap m3uChannels : GoMap GoStr Bool)
      = m3uChannels.foldl
          (fun m x => if x.TVGID ≠ [] ∧ x.Name ≠ [] then goInsert m x.Name true else m) []
      from rfl] at hfalse
    rw [htrue] at hfalse
    simp at hfalse

/-- C1 witness: the amended theorem applied to the concrete entry
"ESPN"/hint "x.id" and the freshly initialized matcher state. -/
theorem c1_idhint_never_claimed_by_normalized_pass_witness :
    goLookupD (matchByNormalizedName (newMatcherState [])
        (buildNormalizedNameMap [⟨gs "ESPN", [], gs "x.id", [], [], []⟩])).matchedM3U (gs "ESPN")
      = goLookupD (newMatcherState []).matchedM3U (gs "ESPN") :=
  c1_idhint_never_claimed_by_normalized_pass
    [⟨gs "ESPN", [], gs "x.id", [], [], []⟩] ⟨gs "ESPN", [], gs "x.id", [], [], []⟩
    (newMatcherState []) (by decide) (by decide)

set_option maxRecDepth 80000 in
/-- C1 counterexample: a playlist entry named "ESPN" with guide-id hint
"nonexistent.id" that no guide channel bears — the identifier pass matches
nothing — is nonetheless claimed by the exact display-name pass, refuting
"it is never claimed by the exact display-name pass". -/
theorem c1_counterexample_display_name_retry :
    (∀ ch ∈ ([⟨gs "other.id", gs "ESPN", ⟨[]⟩⟩] : List Channel), ch.ID ≠ gs "nonexistent.id") ∧
    (matchByTVGID (newMatcherState [⟨gs "other.id", gs "ESPN", ⟨[]⟩⟩])
        (buildTVGIDMap [⟨gs "ESPN", [], gs "nonexistent.id", [], [], []⟩])).matchedM3U = [] ∧
    (matchChannels [⟨gs "other.id", gs "ESPN", ⟨[]⟩⟩]
        (buildChannelNameMap [⟨gs "ESPN", [], gs "nonexistent.id", [], [], []⟩])
        (buildTVGIDMap [⟨gs "ESPN", [], gs "nonexistent.id", [], [], []⟩])
        (buildNormalizedNameMap [⟨gs "ESPN", [], gs "nonexistent.id", [], [], []⟩])).2
      = [(gs "other.id", gs "ESPN")] := by
  decide

/-! ## Claim C2 -/

set_option maxRecDepth 80000 in
/-- C2 counterexample: a guide whose channels carry identifiers "a", "a",
"a-2" matched against playlist names "X", "Y", "Z" yields the finalized
identifier list ["a", "a-2", "a-2"], which is not duplicate-free — the
dedupe suffix collides with a native dash-digit identifier. -/
theorem c2_counterexample_duplicate_final_ids :
    ((matchChannels
        [⟨gs "a", gs "X", ⟨[]⟩⟩, ⟨gs "a", gs "Y", ⟨[]⟩⟩, ⟨gs "a-2", gs "Z", ⟨[]⟩⟩]
        (buildChannelNameMap [⟨gs "X", [], [], [], [], []⟩, ⟨gs "Y", [], [], [], [], []⟩,
          ⟨gs "Z", [], [], [], [], []⟩])
        (buildTVGIDMap [⟨gs "X", [], [], [], [], []⟩, ⟨gs "Y", [], [], [], [], []⟩,
          ⟨gs "Z", [], [], [], [], []⟩])
        (buildNormalizedNameMap [⟨gs "X", [], [], [], [], []⟩, ⟨gs "Y", [], [], [], [], []⟩,
          ⟨gs "Z", [], [], [], [], []⟩])).1.map Channel.ID)
      = [gs "a", gs "a-2", gs "a-2"] ∧
    ¬ ((matchChannels
        [⟨gs "a", gs "X", ⟨[]⟩⟩, ⟨gs "a", gs "Y", ⟨[]⟩⟩, ⟨gs "a-2", gs "Z", ⟨[]⟩⟩]
        (buildChannelNameMap [⟨gs "X", [], [], [], [], []⟩, ⟨gs "Y", [], [], [], [], []⟩,
          ⟨gs "Z", [], [], [], [], []⟩])
        (buildTVGIDMap [⟨gs "X", [], [], [], [], []⟩, ⟨gs "Y", [], [], [], [], []⟩,
          ⟨gs "Z", [], [], [], [], []⟩])
        (buildNormalizedNameMap [⟨gs "X", [], [], [], [], []⟩, ⟨gs "Y", [], [], [], [], []⟩,
          ⟨gs "Z", [], [], [], [], []⟩])).1.map Channel.ID).Nodup := by
  decide

/-! ## Claim C5 -/

set_option maxRecDepth 200000 in
/-- C5: within one run (the usage counter starts empty), the first channel
finalized with a given original identifier keeps it, the next one with prior
use count `count` is rewritten to `<id>-(count+1)`, and the counter is keyed
by the original pre-suffix identifier; concretely, a guide with two channels
both "same.id" matched to two distinct playlist names yields "same.id" and
"same.id-2". -/
theorem c5_dedupe_suffixing (s : MatcherState) (epgIdx : Nat) (m3uName : GoStr) :
    (goLookup s.idUsageCount (origIDOf (s.epgChannels.getD epgIdx default)) = none →
      (addMatch s epgIdx m3uName).matchedChannels = s.matchedChannels ++
        [{ s.epgChannels.getD epgIdx default with
           ID := origIDOf (s.epgChannels.getD epgIdx default) }]) ∧
    ((∀ count, goLookup s.idUsageCount (origIDOf (s.epgChannels.getD epgIdx default))
        = some count →
      (addMatch s epgIdx m3uName).matchedChannels = s.matchedChannels ++
        [{ s.epgChannels.getD epgIdx default with
           ID := origIDOf (s.epgChannels.getD epgIdx default) ++ '-' :: goItoa (count + 1) }]) ∧
    (addMatch s epgIdx m3uName).idUsageCount =
      goInsert s.idUsageCount (origIDOf (s.epgChannels.getD epgIdx default))
        (goLookupD s.idUsageCount (origIDOf (s.epgChannels.getD epgIdx default)) + 1) ∧
    (∀ epgChs : List Channel, (newMatcherState epgChs).idUsageCount = []) ∧
    ((matchChannels
        [⟨gs "same.id", gs "Channel A", ⟨[]⟩⟩, ⟨gs "same.id", gs "Channel B", ⟨[]⟩⟩]
        (buildChannelNameMap [⟨gs "Channel A", [], [], [], [], []⟩,
          ⟨gs "Channel B", [], [], [], [], []⟩])
        (buildTVGIDMap [⟨gs "Channel A", [], [], [], [], []⟩,
          ⟨gs "Channel B", [], [], [], [], []⟩])
        (buildNormalizedNameMap [⟨gs "Channel A", [], [], [], [], []⟩,
          ⟨gs "Channel B", [], [], [], [], []⟩])).1.map Channel.ID
      = [gs "same.id", gs "same.id-2"] ∧
     (matchChannels
        [⟨gs "same.id", gs "Channel A", ⟨[]⟩⟩, ⟨gs "same.id", gs "Channel B", ⟨[]⟩⟩]
        (buildChannelNameMap [⟨gs "Channel A", [], [], [], [], []⟩,
          ⟨gs "Channel B", [], [], [], [], []⟩])
        (buildTVGIDMap [⟨gs "Channel A", [], [], [], [], []⟩,
          ⟨gs "Channel B", [], [], [], [], []⟩])
        (buildNormalizedNameMap [⟨gs "Channel A", [], [], [], [], []⟩,
          ⟨gs "Channel B", [], [], [], [], []⟩])).2
      = [(gs "same.id", gs "Channel A"), (gs "same.id-2", gs "Channel B")])) := by
  refine ⟨?_, ?_, ?_, ?_, by decide⟩
  · intro h
    by_cases hid : (s.epgChannels.getD epgIdx default).ID = []
    · rw [origIDOf, if_pos hid] at h ⊢
      simp only [addMatch]
      rw [if_pos hid, h]
    · rw [origIDOf, if_neg hid] at h ⊢
      simp only [addMatch]
      rw [if_neg hid, h]
  · intro count h
    by_cases hid : (s.epgChannels.getD epgIdx default).ID = []
    · rw [origIDOf, if_pos hid] at h ⊢
      simp only [addMatch]
      rw [if_pos hid, h]
    · rw [origIDOf, if_neg hid] at h ⊢
      simp only [addMatch]
      rw [if_neg hid, h]
  · by_cases hid : (s.epgChannels.getD epgIdx default).ID = []
    · rw [origIDOf, if_pos hid]
      simp only [addMatch]
      rw [if_pos hid]
    · rw [origIDOf, if_neg hid]
      simp only [addMatch]
      rw [if_neg hid]
  · intro epgChs
    rfl

set_option maxRecDepth 200000 in
/-- C5 witness: the dedupe theorem applied to the concrete two-channel
"same.id" guide — the first finalization keeps "same.id" (usage counter
empty), the second is rewritten with suffix 2. -/
theorem c5_dedupe_suffixing_witness :
    (addMatch (newMatcherState
        [⟨gs "same.id", gs "Channel A", ⟨[]⟩⟩, ⟨gs "same.id", gs "Channel B", ⟨[]⟩⟩])
        0 (gs "Channel A")).matchedChannels
      = (newMatcherState
          [⟨gs "same.id", gs "Channel A", ⟨[]⟩⟩,
           ⟨gs "same.id", gs "Channel B", ⟨[]⟩⟩]).matchedChannels ++
        [{ (newMatcherState
            [⟨gs "same.id", gs "Channel A", ⟨[]⟩⟩,
             ⟨gs "same.id", gs "Channel B", ⟨[]⟩⟩]).epgChannels.getD 0 default with
           ID := origIDOf ((newMatcherState
            [⟨gs "same.id", gs "Channel A", ⟨[]⟩⟩,
             ⟨gs "same.id", gs "Channel B", ⟨[]⟩⟩]).epgChannels.getD 0 default) }] ∧
    (addMatch (addMatch (newMatcherState
        [⟨gs "same.id", gs "Channel A", ⟨[]⟩⟩, ⟨gs "same.id", gs "Channel B", ⟨[]⟩⟩])
        0 (gs "Channel A")) 1 (gs "Channel B")).matchedChannels
      = (addMatch (newMatcherState
          [⟨gs "same.id", gs "Channel A", ⟨[]⟩⟩, ⟨gs "same.id", gs "Channel B", ⟨[]⟩⟩])
          0 (gs "Channel A")).matchedChannels ++
        [{ (addMatch (newMatcherState
            [⟨gs "same.id", gs "Channel A", ⟨[]⟩⟩, ⟨gs "same.id", gs "Channel B", ⟨[]⟩⟩])
            0 (gs "Channel A")).epgChannels.getD 1 default with
           ID := origIDOf ((addMatch (newMatcherState
            [⟨gs "same.id", gs "Channel A", ⟨[]⟩⟩, ⟨gs "same.id", gs "Channel B", ⟨[]⟩⟩])
            0 (gs "Channel A")).epgChannels.getD 1 default) ++ '-' :: goItoa (1 + 1) }] :=
  ⟨(c5_dedupe_suffixing _ 0 (gs "Channel A")).1 (by decide),
   (c5_dedupe_suffixing _ 1 (gs "Channel B")).2.1 1 (by decide)⟩

/-! ## Claim C6 -/

/-- Pair-level eligibility in the normalized pass: guide index unmatched and
normalized display name equal to the target. -/
def pairElig (s : MatcherState) (info : M3UNormalizedInfo) (ie : Nat × Channel) : Prop :=
  goLookupD s.matchedEPG ie.1 = false ∧
    normalizeChannelName ie.2.DisplayName = info.normalizedName

instance (s : MatcherState) (info : M3UNormalizedInfo) (ie : Nat × Channel) :
    Decidable (pairElig s info ie) := by
  unfold pairElig
  infer_instance

/-- Pair-level region-agreement score. -/
def pairScore (info : M3UNormalizedInfo) (ie : Nat × Channel) : Int :=
  scoreRegionMatch info.region (extractRegion ie.2.DisplayName)

/-- Index-level eligibility in the normalized pass. -/
def normEligible (s : MatcherState) (info : M3UNormalizedInfo) (i : Nat) : Prop :=
  i < s.epgChannels.length ∧ goLookupD s.matchedEPG i = false ∧
    normalizeChannelName (s.epgChannels.getD i default).DisplayName = info.normalizedName

/-- Index-level region-agreement score. -/
def normScore (s : MatcherState) (info : M3UNormalizedInfo) (i : Nat) : Int :=
  scoreRegionMatch info.region (extractRegion (s.epgChannels.getD i default).DisplayName)

theorem nbStep_not_elig {s : MatcherState} {info : M3UNormalizedInfo}
    {ie : Nat × Channel} (acc : Option Nat × Int) (h : ¬ pairElig s info ie) :
    nbStep s info acc ie = acc := by
  unfold nbStep
  by_cases h1 : goLookupD s.matchedEPG ie.1 = true
  · rw [if_pos h1]
  · rw [if_neg h1]
    have hB : normalizeChannelName ie.2.DisplayName ≠ info.normalizedName := by
      intro hb
      exact h ⟨Bool.not_eq_true _ ▸ (Bool.eq_false_iff.mpr h1), hb⟩
    rw [if_pos hB]

theorem nbStep_elig {s : MatcherState} {info : M3UNormalizedInfo}
    {ie : Nat × Channel} (acc : Option Nat × Int) (h : pairElig s info ie) :
    nbStep s info acc ie =
      if pairScore info ie > acc.2 then (some ie.1, pairScore info ie) else acc := by
  obtain ⟨h1, h2⟩ := h
  unfold nbStep
  rw [if_neg (by simp [h1]), if_neg (by simp [h2])]
  rfl

theorem scoreRegionMatch_nonneg (a b : GoStr) : 0 ≤ scoreRegionMatch a b := by
  unfold scoreRegionMatch
  split_ifs <;> norm_num

/-- Once the accumulator holds a candidate, the fold keeps holding one. -/
theorem nbFold_some (s : MatcherState) (info : M3UNormalizedInfo) :
    ∀ (l : List (Nat × Channel)) (acc : Option Nat × Int) (j : Nat),
      acc.1 = some j → ∃ j', (l.foldl (nbStep s info) acc).1 = some j' := by
  intro l
  induction l with
  | nil => intro acc j hj; exact ⟨j, hj⟩
  | cons ie l ih =>
    intro acc j hj
    rw [List.foldl_cons]
    by_cases he : pairElig s info ie
    · rw [nbStep_elig acc he]
      by_cases hgt : pairScore info ie > acc.2
      · rw [if_pos hgt]; exact ih _ ie.1 rfl
      · rw [if_neg hgt]; exact ih _ j hj
    · rw [nbStep_not_elig acc he]; exact ih _ j hj

/-- The best score only grows along the fold. -/
theorem nbFold_mono (s : MatcherState) (info : M3UNormalizedInfo) :
    ∀ (l : List (Nat × Channel)) (acc : Option Nat × Int),
      acc.2 ≤ (l.foldl (nbStep s info) acc).2 := by
  intro l
  induction l with
  | nil => intro acc; exact le_refl _
  | cons ie l ih =>
    intro acc
    rw [List.foldl_cons]
    by_cases he : pairElig s info ie
    · rw [nbStep_elig acc he]
      by_cases hgt : pairScore info ie > acc.2
      · rw [if_pos hgt]
        exact le_trans (le_of_lt hgt) (ih _)
      · rw [if_neg hgt]; exact ih _
    · rw [nbStep_not_elig acc he]; exact ih _

/-- The fold either returns the accumulator untouched or the pair of some
eligible entry that strictly beat the accumulator score. -/
theorem nbFold_provenance (s : MatcherState) (info : M3UNormalizedInfo) :
    ∀ (l : List (Nat × Channel)) (acc : Option Nat × Int),
      l.foldl (nbStep s info) acc = acc ∨
      ∃ ie ∈ l, pairElig s info ie ∧
        l.foldl (nbStep s info) acc = (some ie.1, pairScore info ie) ∧
        acc.2 < pairScore info ie := by
  intro l
  induction l with
  | nil => intro acc; exact Or.inl rfl
  | cons ie l ih =>
    intro acc
    rw [List.foldl_cons]
    by_cases he : pairElig s info ie
    · rw [nbStep_elig acc he]
      by_cases hgt : pairScore info ie > acc.2
      · rw [if_pos hgt]
        rcases ih (some ie.1, pairScore info ie) with h | ⟨ie', hm, he', heq, hgt'⟩
        · exact Or.inr ⟨ie, List.mem_cons_self _ _, he, h, hgt⟩
        · exact Or.inr ⟨ie', List.mem_cons_of_mem _ hm, he', heq, lt_trans hgt hgt'⟩
      · rw [if_neg hgt]
        rcases ih acc with h | ⟨ie', hm, he', heq, hgt'⟩
        · exact Or.inl h
        · exact Or.inr ⟨ie', List.mem_cons_of_mem _ hm, he', heq, hgt'⟩
    · rw [nbStep_not_elig acc he]
      rcases ih acc with h | ⟨ie', hm, he', heq, hgt'⟩
      · exact Or.inl h
      · exact Or.inr ⟨ie', List.mem_cons_of_mem _ hm, he', heq, hgt'⟩

/-- Every eligible pair's score is dominated by the final best score. -/
theorem nbFold_le (s : MatcherState) (info : M3UNormalizedInfo) :
    ∀ (l : List (Nat × Channel)) (acc : Option Nat × Int),
      ∀ ie ∈ l, pairElig s info ie →
        pairScore info ie ≤ (l.foldl (nbStep s info) acc).2 := by
  intro l
  induction l with
  | nil => intro acc ie hm; exact absurd hm (List.not_mem_nil _)
  | cons ie₀ l ih =>
    intro acc ie hm he
    rw [List.foldl_cons]
    rcases List.mem_cons.mp hm with rfl | hm'
    · rw [nbStep_elig acc he]
      by_cases hgt : pairScore info ie > acc.2
      · rw [if_pos hgt]
        exact le_trans (le_refl _) (by simpa using nbFold_mono s info l (some ie.1, pairScore info ie))
      · rw [if_neg hgt]
        exact le_trans (not_lt.mp hgt) (nbFold_mono s info l acc)
    · exact ih _ ie hm' he

/-- Ties keep the first-encountered candidate: any eligible pair with a
smaller index than the returned one scored strictly below the final best
score. -/
theorem nbFold_first_tie (s : MatcherState) (info : M3UNormalizedInfo) :
    ∀ (l : List (Nat × Channel)) (acc : Option Nat × Int),
      List.Pairwise (fun a b => a.1 < b.1) l →
      (∀ j, acc.1 = some j → ∀ ie ∈ l, j < ie.1) →
      ∀ r, (l.foldl (nbStep s info) acc).1 = some r →
      ∀ ie ∈ l, pairElig s info ie → ie.1 < r →
        pairScore info ie < (l.foldl (nbStep s info) acc).2 := by
  intro l
  induction l with
  | nil => intro acc _ _ r _ ie hm; exact absurd hm (List.not_mem_nil _)
  | cons ie₀ l ih =>
    intro acc hpw hacc r hr ie hm he hlt
    obtain ⟨hlt₀, hpw'⟩ := List.pairwise_cons.mp hpw
    rw [List.foldl_cons] at hr ⊢
    have hacc' : ∀ j, (nbStep s info acc ie₀).1 = some j → ∀ ie' ∈ l, j < ie'.1 := by
      intro j hj ie' hm'
      by_cases he₀ : pairElig s info ie₀
      · rw [nbStep_elig acc he₀] at hj
        by_cases hgt₀ : pairScore info ie₀ > acc.2
        · rw [if_pos hgt₀] at hj
          cases hj
          exact hlt₀ ie' hm'
        · rw [if_neg hgt₀] at hj
          exact hacc j hj ie' (List.mem_cons_of_mem _ hm')
      · rw [nbStep_not_elig acc he₀] at hj
        exact hacc j hj ie' (List.mem_cons_of_mem _ hm')
    rcases List.mem_cons.mp hm with rfl | hm'
    · have hscore₀ : pairScore info ie ≤ (nbStep s info acc ie).2 := by
        rw [nbStep_elig acc he]
        by_cases hgt₀ : pairScore info ie > acc.2
        · rw [if_pos hgt₀]
        · rw [if_neg hgt₀]; exact not_lt.mp hgt₀
      rcases nbFold_provenance s info l (nbStep s info acc ie) with hsame | ⟨ie', _, _, heq, hgt⟩
      · rw [hsame] at hr ⊢
        by_cases he₀ : pairElig s info ie
        · rw [nbStep_elig acc he₀] at hr
          by_cases hgt₀ : pairScore info ie > acc.2
          · rw [if_pos hgt₀] at hr
            cases hr
            exact absurd hlt (lt_irrefl _)
          · rw [if_neg hgt₀] at hr
            exact absurd hlt (not_lt.mpr (le_of_lt (hacc r hr ie (List.mem_cons_self _ _))))
        · rw [nbStep_not_elig acc he₀] at hr
          exact absurd hlt (not_lt.mpr (le_of_lt (hacc r hr ie (List.mem_cons_self _ _))))
      · rw [heq]
        exact lt_of_le_of_lt hscore₀ hgt
    · exact ih (nbStep s info acc ie₀) hpw' hacc' r hr ie hm' he hlt

/-- A fold from the initial accumulator that ends without a candidate saw no
eligible pair. -/
theorem nbFold_none (s : MatcherState) (info : M3UNormalizedInfo) :
    ∀ l : List (Nat × Channel),
      (l.foldl (nbStep s info) ((none : Option Nat), (-1 : Int))).1 = none →
      ∀ ie ∈ l, ¬ pairElig s info ie := by
  intro l
  induction l with
  | nil => intro _ ie hm; exact absurd hm (List.not_mem_nil _)
  | cons ie₀ l ih =>
    intro hr ie hm
    rw [List.foldl_cons] at hr
    by_cases he₀ : pairElig s info ie₀
    · exfalso
      have hlt : pairScore info ie₀ > ((none : Option Nat), (-1 : Int)).2 := by
        refine lt_of_lt_of_le (show (-1 : Int) < 0 by norm_num) ?_
        unfold pairScore
        exact scoreRegionMatch_nonneg _ _
      rw [nbStep_elig _ he₀, if_pos hlt] at hr
      obtain ⟨j', hj'⟩ :=
        nbFold_some s info l (some ie₀.1, pairScore info ie₀) ie₀.1 rfl
      rw [hr] at hj'
      exact Option.noConfusion hj'
    · rw [nbStep_not_elig _ he₀] at hr
      rcases List.mem_cons.mp hm with rfl | hm'
      · exact he₀
      · exact ih hr ie hm'

/-- First components of an enumeration are bounded below by the start. -/
theorem enumFrom_fst_le : ∀ (l : List α) (n : Nat) (p : Nat × α),
    p ∈ enumFrom n l → n ≤ p.1 := by
  intro l
  induction l with
  | nil => intro n p hm; exact absurd hm (List.not_mem_nil _)
  | cons a l ih =>
    intro n p hm
    rcases List.mem_cons.mp hm with rfl | hm'
    · exact le_refl _
    · exact le_trans (Nat.le_succ _) (ih (n + 1) p hm')

/-- Enumerated pairs index the underlying list. -/
theorem mem_enumFrom [Inhabited α] : ∀ (l : List α) (n i : Nat) (x : α),
    (i, x) ∈ enumFrom n l → n ≤ i ∧ i - n < l.length ∧ l.getD (i - n) default = x := by
  intro l
  induction l with
  | nil => intro n i x hm; exact absurd hm (List.not_mem_nil _)
  | cons a l ih =>
    intro n i x hm
    rcases List.mem_cons.mp hm with h | hm'
    · injection h with h1 h2
      subst h1
      subst h2
      exact ⟨le_refl _, by simp, by simp [List.getD, Nat.sub_self]⟩
    · obtain ⟨h1, h2, h3⟩ := ih (n + 1) i x hm'
      refine ⟨le_trans (Nat.le_succ _) h1, ?_, ?_⟩
      · simp only [List.length_cons]
        omega
      · have : i - n = (i - (n + 1)) + 1 := by omega
        rw [this]
        simpa [List.getD] using h3

/-- Every position of the list occurs in its enumeration. -/
theorem enumFrom_mem_of_lt [Inhabited α] : ∀ (l : List α) (n j : Nat),
    j < l.length → (n + j, l.getD j default) ∈ enumFrom n l := by
  intro l
  induction l with
  | nil => intro n j h; exact absurd h (by simp)
  | cons a l ih =>
    intro n j h
    cases j with
    | zero => simp [enumFrom, List.getD]
    | succ j =>
      have := ih (n + 1) j (by simpa [Nat.succ_lt_succ_iff] using h)
      have harith : n + 1 + j = n + (j + 1) := by omega
      rw [harith] at this
      show (n + (j + 1), (a :: l).getD (j + 1) default) ∈ (n, a) :: enumFrom (n + 1) l
      refine List.mem_cons_of_mem _ ?_
      simpa [List.getD] using this

/-- Enumeration indices are strictly increasing. -/
theorem enumFrom_pairwise : ∀ (l : List α) (n : Nat),
    List.Pairwise (fun a b : Nat × α => a.1 < b.1) (enumFrom n l) := by
  intro l
  induction l with
  | nil => intro n; exact List.Pairwise.nil
  | cons a l ih =>
    intro n
    refine List.pairwise_cons.mpr ⟨?_, ih (n + 1)⟩
    intro p hp
    exact lt_of_lt_of_le (Nat.lt_succ_self n) (enumFrom_fst_le l (n + 1) p hp)

set_option maxRecDepth 80000 in
/-- C6: `findBestNormalizedMatch` returns, among all unmatched guide channels
whose normalized name equals the target, the one maximizing the region score,
ties keeping the first in guide-list order (returning nothing exactly when no
candidate is eligible); concretely, between guide channels "UK: FOX" and
"US: FOX" a playlist entry with region "us" picks the "US:" candidate. -/
theorem c6_normalized_pass_argmax_first (s : MatcherState) (info : M3UNormalizedInfo) :
    (findBestNormalizedMatch s info = none → ∀ i, ¬ normEligible s info i) ∧
    (∀ r, findBestNormalizedMatch s info = some r →
      normEligible s info r ∧
      (∀ i, normEligible s info i → normScore s info i ≤ normScore s info r) ∧
      (∀ i, normEligible s info i → i < r → normScore s info i < normScore s info r)) ∧
    findBestNormalizedMatch
      (newMatcherState [⟨gs "g1", gs "UK: FOX", ⟨[]⟩⟩, ⟨gs "g2", gs "US: FOX", ⟨[]⟩⟩])
      ⟨gs "US FOX", gs "fox", gs "us"⟩ = some 1 := by
  refine ⟨?_, ?_, by decide⟩
  · intro hnone i hi
    obtain ⟨hlen, hunm, hnorm⟩ := hi
    have hmem := enumFrom_mem_of_lt s.epgChannels 0 i hlen
    rw [Nat.zero_add] at hmem
    exact nbFold_none s info _ hnone _ hmem ⟨hunm, hnorm⟩
  · intro r hr
    have hprov := nbFold_provenance s info (enumFrom 0 s.epgChannels)
      ((none : Option Nat), (-1 : Int))
    rcases hprov with hsame | ⟨ie, hm, he, heq, _⟩
    · rw [findBestNormalizedMatch, hsame] at hr
      exact absurd hr (by simp)
    · have hr' : ie.1 = r := by
        rw [findBestNormalizedMatch, heq] at hr
        simpa using hr
      obtain ⟨ie1, ie2⟩ := ie
      obtain ⟨_, hilen, hgetd⟩ := mem_enumFrom s.epgChannels 0 ie1 ie2 hm
      rw [Nat.sub_zero] at hilen hgetd
      subst hr'
      have helig : normEligible s info ie1 := by
        refine ⟨hilen, he.1, ?_⟩
        rw [hgetd]
        exact he.2
      have hscore : normScore s info ie1 = pairScore info (ie1, ie2) := by
        unfold normScore pairScore
        rw [hgetd]
      have hfold2 : (((enumFrom 0 s.epgChannels).foldl (nbStep s info)
          ((none : Option Nat), (-1 : Int)))).2 = pairScore info (ie1, ie2) := by
        rw [heq]
      refine ⟨helig, ?_, ?_⟩
      · intro i hi
        obtain ⟨hlen, hunm, hnorm⟩ := hi
        have hmem := enumFrom_mem_of_lt s.epgChannels 0 i hlen
        rw [Nat.zero_add] at hmem
        have := nbFold_le s info (enumFrom 0 s.epgChannels)
          ((none : Option Nat), (-1 : Int)) _ hmem ⟨hunm, hnorm⟩
        rw [hfold2] at this
        rw [hscore]
        exact this
      · intro i hi hlt
        obtain ⟨hlen, hunm, hnorm⟩ := hi
        have hmem := enumFrom_mem_of_lt s.epgChannels 0 i hlen
        rw [Nat.zero_add] at hmem
        have hfoldr : (((enumFrom 0 s.epgChannels).foldl (nbStep s info)
            ((none : Option Nat), (-1 : Int)))).1 = some ie1 := by
          rw [heq]
        have := nbFold_first_tie s info (enumFrom 0 s.epgChannels)
          ((none : Option Nat), (-1 : Int)) (enumFrom_pairwise _ 0)
          (by intro j hj; exact absurd hj (by simp)) ie1 hfoldr
          _ hmem ⟨hunm, hnorm⟩ hlt
        rw [hfold2] at this
        rw [hscore]
        exact this

set_option maxRecDepth 80000 in
/-- C6 witness: the characterization applied to the concrete "fox" state — 
candidate 1 ("US: FOX") is eligible and maximizes the region score against a
playlist entry with region "us". -/
theorem c6_normalized_pass_argmax_first_witness :
    normEligible
      (newMatcherState [⟨gs "g1", gs "UK: FOX", ⟨[]⟩⟩, ⟨gs "g2", gs "US: FOX", ⟨[]⟩⟩])
      ⟨gs "US FOX", gs "fox", gs "us"⟩ 1 ∧
    (∀ i, normEligible
        (newMatcherState [⟨gs "g1", gs "UK: FOX", ⟨[]⟩⟩, ⟨gs "g2", gs "US: FOX", ⟨[]⟩⟩])
        ⟨gs "US FOX", gs "fox", gs "us"⟩ i →
      normScore
        (newMatcherState [⟨gs "g1", gs "UK: FOX", ⟨[]⟩⟩, ⟨gs "g2", gs "US: FOX", ⟨[]⟩⟩])
        ⟨gs "US FOX", gs "fox", gs "us"⟩ i ≤
      normScore
        (newMatcherState [⟨gs "g1", gs "UK: FOX", ⟨[]⟩⟩, ⟨gs "g2", gs "US: FOX", ⟨[]⟩⟩])
        ⟨gs "US FOX", gs "fox", gs "us"⟩ 1) ∧
    (∀ i, normEligible
        (newMatcherState [⟨gs "g1", gs "UK: FOX", ⟨[]⟩⟩, ⟨gs "g2", gs "US: FOX", ⟨[]⟩⟩])
        ⟨gs "US FOX", gs "fox", gs "us"⟩ i → i < 1 →
      normScore
        (newMatcherState [⟨gs "g1", gs "UK: FOX", ⟨[]⟩⟩, ⟨gs "g2", gs "US: FOX", ⟨[]⟩⟩])
        ⟨gs "US FOX", gs "fox", gs "us"⟩ i <
      normScore
        (newMatcherState [⟨gs "g1", gs "UK: FOX", ⟨[]⟩⟩, ⟨gs "g2", gs "US: FOX", ⟨[]⟩⟩])
        ⟨gs "US FOX", gs "fox", gs "us"⟩ 1) :=
  (c6_normalized_pass_argmax_first
    (newMatcherState [⟨gs "g1", gs "UK: FOX", ⟨[]⟩⟩, ⟨gs "g2", gs "US: FOX", ⟨[]⟩⟩])
    ⟨gs "US FOX", gs "fox", gs "us"⟩).2.1 1 (by decide)

/-! ## Claim C9 -/

/-- Lowercase hexadecimal alphabet. -/
def isHexLowerChar (c : Char) : Bool := isDigitChar c ∨ ('a' ≤ c ∧ c ≤ 'f')

theorem wordBytes_lt (x : Nat) : ∀ b ∈ wordBytes x, b < 2 ^ 8 := by
  intro b hb
  simp [wordBytes] at hb
  rcases hb with rfl | rfl | rfl | rfl <;> exact Nat.mod_lt _ (by norm_num)

theorem md5Sum_length (msg : List Nat) : (md5Sum msg).length = 16 := by
  simp [md5Sum, wordBytes]

theorem md5Sum_mem_lt (msg : List Nat) : ∀ b ∈ md5Sum msg, b < 2 ^ 8 := by
  intro b hb
  simp only [md5Sum, List.mem_append] at hb
  rcases hb with ((hb | hb) | hb) | hb <;> exact wordBytes_lt _ b hb

theorem hexDigitChar_class (n : Nat) (h : n < 16) : isHexLowerChar (hexDigitChar n) = true := by
  interval_cases n <;> decide

theorem bytesToHex_length : ∀ bs : List Nat, (bytesToHex bs).length = 2 * bs.length := by
  intro bs
  induction bs with
  | nil => rfl
  | cons b bs ih =>
    show (([hexDigitChar (b / 16), hexDigitChar (b % 16)] ++ bytesToHex bs).length) = _
    rw [List.length_append, ih]
    simp only [List.length_cons, List.length_nil]
    omega

theorem bytesToHex_hex : ∀ bs : List Nat, (∀ b ∈ bs, b < 2 ^ 8) →
    ∀ ch ∈ bytesToHex bs, isHexLowerChar ch = true := by
  intro bs
  induction bs with
  | nil => intro _ ch hch; exact absurd hch (List.not_mem_nil _)
  | cons b bs ih =>
    intro hlt ch hch
    have hb : b < 2 ^ 8 := hlt b (List.mem_cons_self _ _)
    have hch' : ch ∈ ([hexDigitChar (b / 16), hexDigitChar (b % 16)] ++ bytesToHex bs) := hch
    rcases List.mem_append.mp hch' with hh | ht
    · rcases List.mem_cons.mp hh with rfl | hh'
      · exact hexDigitChar_class _ (by omega)
      · rcases List.mem_cons.mp hh' with rfl | hh''
        · exact hexDigitChar_class _ (Nat.mod_lt _ (by norm_num))
        · exact absurd hh'' (List.not_mem_nil _)
    · exact ih (fun x hx => hlt x (List.mem_cons_of_mem _ hx)) ch ht

theorem generateChannelID_length (name : GoStr) : (generateChannelID name).length = 32 := by
  unfold generateChannelID
  rw [bytesToHex_length, md5Sum_length]

theorem generateChannelID_hex (name : GoStr) :
    ∀ ch ∈ generateChannelID name, isHexLowerChar ch = true :=
  bytesToHex_hex _ (md5Sum_mem_lt _)

/-- A name absent from the map's values stays unmarked in the matched-name
set built by `generateFakeEPGData`. -/
theorem matchedNames_lookup_false :
    ∀ (l : GoMap GoStr GoStr) (init : GoMap GoStr Bool) (name : GoStr),
      name ∉ goValues l → goLookupD init name = false →
      goLookupD (l.foldl (fun m e => goInsert m e.2 true) init) name = false := by
  intro l
  induction l with
  | nil => intro init name _ h; exact h
  | cons e l ih =>
    intro init name hnv hinit
    have hne : name ≠ e.2 := by
      intro h
      exact hnv (h ▸ List.mem_cons_self _ _)
    rw [List.foldl_cons]
    refine ih _ name (fun h => hnv (List.mem_cons_of_mem _ h)) ?_
    rw [goLookupD_goInsert_ne _ _ _ _ hne]
    exact hinit

/-- Membership in the fake-channel fold: a playlist entry that is unmatched
and non-empty contributes its synthesized channel. -/
theorem fakeFold_mem (matched : GoMap GoStr Bool) :
    ∀ (l : List M3UChannel) (acc : List Channel) (c : M3UChannel),
      ((c ∈ l ∧ goLookupD matched c.Name = false ∧ c.Name ≠ []) ∨
        ({ ID := generateChannelID c.Name, DisplayName := c.Name,
           ChIcon := ⟨c.TVGLogo⟩ } : Channel) ∈ acc) →
      ({ ID := generateChannelID c.Name, DisplayName := c.Name,
         ChIcon := ⟨c.TVGLogo⟩ } : Channel) ∈
        l.foldl (fun acc x =>
          if goLookupD matched x.Name then acc
          else if x.Name = [] then acc
          else acc ++ [{ ID := generateChannelID x.Name, DisplayName := x.Name,
                         ChIcon := ⟨x.TVGLogo⟩ }]) acc := by
  intro l
  induction l with
  | nil =>
    intro acc c h
    rcases h with ⟨hm, _⟩ | h
    · exact absurd hm (List.not_mem_nil _)
    · exact h
  | cons x l ih =>
    intro acc c h
    rw [List.foldl_cons]
    have step_mono : ∀ (ch : Channel),
        ch ∈ acc →
        ch ∈ (if goLookupD matched x.Name then acc
          else if x.Name = [] then acc
          else acc ++ [{ ID := generateChannelID x.Name, DisplayName := x.Name,
                         ChIcon := ⟨x.TVGLogo⟩ }]) := by
      intro ch hch
      split_ifs <;> first | exact hch | exact List.mem_append_left _ hch
    rcases h with ⟨hm, hlk, hn⟩ | hacc
    · rcases List.mem_cons.mp hm with rfl | hm'
      · refine ih _ c (Or.inr ?_)
        rw [if_neg (by simp [hlk]), if_neg hn]
        exact List.mem_append_right _ (List.mem_singleton.mpr rfl)
      · exact ih _ c (Or.inl ⟨hm', hlk, hn⟩)
    · exact ih _ c (Or.inr (step_mono _ hacc))

/-- Every channel produced by the fake-channel fold has a non-empty display
name. -/
theorem fakeFold_names (matched : GoMap GoStr Bool) :
    ∀ (l : List M3UChannel) (acc : List Channel),
      (∀ ch ∈ acc, ch.DisplayName ≠ ([] : GoStr)) →
      ∀ ch ∈ l.foldl (fun acc x =>
          if goLookupD matched x.Name then acc
          else if x.Name = [] then acc
          else acc ++ [{ ID := generateChannelID x.Name, DisplayName := x.Name,
                         ChIcon := ⟨x.TVGLogo⟩ }]) acc,
        ch.DisplayName ≠ ([] : GoStr) := by
  intro l
  induction l with
  | nil => intro acc hacc ch hch; exact hacc ch hch
  | cons x l ih =>
    intro acc hacc ch hch
    rw [List.foldl_cons] at hch
    refine ih _ ?_ ch hch
    intro ch' hch'
    by_cases h1 : goLookupD matched x.Name = true
    · rw [if_pos h1] at hch'
      exact hacc ch' hch'
    · rw [if_neg h1] at hch'
      by_cases h2 : x.Name = []
      · rw [if_pos h2] at hch'
        exact hacc ch' hch'
      · rw [if_neg h2] at hch'
        rcases List.mem_append.mp hch' with hl | hr
        · exact hacc ch' hl
        · rw [List.mem_singleton.mp hr]
          exact h2

/-- C9: an unmatched playlist entry with a non-empty display name yields, in
the output of `Filter`, a synthesized guide channel whose identifier is the
content hash of the display name alone, whose display name is the playlist
name, and whose icon is the playlist logo hint; content hashes are 32
lowercase hexadecimal characters for every input; and no synthesized channel
ever carries an empty display name (empty-name entries are skipped). -/
theorem c9_fake_channel_synthesis (epgData : TV) (m3uChannels : List M3UChannel)
    (c : M3UChannel) (hc : c ∈ m3uChannels) (hn : c.Name ≠ [])
    (hu : c.Name ∉ goValues (matchChannels epgData.Channels (buildChannelNameMap m3uChannels)
        (buildTVGIDMap m3uChannels) (buildNormalizedNameMap m3uChannels)).2) :
    (∃ ch ∈ (Filter epgData m3uChannels).1.Channels,
      ch.ID = generateChannelID c.Name ∧ ch.DisplayName = c.Name ∧
      ch.ChIcon = ⟨c.TVGLogo⟩) ∧
    (∀ name : GoStr, (generateChannelID name).length = 32 ∧
      ∀ ch ∈ generateChannelID name, isHexLowerChar ch = true) ∧
    (∀ (m3u' : List M3UChannel) (cmap : GoMap GoStr GoStr),
      ∀ fake ∈ generateFakeEPGData m3u' cmap, fake.DisplayName ≠ ([] : GoStr)) := by
  refine ⟨?_, fun name => ⟨generateChannelID_length name, generateChannelID_hex name⟩,
    fun m3u' cmap => fakeFold_names _ m3u' [] (by intro ch h; exact absurd h (List.not_mem_nil _))⟩
  have hfake : (⟨generateChannelID c.Name, c.Name, ⟨c.TVGLogo⟩⟩ : Channel) ∈
      generateFakeEPGData m3uChannels
        (matchChannels epgData.Channels (buildChannelNameMap m3uChannels)
          (buildTVGIDMap m3uChannels) (buildNormalizedNameMap m3uChannels)).2 := by
    refine fakeFold_mem _ m3uChannels [] c (Or.inl ⟨hc, ?_, hn⟩)
    exact matchedNames_lookup_false _ [] c.Name hu rfl
  refine ⟨⟨generateChannelID c.Name, c.Name, ⟨c.TVGLogo⟩⟩, ?_, rfl, rfl, rfl⟩
  show _ ∈ (matchChannels epgData.Channels (buildChannelNameMap m3uChannels)
      (buildTVGIDMap m3uChannels) (buildNormalizedNameMap m3uChannels)).1 ++
    generateFakeEPGData m3uChannels
      (matchChannels epgData.Channels (buildChannelNameMap m3uChannels)
        (buildTVGIDMap m3uChannels) (buildNormalizedNameMap m3uChannels)).2
  exact List.mem_append_right _ hfake

set_option maxRecDepth 200000 in
/-- C9 witness: the synthesis theorem applied to a playlist with the single
unmatched entry "HBO" and an empty guide. -/
theorem c9_fake_channel_synthesis_witness :
    (∃ ch ∈ (Filter ⟨[], []⟩ [⟨gs "HBO", [], [], [], gs "logo.png", []⟩]).1.Channels,
      ch.ID = generateChannelID (gs "HBO") ∧ ch.DisplayName = gs "HBO" ∧
      ch.ChIcon = ⟨gs "logo.png"⟩) ∧
    (∀ name : GoStr, (generateChannelID name).length = 32 ∧
      ∀ ch ∈ generateChannelID name, isHexLowerChar ch = true) ∧
    (∀ (m3u' : List M3UChannel) (cmap : GoMap GoStr GoStr),
      ∀ fake ∈ generateFakeEPGData m3u' cmap, fake.DisplayName ≠ ([] : GoStr)) :=
  c9_fake_channel_synthesis ⟨[], []⟩ [⟨gs "HBO", [], [], [], gs "logo.png", []⟩]
    ⟨gs "HBO", [], [], [], gs "logo.png", []⟩ (by decide) (by decide) (by decide)

/-! ## Claim C10 -/

/-- Bucket membership is preserved under the append-into-bucket insertions
used by `buildOriginalIDMap`. -/
theorem bucket_insert_mono (m : GoMap GoStr (List GoStr)) (key : GoStr) (v : GoStr)
    (b : GoStr) (x : GoStr) (hx : x ∈ goLookupD m b) :
    x ∈ goLookupD (goInsert m key (goLookupD m key ++ [v])) b := by
  by_cases hb : b = key
  · subst hb
    rw [goLookupD_goInsert_self]
    exact List.mem_append_left _ hx
  · rw [goLookupD_goInsert_ne _ _ _ _ hb]
    exact hx

/-- Bucket membership is preserved by the whole `buildOriginalIDMap` fold. -/
theorem origIDFold_mono :
    ∀ (l : GoMap GoStr GoStr) (init : GoMap GoStr (List GoStr)) (b x : GoStr),
      x ∈ goLookupD init b →
      x ∈ goLookupD (l.foldl
        (fun m e =>
          match goLastIndexChar e.1 '-' with
          | some idx =>
            if 0 < idx ∧ isNumericSuffix (e.1.drop (idx + 1)) then
              goInsert m (e.1.take idx) (goLookupD m (e.1.take idx) ++ [e.1])
            else m
          | none => m) init) b := by
  intro l
  induction l with
  | nil => intro init b x hx; exact hx
  | cons e l ih =>
    intro init b x hx
    rw [List.foldl_cons]
    refine ih _ b x ?_
    rcases hlast : goLastIndexChar e.1 '-' with _ | idx
    · simpa [hlast] using hx
    · simp only [hlast]
      by_cases hcond : 0 < idx ∧ isNumericSuffix (e.1.drop (idx + 1)) = true
      · rw [if_pos hcond]
        exact bucket_insert_mono _ _ _ _ _ hx
      · rw [if_neg hcond]
        exact hx

/-- Generalized bucket membership for the `buildOriginalIDMap` fold. -/
theorem origIDFold_mem (k : GoStr) (idx : Nat)
    (hidx : goLastIndexChar k '-' = some idx) (hpos : 0 < idx)
    (hnum : isNumericSuffix (k.drop (idx + 1)) = true) :
    ∀ (l : GoMap GoStr GoStr) (init : GoMap GoStr (List GoStr)),
      ((∃ e ∈ l, e.1 = k) ∨ k ∈ goLookupD init (k.take idx)) →
      k ∈ goLookupD (l.foldl
        (fun m e =>
          match goLastIndexChar e.1 '-' with
          | some idx =>
            if 0 < idx ∧ isNumericSuffix (e.1.drop (idx + 1)) then
              goInsert m (e.1.take idx) (goLookupD m (e.1.take idx) ++ [e.1])
            else m
          | none => m) init) (k.take idx) := by
  intro l
  induction l with
  | nil =>
    intro init h
    rcases h with ⟨e, he, _⟩ | h
    · exact absurd he (List.not_mem_nil _)
    · exact h
  | cons e₀ l ih =>
    intro init h
    rw [List.foldl_cons]
    have step_mono : k ∈ goLookupD init (k.take idx) →
        k ∈ goLookupD (match goLastIndexChar e₀.1 '-' with
          | some j =>
            if 0 < j ∧ isNumericSuffix (e₀.1.drop (j + 1)) then
              goInsert init (e₀.1.take j) (goLookupD init (e₀.1.take j) ++ [e₀.1])
            else init
          | none => init) (k.take idx) := by
      intro hin
      rcases hj : goLastIndexChar e₀.1 '-' with _ | j
      · simpa [hj] using hin
      · simp only [hj]
        by_cases hcond : 0 < j ∧ isNumericSuffix (e₀.1.drop (j + 1)) = true
        · rw [if_pos hcond]
          exact bucket_insert_mono _ _ _ _ _ hin
        · rw [if_neg hcond]
          exact hin
    rcases h with ⟨e, he, hek⟩ | hin
    · rcases List.mem_cons.mp he with rfl | he'
      · subst hek
        refine ih _ (Or.inr ?_)
        simp only [hidx]
        rw [if_pos ⟨hpos, hnum⟩, goLookupD_goInsert_self]
        exact List.mem_append_right _ (List.mem_singleton.mpr rfl)
      · exact ih _ (Or.inl ⟨e, he', hek⟩)
    · exact ih _ (Or.inr (step_mono hin))

/-- A map key of the shape `<base>-<numeric suffix>` lands in its base's
bucket of `buildOriginalIDMap`. -/
theorem buildOriginalIDMap_mem (cmap : GoMap GoStr GoStr) (k : GoStr) (idx : Nat)
    (hk : k ∈ goKeys cmap) (hidx : goLastIndexChar k '-' = some idx) (hpos : 0 < idx)
    (hnum : isNumericSuffix (k.drop (idx + 1)) = true) :
    k ∈ goLookupD (buildOriginalIDMap cmap) (k.take idx) := by
  obtain ⟨e, he, hek⟩ : ∃ e ∈ cmap, e.1 = k := by
    simpa [goKeys, List.mem_map] using hk
  exact origIDFold_mem k idx hidx hpos hnum cmap [] (Or.inl ⟨e, he, hek⟩)

/-- The duplicated program copy rewrites only the channel reference (and
possibly the category); start, stop, title and description are preserved. -/
theorem duplicateFor_fields (channelIDMap categoryMap : GoMap GoStr GoStr)
    (p : Programme) (sid : GoStr) :
    (duplicateFor channelIDMap categoryMap p sid).PChannel = sid ∧
    (duplicateFor channelIDMap categoryMap p sid).Start = p.Start ∧
    (duplicateFor channelIDMap categoryMap p sid).Stop = p.Stop ∧
    (duplicateFor channelIDMap categoryMap p sid).Title = p.Title ∧
    (duplicateFor channelIDMap categoryMap p sid).Description = p.Description := by
  rcases h1 : goLookup channelIDMap sid with _ | dn
  · simp [duplicateFor, withCategory, h1]
  · rcases h2 : goLookup categoryMap dn with _ | cat
    · simp [duplicateFor, withCategory, h1, h2]
    · simp [duplicateFor, withCategory, h1, h2]

/-- Membership in the program-filter fold is preserved as the fold proceeds
(programs are only ever appended). -/
theorem filterProgramsCore_mono (channelIDMap categoryMap : GoMap GoStr GoStr)
    (originalIDMap : GoMap GoStr (List GoStr)) :
    ∀ (programs : List Programme) (acc : List Programme) (q : Programme), q ∈ acc →
      q ∈ programs.foldl
        (fun acc program =>
          let acc :=
            match goLookup channelIDMap program.PChannel with
            | some displayName => acc ++ [withCategory categoryMap displayName program]
            | none => acc
          match goLookup originalIDMap program.PChannel with
          | some suffixedIDs =>
            acc ++ suffixedIDs.map (duplicateFor channelIDMap categoryMap program)
          | none => acc) acc := by
  intro programs
  induction programs with
  | nil => intro acc q hq; exact hq
  | cons p programs ih =>
    intro acc q hq
    rw [List.foldl_cons]
    refine ih _ q ?_
    have h₁ : q ∈ (match goLookup channelIDMap p.PChannel with
        | some displayName => acc ++ [withCategory categoryMap displayName p]
        | none => acc) := by
      rcases goLookup channelIDMap p.PChannel with _ | dn
      · exact hq
      · exact List.mem_append_left _ hq
    rcases goLookup originalIDMap p.PChannel with _ | sids
    · exact h₁
    · exact List.mem_append_left _ h₁

/-- A program whose channel owns a bucket of suffixed identifiers gets a
rewritten copy for each of them in the output of the filter loop. -/
theorem filterProgramsCore_dup_mem (channelIDMap categoryMap : GoMap GoStr GoStr)
    (originalIDMap : GoMap GoStr (List GoStr)) :
    ∀ (programs : List Programme) (p : Programme) (sid : GoStr),
      p ∈ programs → sid ∈ goLookupD originalIDMap p.PChannel →
      duplicateFor channelIDMap categoryMap p sid ∈
        filterProgramsCore programs channelIDMap categoryMap originalIDMap := by
  intro programs
  have core : ∀ (l : List Programme) (acc : List Programme) (p : Programme) (sid : GoStr),
      p ∈ l → sid ∈ goLookupD originalIDMap p.PChannel →
      duplicateFor channelIDMap categoryMap p sid ∈
        l.foldl
          (fun acc program =>
            let acc :=
              match goLookup channelIDMap program.PChannel with
              | some displayName => acc ++ [withCategory categoryMap displayName program]
              | none => acc
            match goLookup originalIDMap program.PChannel with
            | some suffixedIDs =>
              acc ++ suffixedIDs.map (duplicateFor channelIDMap categoryMap program)
            | none => acc) acc := by
    intro l
    induction l with
    | nil => intro acc p sid hp; exact absurd hp (List.not_mem_nil _)
    | cons p₀ l ih =>
      intro acc p sid hp hsid
      rw [List.foldl_cons]
      rcases List.mem_cons.mp hp with rfl | hp'
      · refine filterProgramsCore_mono channelIDMap categoryMap originalIDMap l _ _ ?_
        rcases hsids : goLookup originalIDMap p.PChannel with _ | sids
        · rw [goLookupD, hsids] at hsid
          exact absurd hsid (List.not_mem_nil _)
        · rw [goLookupD, hsids] at hsid
          simp only [hsids]
          exact List.mem_append_right _ (List.mem_map_of_mem _ hsid)
      · exact ih _ p sid hp' hsid
  intro p sid hp hsid
  exact core programs [] p sid hp hsid

set_option maxRecDepth 400 in
/-- C10: whenever the identifier-to-name map holds a key of the shape
`<base>-<numeric suffix>` — including guide identifiers that natively end in
dash-digits — every kept input program referencing `<base>` is additionally
emitted, by both `FilterForMerge` and `Filter`, as a copy whose channel
reference is rewritten to that key (start, stop, title and description
preserved). -/
theorem c10_suffixed_program_duplication (epgData : TV) (m3uChannels : List M3UChannel)
    (k : GoStr) (idx : Nat) (p : Programme)
    (hk : k ∈ goKeys (matchChannels epgData.Channels (buildChannelNameMap m3uChannels)
        (buildTVGIDMap m3uChannels) (buildNormalizedNameMap m3uChannels)).2)
    (hidx : goLastIndexChar k '-' = some idx) (hpos : 0 < idx)
    (hnum : isNumericSuffix (k.drop (idx + 1)) = true)
    (hp : p ∈ epgData.Programs) (hpc : p.PChannel = k.take idx)
    (hkept : k.take idx ∈ goKeys (matchChannels epgData.Channels
        (buildChannelNameMap m3uChannels) (buildTVGIDMap m3uChannels)
        (buildNormalizedNameMap m3uChannels)).2) :
    (∃ tv, (FilterForMerge epgData m3uChannels).epg = some tv ∧
      ∃ q ∈ tv.Programs, q.PChannel = k ∧ q.Start = p.Start ∧ q.Stop = p.Stop ∧
        q.Title = p.Title ∧ q.Description = p.Description) ∧
    (∃ q ∈ (Filter epgData m3uChannels).1.Programs, q.PChannel = k ∧ q.Start = p.Start ∧
      q.Stop = p.Stop ∧ q.Title = p.Title ∧ q.Description = p.Description) := by
  have hbucket : k ∈ goLookupD (buildOriginalIDMap
      (matchChannels epgData.Channels (buildChannelNameMap m3uChannels)
        (buildTVGIDMap m3uChannels) (buildNormalizedNameMap m3uChannels)).2) p.PChannel := by
    rw [hpc]
    exact buildOriginalIDMap_mem _ k idx hk hidx hpos hnum
  have hdup := filterProgramsCore_dup_mem
    (matchChannels epgData.Channels (buildChannelNameMap m3uChannels)
      (buildTVGIDMap m3uChannels) (buildNormalizedNameMap m3uChannels)).2
    (buildCategoryMap m3uChannels)
    (buildOriginalIDMap (matchChannels epgData.Channels (buildChannelNameMap m3uChannels)
      (buildTVGIDMap m3uChannels) (buildNormalizedNameMap m3uChannels)).2)
    epgData.Programs p k hp hbucket
  obtain ⟨hf1, hf2, hf3, hf4, hf5⟩ := duplicateFor_fields
    (matchChannels epgData.Channels (buildChannelNameMap m3uChannels)
      (buildTVGIDMap m3uChannels) (buildNormalizedNameMap m3uChannels)).2
    (buildCategoryMap m3uChannels) p k
  constructor
  · refine ⟨_, rfl, duplicateFor _ _ p k, hdup, hf1, hf2, hf3, hf4, hf5⟩
  · refine ⟨duplicateFor _ _ p k, ?_, hf1, hf2, hf3, hf4, hf5⟩
    exact List.mem_append_left _ hdup

set_option maxRecDepth 400000 in
/-- C10 witness: the duplication theorem applied to the duplicate-id guide of
the repository's own test (`TestFilter_ProgrammeDuplication`): the one
program on "same.id" is also emitted under "same.id-2". -/
theorem c10_suffixed_program_duplication_witness :
    (∃ tv, (FilterForMerge
        ⟨[⟨gs "same.id", gs "Channel A", ⟨[]⟩⟩, ⟨gs "same.id", gs "Channel B", ⟨[]⟩⟩],
         [⟨gs "same.id", gs "20260104120000 +0000", gs "20260104130000 +0000",
           gs "Show", [], []⟩]⟩
        [⟨gs "Channel A", [], [], [], [], []⟩, ⟨gs "Channel B", [], [], [], [], []⟩]).epg
        = some tv ∧
      ∃ q ∈ tv.Programs, q.PChannel = gs "same.id-2" ∧
        q.Start = (⟨gs "same.id", gs "20260104120000 +0000", gs "20260104130000 +0000",
          gs "Show", [], []⟩ : Programme).Start ∧
        q.Stop = (⟨gs "same.id", gs "20260104120000 +0000", gs "20260104130000 +0000",
          gs "Show", [], []⟩ : Programme).Stop ∧
        q.Title = (⟨gs "same.id", gs "20260104120000 +0000", gs "20260104130000 +0000",
          gs "Show", [], []⟩ : Programme).Title ∧
        q.Description = (⟨gs "same.id", gs "20260104120000 +0000", gs "20260104130000 +0000",
          gs "Show", [], []⟩ : Programme).Description) ∧
    (∃ q ∈ (Filter
        ⟨[⟨gs "same.id", gs "Channel A", ⟨[]⟩⟩, ⟨gs "same.id", gs "Channel B", ⟨[]⟩⟩],
         [⟨gs "same.id", gs "20260104120000 +0000", gs "20260104130000 +0000",
           gs "Show", [], []⟩]⟩
        [⟨gs "Channel A", [], [], [], [], []⟩, ⟨gs "Channel B", [], [], [], [], []⟩]).1.Programs,
      q.PChannel = gs "same.id-2" ∧
      q.Start = (⟨gs "same.id", gs "20260104120000 +0000", gs "20260104130000 +0000",
        gs "Show", [], []⟩ : Programme).Start ∧
      q.Stop = (⟨gs "same.id", gs "20260104120000 +0000", gs "20260104130000 +0000",
        gs "Show", [], []⟩ : Programme).Stop ∧
      q.Title = (⟨gs "same.id", gs "20260104120000 +0000", gs "20260104130000 +0000",
        gs "Show", [], []⟩ : Programme).Title ∧
      q.Description = (⟨gs "same.id", gs "20260104120000 +0000", gs "20260104130000 +0000",
        gs "Show", [], []⟩ : Programme).Description) :=
  c10_suffixed_program_duplication
    ⟨[⟨gs "same.id", gs "Channel A", ⟨[]⟩⟩, ⟨gs "same.id", gs "Channel B", ⟨[]⟩⟩],
     [⟨gs "same.id", gs "20260104120000 +0000", gs "20260104130000 +0000",
       gs "Show", [], []⟩]⟩
    [⟨gs "Channel A", [], [], [], [], []⟩, ⟨gs "Channel B", [], [], [], [], []⟩]
    (gs "same.id-2") 7
    (⟨gs "same.id", gs "20260104120000 +0000", gs "20260104130000 +0000", gs "Show", [], []⟩)
    (by decide) (by decide) (by decide) (by decide) (by decide) (by decide) (by decide)

/-! ## Claim C2: digit-string machinery -/

/-- Does the string end in a dash followed by one or more decimal digits?
(The collision shape between dedupe suffixes and native identifiers.) -/
def endsWithDashDigits (s : GoStr) : Bool :=
  !(s.reverse.takeWhile isDigitChar).isEmpty &&
    (s.reverse.getD (s.reverse.takeWhile isDigitChar).length ' ' == '-')

theorem takeWhile_append_all {p : Char → Bool} :
    ∀ (xs : GoStr) (y : Char) (ys : GoStr), (∀ x ∈ xs, p x = true) → p y = false →
      (xs ++ y :: ys).takeWhile p = xs := by
  intro xs
  induction xs with
  | nil =>
    intro y ys _ hy
    simp [List.takeWhile, hy]
  | cons x xs ih =>
    intro y ys hall hy
    have hx : p x = true := hall x (List.mem_cons_self _ _)
    have hih := ih y ys (fun z hz => hall z (List.mem_cons_of_mem _ hz)) hy
    simp [List.takeWhile_cons, hx, hih]

theorem getD_append_boundary : ∀ (l₁ : GoStr) (y : Char) (l₂ : GoStr) (dflt : Char),
    (l₁ ++ y :: l₂).getD l₁.length dflt = y := by
  intro l₁
  induction l₁ with
  | nil => intro y l₂ dflt; rfl
  | cons x l₁ ih => intro y l₂ dflt; simpa [List.getD] using ih y l₂ dflt

/-- A string of the dedupe-suffix shape always ends in dash-digits. -/
theorem endsWithDashDigits_suffix (o d : GoStr) (hne : d ≠ [])
    (hdig : ∀ x ∈ d, isDigitChar x = true) :
    endsWithDashDigits (o ++ '-' :: d) = true := by
  have hrev : (o ++ '-' :: d).reverse = d.reverse ++ '-' :: o.reverse := by
    simp
  have htw' : (d.reverse ++ '-' :: o.reverse).takeWhile isDigitChar = d.reverse :=
    takeWhile_append_all d.reverse '-' o.reverse
      (fun x hx => hdig x (List.mem_reverse.mp hx)) (by decide)
  have hdne : d.reverse ≠ [] := by simpa using hne
  unfold endsWithDashDigits
  rw [hrev, htw', getD_append_boundary d.reverse '-' o.reverse ' ']
  simp [hdne]

/-- Splitting at the last occurrence of a separator is unambiguous. -/
theorem lastSplit_unique {x : Char} :
    ∀ (a c b d : GoStr), a ++ x :: b = c ++ x :: d → x ∉ b → x ∉ d →
      a = c ∧ b = d := by
  intro a
  induction a with
  | nil =>
    intro c b d heq hb hd
    cases c with
    | nil =>
      injection heq with _ h
      exact ⟨rfl, h⟩
    | cons y c' =>
      injection heq with h1 h2
      exfalso
      apply hb
      rw [h2]
      exact List.mem_append_right _ (List.mem_cons_self _ _)
  | cons z a' ih =>
    intro c b d heq hb hd
    cases c with
    | nil =>
      injection heq with h1 h2
      exfalso
      apply hd
      rw [← h2]
      exact List.mem_append_right _ (List.mem_cons_self _ _)
    | cons y c' =>
      injection heq with h1 h2
      obtain ⟨ha, hbd⟩ := ih c' b d h2 hb hd
      exact ⟨by rw [h1, ha], hbd⟩

theorem digitsAux_lt10 : ∀ (fuel n : Nat), ∀ d ∈ digitsAux fuel n, d < 10 := by
  intro fuel
  induction fuel with
  | zero => intro n d hd; exact absurd hd (List.not_mem_nil _)
  | succ fuel ih =>
    intro n d hd
    by_cases hn : n = 0
    · rw [digitsAux, if_pos hn] at hd
      exact absurd hd (List.not_mem_nil _)
    · rw [digitsAux, if_neg hn] at hd
      rcases List.mem_append.mp hd with h | h
      · exact ih _ d h
      · rw [List.mem_singleton.mp h]
        exact Nat.mod_lt _ (by norm_num)

theorem digitsVal_append_singleton (ds : List Nat) (d : Nat) :
    digitsVal (ds ++ [d]) = 10 * digitsVal ds + d := by
  simp [digitsVal, List.foldl_append]

theorem digitsAux_val : ∀ (fuel n : Nat), n ≤ fuel → digitsVal (digitsAux fuel n) = n := by
  intro fuel
  induction fuel with
  | zero =>
    intro n hn
    interval_cases n
    rfl
  | succ fuel ih =>
    intro n hn
    by_cases h0 : n = 0
    · rw [digitsAux, if_pos h0, h0]
      rfl
    · have hdiv : n / 10 ≤ fuel := by
        have := Nat.div_lt_self (Nat.pos_of_ne_zero h0) (by norm_num : 1 < 10)
        omega
      rw [digitsAux, if_neg h0, digitsVal_append_singleton, ih (n / 10) hdiv]
      exact Nat.div_add_mod n 10

theorem digitsAux_ne_nil (fuel n : Nat) (h0 : n ≠ 0) (hf : 0 < fuel) :
    digitsAux fuel n ≠ [] := by
  cases fuel with
  | zero => exact absurd hf (by norm_num)
  | succ fuel =>
    rw [digitsAux, if_neg h0]
    simp

theorem char48_toNat (d : Nat) (h : d < 10) : (Char.ofNat (48 + d)).toNat = 48 + d := by
  interval_cases d <;> decide

theorem digitChar_isDigit (d : Nat) (h : d < 10) :
    isDigitChar (Char.ofNat (48 + d)) = true := by
  interval_cases d <;> decide

theorem goItoa_ne_nil (n : Nat) : goItoa n ≠ [] := by
  by_cases h0 : n = 0
  · rw [goItoa, if_pos h0]
    simp
  · rw [goItoa, if_neg h0]
    intro h
    exact digitsAux_ne_nil (n + 1) n h0 (by omega) (List.map_eq_nil.mp h)

theorem goItoa_all_digits (n : Nat) : ∀ x ∈ goItoa n, isDigitChar x = true := by
  intro x hx
  by_cases h0 : n = 0
  · rw [goItoa, if_pos h0] at hx
    rw [List.mem_singleton.mp hx]
    decide
  · rw [goItoa, if_neg h0] at hx
    obtain ⟨d, hd, rfl⟩ := List.mem_map.mp hx
    exact digitChar_isDigit d (digitsAux_lt10 _ _ d hd)

theorem goItoa_no_dash (n : Nat) : '-' ∉ goItoa n := by
  intro h
  have := goItoa_all_digits n '-' h
  exact absurd this (by decide)

theorem map_digitChar_inj : ∀ (xs ys : List Nat),
    (∀ x ∈ xs, x < 10) → (∀ y ∈ ys, y < 10) →
    xs.map (fun d => Char.ofNat (48 + d)) = ys.map (fun d => Char.ofNat (48 + d)) →
    xs = ys := by
  intro xs
  induction xs with
  | nil =>
    intro ys _ _ h
    cases ys with
    | nil => rfl
    | cons y ys => exact absurd h (by simp)
  | cons x xs ih =>
    intro ys hx hy h
    cases ys with
    | nil => exact absurd h (by simp)
    | cons y ys =>
      simp only [List.map_cons, List.cons.injEq] at h
      obtain ⟨hhead, htail⟩ := h
      have hx0 : x < 10 := hx x (List.mem_cons_self _ _)
      have hy0 : y < 10 := hy y (List.mem_cons_self _ _)
      have : 48 + x = 48 + y := by
        rw [← char48_toNat x hx0, ← char48_toNat y hy0, hhead]
      have hxy : x = y := by omega
      rw [hxy, ih ys (fun z hz => hx z (List.mem_cons_of_mem _ hz))
        (fun z hz => hy z (List.mem_cons_of_mem _ hz)) htail]

theorem goItoa_inj_pos (a b : Nat) (ha : 0 < a) (hb : 0 < b)
    (h : goItoa a = goItoa b) : a = b := by
  rw [goItoa, if_neg (by omega), goItoa, if_neg (by omega)] at h
  have := map_digitChar_inj (digitsAux (a + 1) a) (digitsAux (b + 1) b)
    (digitsAux_lt10 _ _) (digitsAux_lt10 _ _) h
  have hva := digitsAux_val (a + 1) a (by omega)
  have hvb := digitsAux_val (b + 1) b (by omega)
  rw [← hva, ← hvb, this]

/-- A dedupe-suffixed identifier determines its base and its counter. -/
theorem suffix_split_inj (o₁ o₂ : GoStr) (k₁ k₂ : Nat) (h₁ : 0 < k₁) (h₂ : 0 < k₂)
    (heq : o₁ ++ '-' :: goItoa k₁ = o₂ ++ '-' :: goItoa k₂) : o₁ = o₂ ∧ k₁ = k₂ := by
  obtain ⟨ho, hd⟩ := lastSplit_unique o₁ o₂ (goItoa k₁) (goItoa k₂) heq
    (goItoa_no_dash k₁) (goItoa_no_dash k₂)
  exact ⟨ho, goItoa_inj_pos k₁ k₂ h₁ h₂ hd⟩

/-! ## Claim C2: matcher invariant -/

theorem getD_mem_or_default [Inhabited α] :
    ∀ (l : List α) (n : Nat), l.getD n default ∈ l ∨ l.getD n default = default := by
  intro l
  induction l with
  | nil => intro n; exact Or.inr rfl
  | cons a l ih =>
    intro n
    cases n with
    | zero => exact Or.inl (List.mem_cons_self _ _)
    | succ n =>
      rcases ih n with h | h
      · exact Or.inl (List.mem_cons_of_mem _ (by simpa [List.getD] using h))
      · exact Or.inr (by simpa [List.getD] using h)

theorem getD_mem_or_eq (l : GoStr) (n : Nat) (d : Char) :
    l.getD n d ∈ l ∨ l.getD n d = d := by
  induction l generalizing n with
  | nil => exact Or.inr rfl
  | cons a l ih =>
    cases n with
    | zero => exact Or.inl (List.mem_cons_self _ _)
    | succ n =>
      rcases ih n with h | h
      · exact Or.inl (List.mem_cons_of_mem _ (by simpa [List.getD] using h))
      · exact Or.inr (by simpa [List.getD] using h)

/-- A string containing no dash cannot end in dash-digits. -/
theorem endsWithDashDigits_of_no_dash (s : GoStr) (h : '-' ∉ s) :
    endsWithDashDigits s = false := by
  unfold endsWithDashDigits
  rcases getD_mem_or_eq s.reverse (s.reverse.takeWhile isDigitChar).length ' ' with hm | hd
  · by_cases hc : s.reverse.getD (s.reverse.takeWhile isDigitChar).length ' ' = '-'
    · exact absurd (List.mem_reverse.mp (hc ▸ hm)) h
    · have hbeq : (s.reverse.getD (s.reverse.takeWhile isDigitChar).length ' ' == '-') = false :=
        beq_eq_false_iff_ne.mpr hc
      rw [hbeq, Bool.and_false]
  · rw [hd, show ((' ' == '-') = false) from rfl, Bool.and_false]

theorem generateChannelID_no_dash (name : GoStr) : '-' ∉ generateChannelID name := by
  intro h
  exact absurd (generateChannelID_hex name '-' h) (by decide)

theorem endsWithDashDigits_generateChannelID (name : GoStr) :
    endsWithDashDigits (generateChannelID name) = false :=
  endsWithDashDigits_of_no_dash _ (generateChannelID_no_dash name)

/-- Under the no-dash-digit hypothesis on the guide, every original
identifier `addMatch` can touch — member or out-of-range default — is free of
the collision shape. -/
theorem noDash_origIDOf_getD (s : MatcherState)
    (hN : ∀ ch ∈ s.epgChannels, endsWithDashDigits (origIDOf ch) = false) (i : Nat) :
    endsWithDashDigits (origIDOf (s.epgChannels.getD i default)) = false := by
  rcases getD_mem_or_default s.epgChannels i with hm | hd
  · exact hN _ hm
  · rw [hd]
    show endsWithDashDigits (origIDOf ⟨[], [], ⟨[]⟩⟩) = false
    simp [origIDOf, endsWithDashDigits_generateChannelID]

theorem goKeys_goInsert_not_mem [DecidableEq α] :
    ∀ (m : GoMap α β) (k : α) (v : β), k ∉ goKeys m →
      goKeys (goInsert m k v) = goKeys m ++ [k] := by
  intro m
  induction m with
  | nil => intro k v _; rfl
  | cons e rest ih =>
    intro k v h
    obtain ⟨k₀, v₀⟩ := e
    have hk₀ : k₀ ≠ k := by
      intro hc
      exact h (hc ▸ List.mem_cons_self _ _)
    show goKeys (if k₀ = k then _ else (k₀, v₀) :: goInsert rest k v) = _
    rw [if_neg hk₀]
    show k₀ :: goKeys (goInsert rest k v) = (k₀ :: goKeys rest) ++ [k]
    rw [ih k v (fun hc => h (List.mem_cons_of_mem _ hc))]
    rfl

theorem goValues_goInsert_not_mem [DecidableEq α] :
    ∀ (m : GoMap α β) (k : α) (v : β), k ∉ goKeys m →
      goValues (goInsert m k v) = goValues m ++ [v] := by
  intro m
  induction m with
  | nil => intro k v _; rfl
  | cons e rest ih =>
    intro k v h
    obtain ⟨k₀, v₀⟩ := e
    have hk₀ : k₀ ≠ k := by
      intro hc
      exact h (hc ▸ List.mem_cons_self _ _)
    show goValues (if k₀ = k then _ else (k₀, v₀) :: goInsert rest k v) = _
    rw [if_neg hk₀]
    show v₀ :: goValues (goInsert rest k v) = (v₀ :: goValues rest) ++ [v]
    rw [ih k v (fun hc => h (List.mem_cons_of_mem _ hc))]
    rfl

/-- The finalized identifier `addMatch` will assign for a guide index. -/
def finalIDFor (s : MatcherState) (epgIdx : Nat) : GoStr :=
  match goLookup s.idUsageCount (origIDOf (s.epgChannels.getD epgIdx default)) with
  | some c => origIDOf (s.epgChannels.getD epgIdx default) ++ '-' :: goItoa (c + 1)
  | none => origIDOf (s.epgChannels.getD epgIdx default)

/-- Field-level specification of `addMatch`. -/
theorem addMatch_spec (s : MatcherState) (epgIdx : Nat) (m3uName : GoStr) :
    addMatch s epgIdx m3uName = { s with
      matchedEPG := goInsert s.matchedEPG epgIdx true
      matchedM3U := goInsert s.matchedM3U m3uName true
      idUsageCount := goInsert s.idUsageCount (origIDOf (s.epgChannels.getD epgIdx default))
        (goLookupD s.idUsageCount (origIDOf (s.epgChannels.getD epgIdx default)) + 1)
      matchedChannels := s.matchedChannels ++
        [{ s.epgChannels.getD epgIdx default with ID := finalIDFor s epgIdx }]
      channelIDMap := goInsert s.channelIDMap (finalIDFor s epgIdx) m3uName } := by
  by_cases hid : (s.epgChannels.getD epgIdx default).ID = []
  · simp only [addMatch, finalIDFor, origIDOf]
    rw [if_pos hid, if_pos hid]
    rcases hl : goLookup s.idUsageCount
        (generateChannelID (s.epgChannels.getD epgIdx default).DisplayName) with _ | c <;>
      rfl
  · simp only [addMatch, finalIDFor, origIDOf]
    rw [if_neg hid, if_neg hid]
    rcases hl : goLookup s.idUsageCount (s.epgChannels.getD epgIdx default).ID with _ | c <;>
      rfl

/-- The run invariant of the matcher: classified, collision-free finalized
identifiers; unique map keys tracking them; values marked matched and
pairwise distinct; positive usage counts. -/
structure MatcherInv (s : MatcherState) : Prop where
  classify : ∀ id ∈ s.matchedChannels.map Channel.ID,
    (endsWithDashDigits id = false ∧ ∃ c, goLookup s.idUsageCount id = some c) ∨
    (∃ o k c, id = o ++ '-' :: goItoa k ∧ goLookup s.idUsageCount o = some c ∧
      2 ≤ k ∧ k ≤ c ∧ endsWithDashDigits o = false)
  ids_nodup : (s.matchedChannels.map Channel.ID).Nodup
  keys_sub : ∀ k ∈ goKeys s.channelIDMap, k ∈ s.matchedChannels.map Channel.ID
  keys_nodup : (goKeys s.channelIDMap).Nodup
  values_nodup : (goValues s.channelIDMap).Nodup
  values_matched : ∀ v ∈ goValues s.channelIDMap, goLookupD s.matchedM3U v = true
  counts_pos : ∀ e ∈ s.idUsageCount, 1 ≤ e.2

theorem goLookup_mem [DecidableEq α] (m : GoMap α β) (k : α) (v : β)
    (h : goLookup m k = some v) : (k, v) ∈ m := by
  unfold goLookup at h
  rcases hf : m.find? (fun e => e.1 = k) with _ | e
  · rw [hf] at h
    exact Option.noConfusion h
  · rw [hf] at h
    have hp := List.find?_some hf
    have hm := List.mem_of_find?_eq_some hf
    obtain ⟨k₀, v₀⟩ := e
    simp at h hp
    rw [← h, ← hp]
    exact hm

/-- One `addMatch` step preserves the matcher invariant, provided the guide
carries no identifier of the collision shape and the playlist name was not
yet matched. -/
theorem addMatch_inv (s : MatcherState) (epgIdx : Nat) (m3uName : GoStr)
    (hN : ∀ ch ∈ s.epgChannels, endsWithDashDigits (origIDOf ch) = false)
    (hInv : MatcherInv s) (hname : goLookupD s.matchedM3U m3uName = false) :
    MatcherInv (addMatch s epgIdx m3uName) := by
  rw [addMatch_spec]
  have hoidF : endsWithDashDigits (origIDOf (s.epgChannels.getD epgIdx default)) = false :=
    noDash_origIDOf_getD s hN epgIdx
  have hfid_none : goLookup s.idUsageCount (origIDOf (s.epgChannels.getD epgIdx default)) = none →
      finalIDFor s epgIdx = origIDOf (s.epgChannels.getD epgIdx default) := by
    intro h
    rw [finalIDFor, h]
  have hfid_some : ∀ c,
      goLookup s.idUsageCount (origIDOf (s.epgChannels.getD epgIdx default)) = some c →
      finalIDFor s epgIdx =
        origIDOf (s.epgChannels.getD epgIdx default) ++ '-' :: goItoa (c + 1) := by
    intro c h
    rw [finalIDFor, h]
  have hfresh : finalIDFor s epgIdx ∉ s.matchedChannels.map Channel.ID := by
    intro hmem
    rcases hcnt : goLookup s.idUsageCount (origIDOf (s.epgChannels.getD epgIdx default))
      with _ | c₀
    · rw [hfid_none hcnt] at hmem
      rcases hInv.classify _ hmem with ⟨_, c, hc⟩ | ⟨o, k, _, heq, _, h2k, _, _⟩
      · rw [hcnt] at hc
        exact Option.noConfusion hc
      · have htrue : endsWithDashDigits (origIDOf (s.epgChannels.getD epgIdx default)) = true := by
          rw [heq]
          exact endsWithDashDigits_suffix o (goItoa k) (goItoa_ne_nil k) (goItoa_all_digits k)
        rw [hoidF] at htrue
        exact Bool.noConfusion htrue
    · rw [hfid_some c₀ hcnt] at hmem
      rcases hInv.classify _ hmem with ⟨hF, _⟩ | ⟨o, k, c, heq, hlo, h2k, hkc, _⟩
      · have htrue := endsWithDashDigits_suffix
          (origIDOf (s.epgChannels.getD epgIdx default)) (goItoa (c₀ + 1))
          (goItoa_ne_nil _) (goItoa_all_digits _)
        rw [hF] at htrue
        exact Bool.noConfusion htrue
      · obtain ⟨ho, hk⟩ := suffix_split_inj
          (origIDOf (s.epgChannels.getD epgIdx default)) o (c₀ + 1) k
          (by omega) (by omega) heq
        rw [← ho, hcnt] at hlo
        injection hlo with hc₀
        omega
  have hfid_not_key : finalIDFor s epgIdx ∉ goKeys s.channelIDMap := by
    intro hk
    exact hfresh (hInv.keys_sub _ hk)
  have hname_not_value : m3uName ∉ goValues s.channelIDMap := by
    intro hv
    rw [hInv.values_matched _ hv] at hname
    exact Bool.noConfusion hname
  have hkeys_eq : goKeys (goInsert s.channelIDMap (finalIDFor s epgIdx) m3uName)
      = goKeys s.channelIDMap ++ [finalIDFor s epgIdx] :=
    goKeys_goInsert_not_mem _ _ _ hfid_not_key
  have hvals_eq : goValues (goInsert s.channelIDMap (finalIDFor s epgIdx) m3uName)
      = goValues s.channelIDMap ++ [m3uName] :=
    goValues_goInsert_not_mem _ _ _ hfid_not_key
  refine ⟨?_, ?_, ?_, ?_, ?_, ?_, ?_⟩
  · -- classify
    show ∀ id ∈ (s.matchedChannels ++
        [{ s.epgChannels.getD epgIdx default with ID := finalIDFor s epgIdx }]).map Channel.ID, _
    intro id hid
    rw [List.map_append] at hid
    rcases List.mem_append.mp hid with hOld | hNew
    · rcases hInv.classify id hOld with ⟨hF, c, hc⟩ | ⟨o, k, c, heq, hlo, h2k, hkc, hoF2⟩
      · left
        refine ⟨hF, ?_⟩
        by_cases hido : id = origIDOf (s.epgChannels.getD epgIdx default)
        · subst hido
          exact ⟨_, goLookup_goInsert_self _ _ _⟩
        · exact ⟨c, by rw [goLookup_goInsert_ne _ _ _ _ hido]; exact hc⟩
      · right
        by_cases hoo : o = origIDOf (s.epgChannels.getD epgIdx default)
        · refine ⟨o, k, goLookupD s.idUsageCount o + 1, heq, ?_, h2k, ?_, hoF2⟩
          · rw [hoo]
            exact goLookup_goInsert_self _ _ _
          · have : goLookupD s.idUsageCount o = c := by
              rw [goLookupD, hlo]
              rfl
            omega
        · exact ⟨o, k, c, heq, by rw [goLookup_goInsert_ne _ _ _ _ hoo]; exact hlo,
            h2k, hkc, hoF2⟩
    · have hid_eq : id = finalIDFor s epgIdx := by
        simpa using hNew
      subst hid_eq
      rcases hcnt : goLookup s.idUsageCount (origIDOf (s.epgChannels.getD epgIdx default))
        with _ | c₀
      · left
        rw [hfid_none hcnt]
        exact ⟨hoidF, _, goLookup_goInsert_self _ _ _⟩
      · right
        have hc₀pos : 1 ≤ c₀ := by
          have hmem := goLookup_mem _ _ _ hcnt
          exact hInv.counts_pos _ hmem
        have hlookupD : goLookupD s.idUsageCount
            (origIDOf (s.epgChannels.getD epgIdx default)) = c₀ := by
          rw [goLookupD, hcnt]
          rfl
        refine ⟨origIDOf (s.epgChannels.getD epgIdx default), c₀ + 1,
          goLookupD s.idUsageCount (origIDOf (s.epgChannels.getD epgIdx default)) + 1,
          hfid_some c₀ hcnt, goLookup_goInsert_self _ _ _, by omega, by omega, hoidF⟩
  · -- ids_nodup
    show ((s.matchedChannels ++
        [{ s.epgChannels.getD epgIdx default with ID := finalIDFor s epgIdx }]).map
          Channel.ID).Nodup
    rw [List.map_append]
    refine List.Nodup.append hInv.ids_nodup (List.nodup_singleton _) ?_
    intro a ha ha'
    have : a = finalIDFor s epgIdx := by simpa using ha'
    exact hfresh (this ▸ ha)
  · -- keys_sub
    intro k hk
    rw [hkeys_eq] at hk
    show k ∈ (s.matchedChannels ++
        [{ s.epgChannels.getD epgIdx default with ID := finalIDFor s epgIdx }]).map Channel.ID
    rw [List.map_append]
    rcases List.mem_append.mp hk with h | h
    · exact List.mem_append_left _ (hInv.keys_sub _ h)
    · refine List.mem_append_right _ ?_
      simpa using h
  · -- keys_nodup
    show (goKeys (goInsert s.channelIDMap (finalIDFor s epgIdx) m3uName)).Nodup
    rw [hkeys_eq]
    refine List.Nodup.append hInv.keys_nodup (List.nodup_singleton _) ?_
    intro a ha ha'
    have : a = finalIDFor s epgIdx := by simpa using ha'
    exact hfid_not_key (this ▸ ha)
  · -- values_nodup
    show (goValues (goInsert s.channelIDMap (finalIDFor s epgIdx) m3uName)).Nodup
    rw [hvals_eq]
    refine List.Nodup.append hInv.values_nodup (List.nodup_singleton _) ?_
    intro a ha ha'
    have : a = m3uName := by simpa using ha'
    exact hname_not_value (this ▸ ha)
  · -- values_matched
    intro v hv
    rw [hvals_eq] at hv
    show goLookupD (goInsert s.matchedM3U m3uName true) v = true
    rcases List.mem_append.mp hv with h | h
    · by_cases hvm : v = m3uName
      · subst hvm
        rw [goLookupD_goInsert_self]
      · rw [goLookupD_goInsert_ne _ _ _ _ hvm]
        exact hInv.values_matched _ h
    · have : v = m3uName := by simpa using h
      subst this
      rw [goLookupD_goInsert_self]
  · -- counts_pos
    intro e he
    rcases mem_goInsert _ _ _ _ he with rfl | h
    · show 1 ≤ goLookupD s.idUsageCount (origIDOf (s.epgChannels.getD epgIdx default)) + 1
      omega
    · exact hInv.counts_pos _ h

theorem addMatch_epgChannels (s : MatcherState) (epgIdx : Nat) (m3uName : GoStr) :
    (addMatch s epgIdx m3uName).epgChannels = s.epgChannels := by
  rw [addMatch_spec]

theorem tvgStep_inv (s : MatcherState) (e : GoStr × GoStr)
    (hN : ∀ ch ∈ s.epgChannels, endsWithDashDigits (origIDOf ch) = false)
    (hInv : MatcherInv s) :
    MatcherInv (tvgStep s e) ∧ (tvgStep s e).epgChannels = s.epgChannels := by
  simp only [tvgStep]
  by_cases h1 : goLookupD s.matchedM3U e.2 = true
  · rw [if_pos h1]
    exact ⟨hInv, rfl⟩
  · rw [if_neg h1]
    by_cases h2 : goLookupD s.epgIDToCandidates e.1 = []
    · rw [if_pos h2]
      exact ⟨hInv, rfl⟩
    · rw [if_neg h2]
      rcases hb : findBestTVGIDCandidate s (goLookupD s.epgIDToCandidates e.1) e.2 with _ | idx
      · exact ⟨hInv, rfl⟩
      · have hname : goLookupD s.matchedM3U e.2 = false := by simpa using h1
        exact ⟨addMatch_inv s idx e.2 hN hInv hname, addMatch_epgChannels s idx e.2⟩

theorem dispStep_inv (channelNameMap : GoMap GoStr Bool) (s : MatcherState) (ie : Nat × Channel)
    (hN : ∀ ch ∈ s.epgChannels, endsWithDashDigits (origIDOf ch) = false)
    (hInv : MatcherInv s) :
    MatcherInv (dispStep channelNameMap s ie) ∧
    (dispStep channelNameMap s ie).epgChannels = s.epgChannels := by
  simp only [dispStep]
  by_cases h1 : goLookupD s.matchedEPG ie.1 = true
  · rw [if_pos h1]
    exact ⟨hInv, rfl⟩
  · rw [if_neg h1]
    by_cases h2 : ¬ goLookupD channelNameMap ie.2.DisplayName = true ∨
        goLookupD s.matchedM3U ie.2.DisplayName = true
    · rw [if_pos h2]
      exact ⟨hInv, rfl⟩
    · rw [if_neg h2]
      push_neg at h2
      have hname : goLookupD s.matchedM3U ie.2.DisplayName = false := by
        simpa using h2.2
      exact ⟨addMatch_inv s ie.1 ie.2.DisplayName hN hInv hname,
        addMatch_epgChannels s ie.1 ie.2.DisplayName⟩

theorem normPassStep_inv (s : MatcherState) (e : GoStr × M3UNormalizedInfo)
    (hN : ∀ ch ∈ s.epgChannels, endsWithDashDigits (origIDOf ch) = false)
    (hInv : MatcherInv s) :
    MatcherInv (normPassStep s e) ∧ (normPassStep s e).epgChannels = s.epgChannels := by
  simp only [normPassStep]
  by_cases h1 : goLookupD s.matchedM3U e.2.originalName = true
  · rw [if_pos h1]
    exact ⟨hInv, rfl⟩
  · rw [if_neg h1]
    rcases hb : findBestNormalizedMatch s e.2 with _ | idx
    · exact ⟨hInv, rfl⟩
    · have hname : goLookupD s.matchedM3U e.2.originalName = false := by simpa using h1
      exact ⟨addMatch_inv s idx e.2.originalName hN hInv hname,
        addMatch_epgChannels s idx e.2.originalName⟩

theorem matchByTVGID_inv :
    ∀ (m : GoMap GoStr GoStr) (s : MatcherState),
      (∀ ch ∈ s.epgChannels, endsWithDashDigits (origIDOf ch) = false) →
      MatcherInv s →
      MatcherInv (matchByTVGID s m) ∧ (matchByTVGID s m).epgChannels = s.epgChannels := by
  intro m
  induction m with
  | nil => intro s hN hInv; exact ⟨hInv, rfl⟩
  | cons e m ih =>
    intro s hN hInv
    obtain ⟨hstep, hepg⟩ := tvgStep_inv s e hN hInv
    have hN' : ∀ ch ∈ (tvgStep s e).epgChannels, endsWithDashDigits (origIDOf ch) = false := by
      rw [hepg]; exact hN
    obtain ⟨h1, h2⟩ := ih (tvgStep s e) hN' hstep
    exact ⟨h1, h2.trans hepg⟩

theorem dispFold_inv (channelNameMap : GoMap GoStr Bool) :
    ∀ (l : List (Nat × Channel)) (s : MatcherState),
      (∀ ch ∈ s.epgChannels, endsWithDashDigits (origIDOf ch) = false) →
      MatcherInv s →
      MatcherInv (l.foldl (dispStep channelNameMap) s) ∧
      (l.foldl (dispStep channelNameMap) s).epgChannels = s.epgChannels := by
  intro l
  induction l with
  | nil => intro s hN hInv; exact ⟨hInv, rfl⟩
  | cons ie l ih =>
    intro s hN hInv
    obtain ⟨hstep, hepg⟩ := dispStep_inv channelNameMap s ie hN hInv
    have hN' : ∀ ch ∈ (dispStep channelNameMap s ie).epgChannels,
        endsWithDashDigits (origIDOf ch) = false := by
      rw [hepg]; exact hN
    obtain ⟨h1, h2⟩ := ih (dispStep channelNameMap s ie) hN' hstep
    exact ⟨h1, h2.trans hepg⟩

theorem matchByDisplayName_inv (channelNameMap : GoMap GoStr Bool) (s : MatcherState)
    (hN : ∀ ch ∈ s.epgChannels, endsWithDashDigits (origIDOf ch) = false)
    (hInv : MatcherInv s) :
    MatcherInv (matchByDisplayName s channelNameMap) ∧
    (matchByDisplayName s channelNameMap).epgChannels = s.epgChannels :=
  dispFold_inv channelNameMap (enumFrom 0 s.epgChannels) s hN hInv

theorem matchByNormalizedName_inv :
    ∀ (m : GoMap GoStr M3UNormalizedInfo) (s : MatcherState),
      (∀ ch ∈ s.epgChannels, endsWithDashDigits (origIDOf ch) = false) →
      MatcherInv s →
      MatcherInv (matchByNormalizedName s m) ∧
      (matchByNormalizedName s m).epgChannels = s.epgChannels := by
  intro m
  induction m with
  | nil => intro s hN hInv; exact ⟨hInv, rfl⟩
  | cons e m ih =>
    intro s hN hInv
    obtain ⟨hstep, hepg⟩ := normPassStep_inv s e hN hInv
    have hN' : ∀ ch ∈ (normPassStep s e).epgChannels,
        endsWithDashDigits (origIDOf ch) = false := by
      rw [hepg]; exact hN
    obtain ⟨h1, h2⟩ := ih (normPassStep s e) hN' hstep
    exact ⟨h1, h2.trans hepg⟩

theorem newMatcherState_inv (epgChannels : List Channel) :
    MatcherInv (newMatcherState epgChannels) := by
  refine ⟨?_, ?_, ?_, ?_, ?_, ?_, ?_⟩ <;>
    first
    | exact List.Pairwise.nil
    | (intro x hx; exact absurd hx (List.not_mem_nil _))

theorem goKeys_goInsert_mem [DecidableEq α] :
    ∀ (m : GoMap α β) (k : α) (v : β), k ∈ goKeys m →
      goKeys (goInsert m k v) = goKeys m := by
  intro m
  induction m with
  | nil => intro k v h; exact absurd h (List.not_mem_nil _)
  | cons e rest ih =>
    intro k v h
    obtain ⟨k₀, v₀⟩ := e
    by_cases hk : k₀ = k
    · show goKeys (if k₀ = k then (k, v) :: rest else _) = _
      rw [if_pos hk, hk]
      rfl
    · show goKeys (if k₀ = k then _ else (k₀, v₀) :: goInsert rest k v) = _
      rw [if_neg hk]
      have hmem : k ∈ goKeys rest := by
        rcases List.mem_cons.mp h with h' | h'
        · exact absurd h'.symm hk
        · exact h'
      show k₀ :: goKeys (goInsert rest k v) = k₀ :: goKeys rest
      rw [ih k v hmem]

theorem goKeys_goInsert_nodup_pre [DecidableEq α] (m : GoMap α β) (k : α) (v : β)
    (h : (goKeys m).Nodup) : (goKeys (goInsert m k v)).Nodup := by
  by_cases hk : k ∈ goKeys m
  · rw [goKeys_goInsert_mem _ _ _ hk]
    exact h
  · rw [goKeys_goInsert_not_mem _ _ _ hk]
    refine List.Nodup.append h (List.nodup_singleton _) ?_
    intro a ha ha'
    have : a = k := by simpa using ha'
    exact hk (this ▸ ha)

theorem mem_goValues_goInsert [DecidableEq α] :
    ∀ (m : GoMap α β) (k : α) (v x : β), x ∈ goValues (goInsert m k v) →
      x = v ∨ x ∈ goValues m := by
  intro m
  induction m with
  | nil =>
    intro k v x h
    left
    have h' : x ∈ [v] := h
    simpa using h'
  | cons e rest ih =>
    intro k v x h
    obtain ⟨k₀, v₀⟩ := e
    by_cases hk : k₀ = k
    · have he : goInsert ((k₀, v₀) :: rest) k v = (k, v) :: rest := by
        simp [goInsert, hk]
      rw [he] at h
      have h' : x ∈ v :: goValues rest := h
      rcases List.mem_cons.mp h' with h'' | h''
      · exact Or.inl h''
      · exact Or.inr (List.mem_cons_of_mem _ h'')
    · have he : goInsert ((k₀, v₀) :: rest) k v = (k₀, v₀) :: goInsert rest k v := by
        simp [goInsert, hk]
      rw [he] at h
      have h' : x ∈ v₀ :: goValues (goInsert rest k v) := h
      rcases List.mem_cons.mp h' with h'' | h''
      · right
        subst h''
        exact List.mem_cons_self _ _
      · rcases ih k v x h'' with h3 | h3
        · exact Or.inl h3
        · exact Or.inr (List.mem_cons_of_mem _ h3)

theorem goValues_goInsert_nodup_pre [DecidableEq α] :
    ∀ (m : GoMap α β) (k : α) (v : β), (goValues m).Nodup → v ∉ goValues m →
      (goValues (goInsert m k v)).Nodup := by
  intro m
  induction m with
  | nil =>
    intro k v _ _
    exact List.nodup_singleton _
  | cons e rest ih =>
    intro k v hnd hnm
    obtain ⟨k₀, v₀⟩ := e
    have hnd' : v₀ ∉ goValues rest ∧ (goValues rest).Nodup := by
      simpa [goValues] using hnd
    have hv_ne : v ≠ v₀ := by
      intro hc
      apply hnm
      show v ∈ v₀ :: goValues rest
      rw [hc]
      exact List.mem_cons_self _ _
    have hv_rest : v ∉ goValues rest := by
      intro hc
      exact hnm (List.mem_cons_of_mem _ hc)
    by_cases hk : k₀ = k
    · have he : goInsert ((k₀, v₀) :: rest) k v = (k, v) :: rest := by
        simp [goInsert, hk]
      rw [he]
      show (v :: goValues rest).Nodup
      exact List.nodup_cons.mpr ⟨hv_rest, hnd'.2⟩
    · have he : goInsert ((k₀, v₀) :: rest) k v = (k₀, v₀) :: goInsert rest k v := by
        simp [goInsert, hk]
      rw [he]
      show (v₀ :: goValues (goInsert rest k v)).Nodup
      refine List.nodup_cons.mpr ⟨?_, ih k v hnd'.2 hv_rest⟩
      intro hc
      rcases mem_goValues_goInsert rest k v v₀ hc with h' | h'
      · exact hv_ne h'.symm
      · exact hnd'.1 h'

/-- The unconditional part of the matcher invariant: the identifier-to-name
map has unique keys, each playlist name occurs as a value at most once, and
every value is flagged in the matched set.  No assumption on the guide's
identifiers is involved. -/
structure MatcherMapInv (s : MatcherState) : Prop where
  keys_nodup : (goKeys s.channelIDMap).Nodup
  values_nodup : (goValues s.channelIDMap).Nodup
  values_matched : ∀ v ∈ goValues s.channelIDMap, goLookupD s.matchedM3U v = true

theorem addMatch_mapInv (s : MatcherState) (epgIdx : Nat) (m3uName : GoStr)
    (hInv : MatcherMapInv s) (hname : goLookupD s.matchedM3U m3uName = false) :
    MatcherMapInv (addMatch s epgIdx m3uName) := by
  rw [addMatch_spec]
  have hname_not_value : m3uName ∉ goValues s.channelIDMap := by
    intro hv
    rw [hInv.values_matched _ hv] at hname
    exact Bool.noConfusion hname
  refine ⟨?_, ?_, ?_⟩
  · exact goKeys_goInsert_nodup_pre _ _ _ hInv.keys_nodup
  · exact goValues_goInsert_nodup_pre _ _ _ hInv.values_nodup hname_not_value
  · intro v hv
    show goLookupD (goInsert s.matchedM3U m3uName true) v = true
    rcases mem_goValues_goInsert _ _ _ _ hv with rfl | h
    · rw [goLookupD_goInsert_self]
    · by_cases hvm : v = m3uName
      · subst hvm
        rw [goLookupD_goInsert_self]
      · rw [goLookupD_goInsert_ne _ _ _ _ hvm]
        exact hInv.values_matched _ h

theorem tvgStep_mapInv (s : MatcherState) (e : GoStr × GoStr)
    (hInv : MatcherMapInv s) : MatcherMapInv (tvgStep s e) := by
  simp only [tvgStep]
  by_cases h1 : goLookupD s.matchedM3U e.2 = true
  · rw [if_pos h1]
    exact hInv
  · rw [if_neg h1]
    by_cases h2 : goLookupD s.epgIDToCandidates e.1 = []
    · rw [if_pos h2]
      exact hInv
    · rw [if_neg h2]
      rcases hb : findBestTVGIDCandidate s (goLookupD s.epgIDToCandidates e.1) e.2 with _ | idx
      · exact hInv
      · exact addMatch_mapInv s idx e.2 hInv (by simpa using h1)

theorem dispStep_mapInv (channelNameMap : GoMap GoStr Bool) (s : MatcherState)
    (ie : Nat × Channel) (hInv : MatcherMapInv s) :
    MatcherMapInv (dispStep channelNameMap s ie) := by
  simp only [dispStep]
  by_cases h1 : goLookupD s.matchedEPG ie.1 = true
  · rw [if_pos h1]
    exact hInv
  · rw [if_neg h1]
    by_cases h2 : ¬ goLookupD channelNameMap ie.2.DisplayName = true ∨
        goLookupD s.matchedM3U ie.2.DisplayName = true
    · rw [if_pos h2]
      exact hInv
    · rw [if_neg h2]
      push_neg at h2
      exact addMatch_mapInv s ie.1 ie.2.DisplayName hInv (by simpa using h2.2)

theorem normPassStep_mapInv (s : MatcherState) (e : GoStr × M3UNormalizedInfo)
    (hInv : MatcherMapInv s) : MatcherMapInv (normPassStep s e) := by
  simp only [normPassStep]
  by_cases h1 : goLookupD s.matchedM3U e.2.originalName = true
  · rw [if_pos h1]
    exact hInv
  · rw [if_neg h1]
    rcases hb : findBestNormalizedMatch s e.2 with _ | idx
    · exact hInv
    · exact addMatch_mapInv s idx e.2.originalName hInv (by simpa using h1)

theorem matchByTVGID_mapInv :
    ∀ (m : GoMap GoStr GoStr) (s : MatcherState), MatcherMapInv s →
      MatcherMapInv (matchByTVGID s m) := by
  intro m
  induction m with
  | nil => intro s hInv; exact hInv
  | cons e m ih =>
    intro s hInv
    exact ih (tvgStep s e) (tvgStep_mapInv s e hInv)

theorem dispFold_mapInv (channelNameMap : GoMap GoStr Bool) :
    ∀ (l : List (Nat × Channel)) (s : MatcherState), MatcherMapInv s →
      MatcherMapInv (l.foldl (dispStep channelNameMap) s) := by
  intro l
  induction l with
  | nil => intro s hInv; exact hInv
  | cons ie l ih =>
    intro s hInv
    exact ih (dispStep channelNameMap s ie) (dispStep_mapInv channelNameMap s ie hInv)

theorem matchByDisplayName_mapInv (channelNameMap : GoMap GoStr Bool) (s : MatcherState)
    (hInv : MatcherMapInv s) : MatcherMapInv (matchByDisplayName s channelNameMap) :=
  dispFold_mapInv channelNameMap (enumFrom 0 s.epgChannels) s hInv

theorem matchByNormalizedName_mapInv :
    ∀ (m : GoMap GoStr M3UNormalizedInfo) (s : MatcherState), MatcherMapInv s →
      MatcherMapInv (matchByNormalizedName s m) := by
  intro m
  induction m with
  | nil => intro s hInv; exact hInv
  | cons e m ih =>
    intro s hInv
    exact ih (normPassStep s e) (normPassStep_mapInv s e hInv)

theorem newMatcherState_mapInv (epgChannels : List Channel) :
    MatcherMapInv (newMatcherState epgChannels) := by
  refine ⟨?_, ?_, ?_⟩ <;>
    first
    | exact List.Pairwise.nil
    | (intro x hx; exact absurd hx (List.not_mem_nil _))

/-! ## Claim C2: the amended uniqueness theorem -/

/-- C2 amended: for every guide and every prebuilt lookup map, the
identifier-to-name map returned by `matchChannels` has unique keys and each
playlist name occurs among its values at most once per run, unconditionally;
and provided no guide channel's original identifier (its own, or the hash
substituted for an empty one) ends in a dash followed by decimal digits, the
returned channel list carries pairwise-distinct finalized identifiers.  (The
dash-digit proviso on the last part is forced by the counterexample: a native
identifier "a-2" next to a twice-used "a" produces a duplicate.) -/
theorem c2_matchChannels_uniqueness (epgChannels : List Channel)
    (channelNameMap : GoMap GoStr Bool) (tvgIDMap : GoMap GoStr GoStr)
    (normalizedNameMap : GoMap GoStr M3UNormalizedInfo) :
    (goKeys (matchChannels epgChannels channelNameMap tvgIDMap normalizedNameMap).2).Nodup ∧
    (goValues (matchChannels epgChannels channelNameMap tvgIDMap
      normalizedNameMap).2).Nodup ∧
    ((∀ ch ∈ epgChannels, endsWithDashDigits (origIDOf ch) = false) →
      ((matchChannels epgChannels channelNameMap tvgIDMap normalizedNameMap).1.map
        Channel.ID).Nodup) := by
  have hmap : MatcherMapInv (matchByNormalizedName (matchByDisplayName
      (matchByTVGID (newMatcherState epgChannels) tvgIDMap) channelNameMap)
      normalizedNameMap) :=
    matchByNormalizedName_mapInv normalizedNameMap _
      (matchByDisplayName_mapInv channelNameMap _
        (matchByTVGID_mapInv tvgIDMap _ (newMatcherState_mapInv epgChannels)))
  refine ⟨hmap.keys_nodup, hmap.values_nodup, ?_⟩
  intro H
  have h0 : MatcherInv (newMatcherState epgChannels) := newMatcherState_inv _
  have hN0 : ∀ ch ∈ (newMatcherState epgChannels).epgChannels,
      endsWithDashDigits (origIDOf ch) = false := H
  obtain ⟨h1, e1⟩ := matchByTVGID_inv tvgIDMap _ hN0 h0
  have hN1 : ∀ ch ∈ (matchByTVGID (newMatcherState epgChannels) tvgIDMap).epgChannels,
      endsWithDashDigits (origIDOf ch) = false := by
    rw [e1]; exact hN0
  obtain ⟨h2, e2⟩ := matchByDisplayName_inv channelNameMap _ hN1 h1
  have hN2 : ∀ ch ∈ (matchByDisplayName (matchByTVGID (newMatcherState epgChannels) tvgIDMap)
      channelNameMap).epgChannels, endsWithDashDigits (origIDOf ch) = false := by
    rw [e2]; exact hN1
  obtain ⟨h3, _⟩ := matchByNormalizedName_inv normalizedNameMap _ hN2 h2
  exact h3.ids_nodup

set_option maxRecDepth 200000 in
/-- C2 witness: the amended theorem applied to a guide reusing identifier
"a" (no native dash-digit identifiers), matched against playlist names "X"
and "Y"; the unconditional parts are projected directly and the dash-digit
hypothesis of the last part is discharged by computation. -/
theorem c2_matchChannels_uniqueness_witness :
    (goKeys (matchChannels [⟨gs "a", gs "X", ⟨[]⟩⟩, ⟨gs "a", gs "Y", ⟨[]⟩⟩]
        (buildChannelNameMap [⟨gs "X", [], [], [], [], []⟩, ⟨gs "Y", [], [], [], [], []⟩])
        (buildTVGIDMap [⟨gs "X", [], [], [], [], []⟩, ⟨gs "Y", [], [], [], [], []⟩])
        (buildNormalizedNameMap
          [⟨gs "X", [], [], [], [], []⟩, ⟨gs "Y", [], [], [], [], []⟩])).2).Nodup ∧
    (goValues (matchChannels [⟨gs "a", gs "X", ⟨[]⟩⟩, ⟨gs "a", gs "Y", ⟨[]⟩⟩]
        (buildChannelNameMap [⟨gs "X", [], [], [], [], []⟩, ⟨gs "Y", [], [], [], [], []⟩])
        (buildTVGIDMap [⟨gs "X", [], [], [], [], []⟩, ⟨gs "Y", [], [], [], [], []⟩])
        (buildNormalizedNameMap
          [⟨gs "X", [], [], [], [], []⟩, ⟨gs "Y", [], [], [], [], []⟩])).2).Nodup ∧
    ((matchChannels [⟨gs "a", gs "X", ⟨[]⟩⟩, ⟨gs "a", gs "Y", ⟨[]⟩⟩]
        (buildChannelNameMap [⟨gs "X", [], [], [], [], []⟩, ⟨gs "Y", [], [], [], [], []⟩])
        (buildTVGIDMap [⟨gs "X", [], [], [], [], []⟩, ⟨gs "Y", [], [], [], [], []⟩])
        (buildNormalizedNameMap
          [⟨gs "X", [], [], [], [], []⟩, ⟨gs "Y", [], [], [], [], []⟩])).1.map
      Channel.ID).Nodup :=
  ⟨(c2_matchChannels_uniqueness [⟨gs "a", gs "X", ⟨[]⟩⟩, ⟨gs "a", gs "Y", ⟨[]⟩⟩]
      (buildChannelNameMap [⟨gs "X", [], [], [], [], []⟩, ⟨gs "Y", [], [], [], [], []⟩])
      (buildTVGIDMap [⟨gs "X", [], [], [], [], []⟩, ⟨gs "Y", [], [], [], [], []⟩])
      (buildNormalizedNameMap
        [⟨gs "X", [], [], [], [], []⟩, ⟨gs "Y", [], [], [], [], []⟩])).1,
   (c2_matchChannels_uniqueness [⟨gs "a", gs "X", ⟨[]⟩⟩, ⟨gs "a", gs "Y", ⟨[]⟩⟩]
      (buildChannelNameMap [⟨gs "X", [], [], [], [], []⟩, ⟨gs "Y", [], [], [], [], []⟩])
      (buildTVGIDMap [⟨gs "X", [], [], [], [], []⟩, ⟨gs "Y", [], [], [], [], []⟩])
      (buildNormalizedNameMap
        [⟨gs "X", [], [], [], [], []⟩, ⟨gs "Y", [], [], [], [], []⟩])).2.1,
   (c2_matchChannels_uniqueness [⟨gs "a", gs "X", ⟨[]⟩⟩, ⟨gs "a", gs "Y", ⟨[]⟩⟩]
      (buildChannelNameMap [⟨gs "X", [], [], [], [], []⟩, ⟨gs "Y", [], [], [], [], []⟩])
      (buildTVGIDMap [⟨gs "X", [], [], [], [], []⟩, ⟨gs "Y", [], [], [], [], []⟩])
      (buildNormalizedNameMap
        [⟨gs "X", [], [], [], [], []⟩, ⟨gs "Y", [], [], [], [], []⟩])).2.2 (by decide)⟩

/-! ## Claims C7 and C8: event view of the merge -/

/-- One `(guide identifier, playlist name)` pair of one source, together with
that source's guide document — the unit of work of the `MergeEPGs` loops. -/
structure MEvent where
  eid : GoStr
  name : GoStr
  tv : TV

/-- All pairs processed by `MergeEPGs`, flattened in processing order
(sources in priority order, map pairs in model order), skipping nil results
and nil guides exactly as the code does. -/
def eventsOf (results : List (Option FilterResult)) : List MEvent :=
  results.flatMap (fun r =>
    match r with
    | none => []
    | some fr =>
      match fr.epg with
      | none => []
      | some tv => fr.channelMap.map (fun e => ⟨e.1, e.2, tv⟩))

/-- Event-level form of the merge body. -/
def mergeEvent (acc : MergeAcc) (ev : MEvent) : MergeAcc :=
  mergePair ev.tv acc (ev.eid, ev.name)

/-- The primary identifier in force while an event's programs are merged. -/
def primaryOf (acc : MergeAcc) (ev : MEvent) : GoStr :=
  if (goLookup acc.m3uToEPGID ev.name).isNone then ev.eid
  else goLookupD acc.m3uToEPGID ev.name

/-- The channel entry a claim emits: the source's first channel with the
claimed identifier, display name overwritten by the playlist name. -/
def emitOf (ev : MEvent) : List Channel :=
  match ev.tv.Channels.find? (fun ch => ch.ID = ev.eid) with
  | some ch => [{ ch with DisplayName := ev.name }]
  | none => []

/-- The identifier of the first event claiming a playlist name — the owner
assigned by the earliest (highest-priority) source mapping it. -/
def eventsFirstClaim (es : List MEvent) (name : GoStr) : Option GoStr :=
  es.findSome? (fun ev => if ev.name = name then some ev.eid else none)

/-- The first claiming event's identifier together with its guide document. -/
def eventsOwner (es : List MEvent) (name : GoStr) : Option (GoStr × TV) :=
  es.findSome? (fun ev => if ev.name = name then some (ev.eid, ev.tv) else none)

/-- Owner of a playlist name across prioritized results. -/
def firstClaim (results : List (Option FilterResult)) (name : GoStr) : Option GoStr :=
  eventsFirstClaim (eventsOf results) name

/-- Spec-side first-seen-wins dedup step ("insert unless a program with this
start is already present"). -/
def insertIfNewStart (ps : List Programme) (p : Programme) : List Programme :=
  if hasOverlap ps p then ps else ps ++ [p]

/-- Spec-side dedup: keep the first-seen program of each start timestamp. -/
def dedupFirstByStart (l : List Programme) : List Programme :=
  l.foldl insertIfNewStart []

/-- All programs destined for final channel `k`, remapped, in merge
processing order. -/
def mergedStream (results : List (Option FilterResult)) (k : GoStr) : List Programme :=
  (eventsOf results).flatMap (fun ev =>
    if firstClaim results ev.name = some k then
      (ev.tv.Programs.filter (fun p => p.PChannel = ev.eid)).map
        (fun p => { p with PChannel := k })
    else [])

theorem mergeFold_eq_events :
    ∀ (results : List (Option FilterResult)) (acc : MergeAcc),
      results.foldl mergeSource acc = (eventsOf results).foldl mergeEvent acc := by
  intro results
  induction results with
  | nil => intro acc; rfl
  | cons r results ih =>
    intro acc
    rw [List.foldl_cons]
    have hev : eventsOf (r :: results) = (match r with
        | none => []
        | some fr =>
          match fr.epg with
          | none => []
          | some tv => fr.channelMap.map (fun e => (⟨e.1, e.2, tv⟩ : MEvent))) ++
        eventsOf results := by
      simp [eventsOf]
    rw [hev, List.foldl_append]
    rcases r with _ | fr
    · exact ih acc
    · rcases hepg : fr.epg with _ | tv
      · simp only [mergeSource, hepg]
        exact ih acc
      · simp only [mergeSource, hepg]
        rw [List.foldl_map]
        exact ih _

theorem mergeEvent_m3u (acc : MergeAcc) (ev : MEvent) :
    (mergeEvent acc ev).m3uToEPGID =
      if (goLookup acc.m3uToEPGID ev.name).isNone then
        goInsert acc.m3uToEPGID ev.name ev.eid
      else acc.m3uToEPGID := by
  by_cases h : (goLookup acc.m3uToEPGID ev.name).isNone = true
  · rw [if_pos h]
    show (mergePair ev.tv acc (ev.eid, ev.name)).m3uToEPGID = _
    simp only [mergePair, if_pos h]
  · rw [if_neg h]
    show (mergePair ev.tv acc (ev.eid, ev.name)).m3uToEPGID = _
    simp only [mergePair, if_neg h]

theorem mergeEvent_outChannels (acc : MergeAcc) (ev : MEvent) :
    (mergeEvent acc ev).outChannels =
      if (goLookup acc.m3uToEPGID ev.name).isNone then acc.outChannels ++ emitOf ev
      else acc.outChannels := by
  by_cases h : (goLookup acc.m3uToEPGID ev.name).isNone = true
  · rw [if_pos h]
    show (mergePair ev.tv acc (ev.eid, ev.name)).outChannels = _
    simp only [mergePair, if_pos h]
    rfl
  · rw [if_neg h]
    show (mergePair ev.tv acc (ev.eid, ev.name)).outChannels = _
    simp only [mergePair, if_neg h]

theorem mergeEvent_channelPrograms (acc : MergeAcc) (ev : MEvent) :
    (mergeEvent acc ev).channelPrograms =
      ev.tv.Programs.foldl (progStep ev.eid (primaryOf acc ev)) acc.channelPrograms := by
  by_cases h : (goLookup acc.m3uToEPGID ev.name).isNone = true
  · show (mergePair ev.tv acc (ev.eid, ev.name)).channelPrograms = _
    simp only [mergePair, if_pos h, primaryOf]
    rw [goLookupD_goInsert_self]
  · show (mergePair ev.tv acc (ev.eid, ev.name)).channelPrograms = _
    simp only [mergePair, if_neg h, primaryOf]

theorem goLookup_eq_none_of_not_mem [DecidableEq α] :
    ∀ (m : GoMap α β) (k : α), k ∉ goKeys m → goLookup m k = none := by
  intro m
  induction m with
  | nil => intro k _; rfl
  | cons e rest ih =>
    intro k h
    obtain ⟨k₀, v₀⟩ := e
    have hk : ¬ k₀ = k := fun hc => h (hc ▸ List.mem_cons_self _ _)
    have hfind : ((k₀, v₀) :: rest).find? (fun e => decide (e.1 = k)) =
        rest.find? (fun e => decide (e.1 = k)) :=
      List.find?_cons_of_neg _ (by simpa using hk)
    show ((((k₀, v₀) :: rest).find? (fun e => decide (e.1 = k))).map (·.2)) = none
    rw [hfind]
    exact ih k (fun hc => h (List.mem_cons_of_mem _ hc))

/-- Invariant on the program buckets of the merge: every program sits in the
bucket of its own channel, starts are unique per bucket, keys unique. -/
structure BucketInv (cp : GoMap GoStr (List Programme)) : Prop where
  chan : ∀ e ∈ cp, ∀ q ∈ e.2, q.PChannel = e.1
  starts : ∀ e ∈ cp, (e.2.map Programme.Start).Nodup
  keys : (goKeys cp).Nodup

theorem BucketInv.lookupD_chan {cp : GoMap GoStr (List Programme)} (h : BucketInv cp)
    (k : GoStr) : ∀ q ∈ goLookupD cp k, q.PChannel = k := by
  intro q hq
  rcases hl : goLookup cp k with _ | ps
  · rw [goLookupD, hl] at hq
    exact absurd hq (List.not_mem_nil _)
  · rw [goLookupD, hl] at hq
    exact h.chan (k, ps) (goLookup_mem _ _ _ hl) q hq

theorem BucketInv.lookupD_starts {cp : GoMap GoStr (List Programme)} (h : BucketInv cp)
    (k : GoStr) : ((goLookupD cp k).map Programme.Start).Nodup := by
  rcases hl : goLookup cp k with _ | ps
  · rw [goLookupD, hl]
    exact List.Pairwise.nil
  · rw [goLookupD, hl]
    exact h.starts (k, ps) (goLookup_mem _ _ _ hl)

theorem progStep_bucketInv (eid primary : GoStr) (cp : GoMap GoStr (List Programme))
    (prog : Programme) (h : BucketInv cp) : BucketInv (progStep eid primary cp prog) := by
  unfold progStep
  by_cases h1 : prog.PChannel ≠ eid
  · rw [if_pos h1]
    exact h
  · rw [if_neg h1]
    simp only
    by_cases h2 : hasOverlap (goLookupD cp primary) { prog with PChannel := primary } = true
    · rw [if_pos h2]
      exact h
    · rw [if_neg h2]
      have hnew : ∀ p ∈ goLookupD cp primary, p.Start ≠ prog.Start := by
        intro p hp hc
        apply h2
        unfold hasOverlap
        rw [List.any_eq_true]
        exact ⟨p, hp, by simpa using hc⟩
      refine ⟨?_, ?_, ?_⟩
      · intro e he q hq
        rcases mem_goInsert _ _ _ _ he with rfl | he'
        · rcases List.mem_append.mp hq with h' | h'
          · exact h.lookupD_chan primary q h'
          · rw [List.mem_singleton.mp h']
        · exact h.chan e he' q hq
      · intro e he
        rcases mem_goInsert _ _ _ _ he with rfl | he'
        · show ((goLookupD cp primary ++ [_]).map Programme.Start).Nodup
          rw [List.map_append]
          refine List.Nodup.append (h.lookupD_starts primary) (List.nodup_singleton _) ?_
          intro a ha ha'
          obtain ⟨p, hp, hps⟩ := List.mem_map.mp ha
          have : a = prog.Start := by simpa using ha'
          exact hnew p hp (hps.trans this)
        · exact h.starts e he'
      · by_cases hk : primary ∈ goKeys cp
        · rw [goKeys_goInsert_mem _ _ _ hk]
          exact h.keys
        · rw [goKeys_goInsert_not_mem _ _ _ hk]
          refine List.Nodup.append h.keys (List.nodup_singleton _) ?_
          intro a ha ha'
          have : a = primary := by simpa using ha'
          exact hk (this ▸ ha)

theorem progFold_bucketInv (eid primary : GoStr) :
    ∀ (progs : List Programme) (cp : GoMap GoStr (List Programme)),
      BucketInv cp → BucketInv (progs.foldl (progStep eid primary) cp) := by
  intro progs
  induction progs with
  | nil => intro cp h; exact h
  | cons p progs ih =>
    intro cp h
    exact ih _ (progStep_bucketInv eid primary cp p h)

theorem mergeEvents_bucketInv :
    ∀ (es : List MEvent) (acc : MergeAcc),
      BucketInv acc.channelPrograms →
      BucketInv ((es.foldl mergeEvent acc).channelPrograms) := by
  intro es
  induction es with
  | nil => intro acc h; exact h
  | cons ev es ih =>
    intro acc h
    refine ih (mergeEvent acc ev) ?_
    rw [mergeEvent_channelPrograms]
    exact progFold_bucketInv _ _ _ _ h

theorem progFold_bucket (eid primary : GoStr) :
    ∀ (progs : List Programme) (cp : GoMap GoStr (List Programme)),
      goLookupD (progs.foldl (progStep eid primary) cp) primary =
        ((progs.filter (fun p => p.PChannel = eid)).map
          (fun p => { p with PChannel := primary })).foldl insertIfNewStart
          (goLookupD cp primary) := by
  intro progs
  induction progs with
  | nil => intro cp; rfl
  | cons p progs ih =>
    intro cp
    rw [List.foldl_cons]
    by_cases h1 : p.PChannel = eid
    · have hfilter : (p :: progs).filter (fun p => p.PChannel = eid) =
          p :: progs.filter (fun p => p.PChannel = eid) := by
        simp [List.filter_cons, h1]
      rw [hfilter]
      simp only [List.map_cons, List.foldl_cons]
      by_cases h2 : hasOverlap (goLookupD cp primary) { p with PChannel := primary } = true
      · have hstep : progStep eid primary cp p = cp := by
          unfold progStep
          rw [if_neg (by simpa using h1)]
          simp only
          rw [if_pos h2]
        have hins : insertIfNewStart (goLookupD cp primary) { p with PChannel := primary } =
            goLookupD cp primary := by
          unfold insertIfNewStart
          rw [if_pos h2]
        rw [hstep, hins]
        exact ih cp
      · have hstep : progStep eid primary cp p =
            goInsert cp primary
              (goLookupD cp primary ++ [{ p with PChannel := primary }]) := by
          unfold progStep
          rw [if_neg (by simpa using h1)]
          simp only
          rw [if_neg h2]
        have hins : insertIfNewStart (goLookupD cp primary) { p with PChannel := primary } =
            goLookupD cp primary ++ [{ p with PChannel := primary }] := by
          unfold insertIfNewStart
          rw [if_neg h2]
        rw [hstep, hins, ih, goLookupD_goInsert_self]
    · have hfilter : (p :: progs).filter (fun p => p.PChannel = eid) =
          progs.filter (fun p => p.PChannel = eid) := by
        simp [List.filter_cons, h1]
      have hstep : progStep eid primary cp p = cp := by
        unfold progStep
        rw [if_pos (by simpa using h1)]
      rw [hfilter, hstep]
      exact ih cp

theorem progFold_other (eid primary : GoStr) :
    ∀ (progs : List Programme) (cp : GoMap GoStr (List Programme)) (k : GoStr), k ≠ primary →
      goLookupD (progs.foldl (progStep eid primary) cp) k = goLookupD cp k := by
  intro progs
  induction progs with
  | nil => intro cp k _; rfl
  | cons p progs ih =>
    intro cp k hk
    rw [List.foldl_cons]
    rw [ih _ k hk]
    unfold progStep
    by_cases h1 : p.PChannel ≠ eid
    · rw [if_pos h1]
    · rw [if_neg h1]
      simp only
      by_cases h2 : hasOverlap (goLookupD cp primary) { p with PChannel := primary } = true
      · rw [if_pos h2]
      · rw [if_neg h2]
        exact goLookupD_goInsert_ne _ _ _ _ hk

theorem mergeEvent_m3u_stable (acc : MergeAcc) (ev : MEvent) (name id : GoStr)
    (h : goLookup acc.m3uToEPGID name = some id) :
    goLookup (mergeEvent acc ev).m3uToEPGID name = some id := by
  rw [mergeEvent_m3u]
  by_cases hin : (goLookup acc.m3uToEPGID ev.name).isNone = true
  · rw [if_pos hin]
    by_cases hn : ev.name = name
    · exfalso
      rw [hn, h] at hin
      simp at hin
    · rw [goLookup_goInsert_ne _ _ _ _ (fun hc => hn hc.symm)]
      exact h
  · rw [if_neg hin]
    exact h

theorem mergeEvent_m3u_none (acc : MergeAcc) (ev : MEvent) (name : GoStr)
    (hn : ev.name ≠ name) (h : goLookup acc.m3uToEPGID name = none) :
    goLookup (mergeEvent acc ev).m3uToEPGID name = none := by
  rw [mergeEvent_m3u]
  by_cases hin : (goLookup acc.m3uToEPGID ev.name).isNone = true
  · rw [if_pos hin]
    rw [goLookup_goInsert_ne _ _ _ _ (fun hc => hn hc.symm)]
    exact h
  · rw [if_neg hin]
    exact h

theorem mergeEvents_m3u_stable :
    ∀ (es : List MEvent) (acc : MergeAcc) (name id : GoStr),
      goLookup acc.m3uToEPGID name = some id →
      goLookup ((es.foldl mergeEvent acc).m3uToEPGID) name = some id := by
  intro es
  induction es with
  | nil => intro acc name id h; exact h
  | cons ev es ih =>
    intro acc name id h
    rw [List.foldl_cons]
    exact ih _ name id (mergeEvent_m3u_stable acc ev name id h)

theorem mergeEvents_m3u_claim :
    ∀ (es : List MEvent) (acc : MergeAcc) (name : GoStr),
      goLookup acc.m3uToEPGID name = none →
      goLookup ((es.foldl mergeEvent acc).m3uToEPGID) name = eventsFirstClaim es name := by
  intro es
  induction es with
  | nil =>
    intro acc name h
    rw [List.foldl_nil, h]
    rfl
  | cons ev es ih =>
    intro acc name h
    rw [List.foldl_cons]
    by_cases hn : ev.name = name
    · have hin : (goLookup acc.m3uToEPGID ev.name).isNone = true := by
        rw [hn, h]
        rfl
      have hl : goLookup (mergeEvent acc ev).m3uToEPGID name = some ev.eid := by
        rw [mergeEvent_m3u, if_pos hin, ← hn]
        exact goLookup_goInsert_self _ _ _
      rw [mergeEvents_m3u_stable es _ name ev.eid hl]
      simp [eventsFirstClaim, List.findSome?_cons, hn]
    · have hl : goLookup (mergeEvent acc ev).m3uToEPGID name = none :=
        mergeEvent_m3u_none acc ev name hn h
      rw [ih _ name hl]
      simp [eventsFirstClaim, List.findSome?_cons, hn]

theorem emitOf_filter_ne (ev : MEvent) (name : GoStr) (hn : ev.name ≠ name) :
    (emitOf ev).filter (fun ch => ch.DisplayName = name) = [] := by
  unfold emitOf
  rcases hf : ev.tv.Channels.find? (fun ch => ch.ID = ev.eid) with _ | c <;> simp [hf, hn]

theorem mergeEvents_channels_stable :
    ∀ (es : List MEvent) (acc : MergeAcc) (name id : GoStr),
      goLookup acc.m3uToEPGID name = some id →
      ((es.foldl mergeEvent acc).outChannels.filter (fun ch => ch.DisplayName = name)) =
        acc.outChannels.filter (fun ch => ch.DisplayName = name) := by
  intro es
  induction es with
  | nil => intro acc name id _; rfl
  | cons ev es ih =>
    intro acc name id h
    rw [List.foldl_cons, ih _ name id (mergeEvent_m3u_stable acc ev name id h)]
    rw [mergeEvent_outChannels]
    by_cases hin : (goLookup acc.m3uToEPGID ev.name).isNone = true
    · rw [if_pos hin, List.filter_append]
      have hn : ev.name ≠ name := by
        intro hc
        rw [hc, h] at hin
        simp at hin
      rw [emitOf_filter_ne ev name hn, List.append_nil]
    · rw [if_neg hin]

theorem mergeEvents_channels_claim :
    ∀ (es : List MEvent) (acc : MergeAcc) (name : GoStr),
      goLookup acc.m3uToEPGID name = none →
      acc.outChannels.filter (fun ch => ch.DisplayName = name) = [] →
      ((es.foldl mergeEvent acc).outChannels.filter (fun ch => ch.DisplayName = name)) =
        (match eventsOwner es name with
         | some o =>
           (match o.2.Channels.find? (fun ch => ch.ID = o.1) with
            | some ch => [{ ch with DisplayName := name }]
            | none => [])
         | none => []) := by
  intro es
  induction es with
  | nil => intro acc name _ h2; exact h2
  | cons ev es ih =>
    intro acc name h h2
    rw [List.foldl_cons]
    by_cases hn : ev.name = name
    · have hin : (goLookup acc.m3uToEPGID ev.name).isNone = true := by
        rw [hn, h]
        rfl
      have hl : goLookup (mergeEvent acc ev).m3uToEPGID name = some ev.eid := by
        rw [mergeEvent_m3u, if_pos hin, ← hn]
        exact goLookup_goInsert_self _ _ _
      rw [mergeEvents_channels_stable es _ name ev.eid hl]
      rw [mergeEvent_outChannels, if_pos hin, List.filter_append, h2, List.nil_append]
      have howner : eventsOwner (ev :: es) name = some (ev.eid, ev.tv) := by
        simp [eventsOwner, List.findSome?_cons, hn]
      rw [howner]
      unfold emitOf
      rcases hf : ev.tv.Channels.find? (fun ch => ch.ID = ev.eid) with _ | c <;> simp [hf, hn]
    · have hl : goLookup (mergeEvent acc ev).m3uToEPGID name = none :=
        mergeEvent_m3u_none acc ev name hn h
      have h2' : (mergeEvent acc ev).outChannels.filter (fun ch => ch.DisplayName = name) = [] := by
        rw [mergeEvent_outChannels]
        by_cases hin : (goLookup acc.m3uToEPGID ev.name).isNone = true
        · rw [if_pos hin, List.filter_append, h2, emitOf_filter_ne ev name hn]
          rfl
        · rw [if_neg hin]
          exact h2
      rw [ih _ name hl h2']
      have howner : eventsOwner (ev :: es) name = eventsOwner es name := by
        simp [eventsOwner, List.findSome?_cons, hn]
      rw [howner]

theorem eventsOwner_firstClaim :
    ∀ (es : List MEvent) (name : GoStr) (o : GoStr × TV),
      eventsOwner es name = some o → eventsFirstClaim es name = some o.1 := by
  intro es
  induction es with
  | nil => intro name o h; exact Option.noConfusion h
  | cons ev es ih =>
    intro name o h
    by_cases hn : ev.name = name
    · have : eventsOwner (ev :: es) name = some (ev.eid, ev.tv) := by
        simp [eventsOwner, List.findSome?_cons, hn]
      rw [this] at h
      have ho : o = (ev.eid, ev.tv) := (Option.some_inj.mp h).symm
      rw [ho]
      simp [eventsFirstClaim, List.findSome?_cons, hn]
    · have he : eventsOwner (ev :: es) name = eventsOwner es name := by
        simp [eventsOwner, List.findSome?_cons, hn]
      rw [he] at h
      have : eventsFirstClaim (ev :: es) name = eventsFirstClaim es name := by
        simp [eventsFirstClaim, List.findSome?_cons, hn]
      rw [this]
      exact ih name o h

theorem primaryOf_correct (acc : MergeAcc) (ev : MEvent) (es : List MEvent)
    (pr : GoStr → Option GoStr)
    (H1 : ∀ name id, goLookup acc.m3uToEPGID name = some id → pr name = some id)
    (H2 : ∀ name, goLookup acc.m3uToEPGID name = none →
      pr name = eventsFirstClaim (ev :: es) name) :
    pr ev.name = some (primaryOf acc ev) := by
  rcases hin : goLookup acc.m3uToEPGID ev.name with _ | id
  · have hfc : eventsFirstClaim (ev :: es) ev.name = some ev.eid := by
      simp [eventsFirstClaim, List.findSome?_cons]
    rw [H2 ev.name hin, hfc]
    simp [primaryOf, hin]
  · rw [H1 ev.name id hin]
    simp [primaryOf, goLookupD, hin]

theorem mergeEvents_bucket :
    ∀ (es : List MEvent) (acc : MergeAcc) (pr : GoStr → Option GoStr) (k : GoStr),
      (∀ name id, goLookup acc.m3uToEPGID name = some id → pr name = some id) →
      (∀ name, goLookup acc.m3uToEPGID name = none → pr name = eventsFirstClaim es name) →
      goLookupD ((es.foldl mergeEvent acc).channelPrograms) k =
        (es.flatMap (fun ev =>
          if pr ev.name = some k then
            (ev.tv.Programs.filter (fun p => p.PChannel = ev.eid)).map
              (fun p => { p with PChannel := k })
          else [])).foldl insertIfNewStart (goLookupD acc.channelPrograms k) := by
  intro es
  induction es with
  | nil => intro acc pr k _ _; rfl
  | cons ev es ih =>
    intro acc pr k H1 H2
    have hprev : pr ev.name = some (primaryOf acc ev) := primaryOf_correct acc ev es pr H1 H2
    have H1' : ∀ name id, goLookup (mergeEvent acc ev).m3uToEPGID name = some id →
        pr name = some id := by
      intro name id h
      rw [mergeEvent_m3u] at h
      by_cases hin : (goLookup acc.m3uToEPGID ev.name).isNone = true
      · rw [if_pos hin] at h
        by_cases hn : ev.name = name
        · rw [← hn, goLookup_goInsert_self] at h
          have hid : ev.eid = id := Option.some_inj.mp h
          rw [← hn, hprev]
          unfold primaryOf
          rw [if_pos hin, hid]
        · rw [goLookup_goInsert_ne _ _ _ _ (fun hc => hn hc.symm)] at h
          exact H1 name id h
      · rw [if_neg hin] at h
        exact H1 name id h
    have H2' : ∀ name, goLookup (mergeEvent acc ev).m3uToEPGID name = none →
        pr name = eventsFirstClaim es name := by
      intro name h
      by_cases hn : ev.name = name
      · exfalso
        rw [mergeEvent_m3u] at h
        by_cases hin : (goLookup acc.m3uToEPGID ev.name).isNone = true
        · rw [if_pos hin, ← hn, goLookup_goInsert_self] at h
          exact Option.noConfusion h
        · rw [if_neg hin, ← hn] at h
          rw [h] at hin
          exact hin rfl
      · have hacc : goLookup acc.m3uToEPGID name = none := by
          rw [mergeEvent_m3u] at h
          by_cases hin : (goLookup acc.m3uToEPGID ev.name).isNone = true
          · rw [if_pos hin, goLookup_goInsert_ne _ _ _ _ (fun hc => hn hc.symm)] at h
            exact h
          · rw [if_neg hin] at h
            exact h
        rw [H2 name hacc]
        simp [eventsFirstClaim, List.findSome?_cons, hn]
    rw [List.foldl_cons, ih (mergeEvent acc ev) pr k H1' H2', List.flatMap_cons,
      List.foldl_append]
    congr 1
    rw [mergeEvent_channelPrograms]
    by_cases hk : primaryOf acc ev = k
    · rw [← hk, progFold_bucket, if_pos hprev]
    · have hne : ¬ pr ev.name = some k := by
        rw [hprev]
        intro hc
        exact hk (Option.some_inj.mp hc)
      rw [if_neg hne, List.foldl_nil]
      exact progFold_other _ _ _ _ _ (fun hc => hk hc.symm)

theorem bucketsFlatten_init :
    ∀ (m : GoMap GoStr (List Programme)) (init : List Programme),
      m.foldl (fun ps e => ps ++ e.2) init = init ++ m.foldl (fun ps e => ps ++ e.2) [] := by
  intro m
  induction m with
  | nil => intro init; simp
  | cons e rest ih =>
    intro init
    rw [List.foldl_cons, List.foldl_cons, ih (init ++ e.2), ih ([] ++ e.2)]
    simp [List.append_assoc]

theorem mem_bucketsFlatten :
    ∀ (m : GoMap GoStr (List Programme)) (q : Programme),
      q ∈ m.foldl (fun ps e => ps ++ e.2) [] → ∃ e ∈ m, q ∈ e.2 := by
  intro m
  induction m with
  | nil => intro q h; exact absurd h (List.not_mem_nil _)
  | cons e rest ih =>
    intro q h
    rw [List.foldl_cons, bucketsFlatten_init rest] at h
    rcases List.mem_append.mp h with h' | h'
    · exact ⟨e, List.mem_cons_self _ _, by simpa using h'⟩
    · obtain ⟨e', he', hq⟩ := ih q h'
      exact ⟨e', List.mem_cons_of_mem _ he', hq⟩

theorem bucketsFlatten_filter :
    ∀ (m : GoMap GoStr (List Programme)),
      (∀ e ∈ m, ∀ q ∈ e.2, q.PChannel = e.1) →
      (goKeys m).Nodup →
      ∀ k, (m.foldl (fun ps e => ps ++ e.2) []).filter (fun p => p.PChannel = k) =
        goLookupD m k := by
  intro m
  induction m with
  | nil => intro _ _ k; rfl
  | cons e rest ih =>
    intro hchan hkeys k
    obtain ⟨k0, v0⟩ := e
    have hkeys' : k0 ∉ goKeys rest ∧ (goKeys rest).Nodup := by
      simpa [goKeys] using hkeys
    have hchanR : ∀ e' ∈ rest, ∀ q ∈ e'.2, q.PChannel = e'.1 :=
      fun e' he' => hchan e' (List.mem_cons_of_mem _ he')
    rw [List.foldl_cons, bucketsFlatten_init rest, List.filter_append]
    by_cases hk : k0 = k
    · have hfe : (([] : List Programme) ++ v0).filter (fun p => p.PChannel = k) = v0 := by
        rw [List.nil_append, List.filter_eq_self]
        intro q hq
        have := hchan (k0, v0) (List.mem_cons_self _ _) q hq
        simp only [this]
        simpa using hk
      have hnk : k ∉ goKeys rest := hk ▸ hkeys'.1
      have hrest : (rest.foldl (fun ps e => ps ++ e.2) []).filter
          (fun p => p.PChannel = k) = [] := by
        rw [ih hchanR hkeys'.2 k, goLookupD, goLookup_eq_none_of_not_mem rest k hnk]
        rfl
      rw [hfe, hrest, List.append_nil]
      show v0 = goLookupD ((k0, v0) :: rest) k
      rw [goLookupD, goLookup, List.find?_cons_of_pos _ (by simpa using hk)]
      rfl
    · have hfe : (([] : List Programme) ++ v0).filter (fun p => p.PChannel = k) = [] := by
        rw [List.nil_append]
        rw [List.filter_eq_nil]
        intro q hq
        have := hchan (k0, v0) (List.mem_cons_self _ _) q hq
        simp only [this]
        simpa using hk
      have hlook : goLookupD ((k0, v0) :: rest) k = goLookupD rest k := by
        rw [goLookupD, goLookupD, goLookup, goLookup,
          List.find?_cons_of_neg _ (by simpa using hk)]
      rw [hfe, List.nil_append, ih hchanR hkeys'.2 k, hlook]

theorem bucketsFlatten_pairwise :
    ∀ (m : GoMap GoStr (List Programme)),
      (∀ e ∈ m, ∀ q ∈ e.2, q.PChannel = e.1) →
      (∀ e ∈ m, (e.2.map Programme.Start).Nodup) →
      (goKeys m).Nodup →
      List.Pairwise (fun p q => p.PChannel = q.PChannel → p.Start ≠ q.Start)
        (m.foldl (fun ps e => ps ++ e.2) []) := by
  intro m
  induction m with
  | nil => intro _ _ _; exact List.Pairwise.nil
  | cons e rest ih =>
    intro hchan hstarts hkeys
    obtain ⟨k0, v0⟩ := e
    have hkeys' : k0 ∉ goKeys rest ∧ (goKeys rest).Nodup := by
      simpa [goKeys] using hkeys
    rw [List.foldl_cons, bucketsFlatten_init rest, List.nil_append, List.pairwise_append]
    refine ⟨?_, ?_, ?_⟩
    · have hnod : (v0.map Programme.Start).Nodup := hstarts (k0, v0) (List.mem_cons_self _ _)
      have hpw : List.Pairwise (fun a b => a ≠ b) (v0.map Programme.Start) := hnod
      rw [List.pairwise_map] at hpw
      show List.Pairwise (fun p q => p.PChannel = q.PChannel → p.Start ≠ q.Start) v0
      refine hpw.imp ?_
      intro a b h _
      exact h
    · exact ih (fun e' he' => hchan e' (List.mem_cons_of_mem _ he'))
        (fun e' he' => hstarts e' (List.mem_cons_of_mem _ he')) hkeys'.2
    · intro p hp q hq hpc
      exfalso
      have hp1 : p.PChannel = k0 := hchan (k0, v0) (List.mem_cons_self _ _) p hp
      obtain ⟨e', he', hq'⟩ := mem_bucketsFlatten rest q hq
      have hq1 : q.PChannel = e'.1 := hchan e' (List.mem_cons_of_mem _ he') q hq'
      have hmem : e'.1 ∈ goKeys rest := List.mem_map.mpr ⟨e', he', rfl⟩
      have hk0 : k0 = e'.1 := by rw [← hp1, hpc, hq1]
      exact hkeys'.1 (by rw [hk0]; exact hmem)

theorem MergeEPGs_bucketInv (results : List (Option FilterResult)) :
    BucketInv ((results.foldl mergeSource ⟨[], [], [], []⟩).channelPrograms) := by
  rw [mergeFold_eq_events]
  exact mergeEvents_bucketInv _ _
    ⟨fun e he => absurd he (List.not_mem_nil _),
     fun e he => absurd he (List.not_mem_nil _),
     List.Pairwise.nil⟩

theorem merge_filter_eq_dedup (results : List (Option FilterResult)) (k : GoStr) :
    ((MergeEPGs results).Programs.filter (fun p => p.PChannel = k)) =
      dedupFirstByStart (mergedStream results k) := by
  have hinv := MergeEPGs_bucketInv results
  show (((results.foldl mergeSource ⟨[], [], [], []⟩).channelPrograms.foldl
      (fun ps e => ps ++ e.2) []).filter (fun p => p.PChannel = k)) = _
  rw [bucketsFlatten_filter _ hinv.chan hinv.keys k, mergeFold_eq_events,
    mergeEvents_bucket (eventsOf results) _ (firstClaim results) k
      (fun name id h => Option.noConfusion h) (fun name _ => rfl)]
  rfl

theorem MergeEPGs_programs_pairwise (results : List (Option FilterResult)) :
    List.Pairwise (fun p q => p.PChannel = q.PChannel → p.Start ≠ q.Start)
      (MergeEPGs results).Programs := by
  have hinv := MergeEPGs_bucketInv results
  show List.Pairwise _ ((results.foldl mergeSource ⟨[], [], [], []⟩).channelPrograms.foldl
      (fun ps e => ps ++ e.2) [])
  exact bucketsFlatten_pairwise _ hinv.chan hinv.starts hinv.keys

theorem mem_eventsOf (results : List (Option FilterResult)) (fr : FilterResult) (tv : TV)
    (eid name : GoStr) (hr : some fr ∈ results) (hepg : fr.epg = some tv)
    (hcm : (eid, name) ∈ fr.channelMap) :
    (⟨eid, name, tv⟩ : MEvent) ∈ eventsOf results := by
  unfold eventsOf
  refine List.mem_flatMap.mpr ⟨some fr, hr, ?_⟩
  simp only [hepg]
  exact List.mem_map.mpr ⟨(eid, name), hcm, rfl⟩

theorem eventsFirstClaim_exists :
    ∀ (es : List MEvent) (name : GoStr), (∃ ev ∈ es, ev.name = name) →
      ∃ id, eventsFirstClaim es name = some id := by
  intro es
  induction es with
  | nil =>
    intro name h
    obtain ⟨ev, hm, _⟩ := h
    exact absurd hm (List.not_mem_nil _)
  | cons ev es ih =>
    intro name h
    by_cases hn : ev.name = name
    · exact ⟨ev.eid, by simp [eventsFirstClaim, List.findSome?_cons, hn]⟩
    · have he : eventsFirstClaim (ev :: es) name = eventsFirstClaim es name := by
        simp [eventsFirstClaim, List.findSome?_cons, hn]
      rw [he]
      apply ih
      obtain ⟨ev', hm, hname⟩ := h
      rcases List.mem_cons.mp hm with rfl | hm'
      · exact absurd hname hn
      · exact ⟨ev', hm', hname⟩

theorem mem_mergedStream (results : List (Option FilterResult)) (ev : MEvent)
    (p : Programme) (id : GoStr) (hev : ev ∈ eventsOf results)
    (hfc : firstClaim results ev.name = some id) (hp : p ∈ ev.tv.Programs)
    (hpc : p.PChannel = ev.eid) :
    ({ p with PChannel := id }) ∈ mergedStream results id := by
  unfold mergedStream
  refine List.mem_flatMap.mpr ⟨ev, hev, ?_⟩
  rw [if_pos hfc]
  exact List.mem_map.mpr ⟨p, List.mem_filter.mpr ⟨hp, by simp [hpc]⟩, rfl⟩

theorem dedupFoldl_start_mem :
    ∀ (l acc : List Programme) (p : Programme),
      (p ∈ l ∨ ∃ q ∈ acc, q.Start = p.Start) →
      ∃ q ∈ l.foldl insertIfNewStart acc, q.Start = p.Start := by
  intro l
  induction l with
  | nil =>
    intro acc p h
    rcases h with h | h
    · exact absurd h (List.not_mem_nil _)
    · exact h
  | cons a l ih =>
    intro acc p h
    rw [List.foldl_cons]
    apply ih
    rcases h with h | ⟨q, hq, hqs⟩
    · rcases List.mem_cons.mp h with rfl | h'
      · right
        unfold insertIfNewStart
        by_cases hov : hasOverlap acc p = true
        · rw [if_pos hov]
          unfold hasOverlap at hov
          rw [List.any_eq_true] at hov
          obtain ⟨q, hq, hqs⟩ := hov
          exact ⟨q, hq, by simpa using hqs⟩
        · rw [if_neg hov]
          exact ⟨p, List.mem_append.mpr (Or.inr (List.mem_singleton.mpr rfl)), rfl⟩
      · exact Or.inl h'
    · right
      unfold insertIfNewStart
      by_cases hov : hasOverlap acc a = true
      · rw [if_pos hov]
        exact ⟨q, hq, hqs⟩
      · rw [if_neg hov]
        exact ⟨q, List.mem_append.mpr (Or.inl hq), hqs⟩

theorem dedupFirstByStart_start_mem (l : List Programme) (p : Programme) (h : p ∈ l) :
    ∃ q ∈ dedupFirstByStart l, q.Start = p.Start :=
  dedupFoldl_start_mem l [] p (Or.inl h)

/-! ## Claim C7 -/

/-- C7: in the merge, a playlist name is owned by the identifier of the first
event claiming it (earliest source in priority order whose map contains the
name): the output carries exactly the owner's channel entry for that name, with
the owner's metadata and the display name overwritten by the playlist name; and
every program of every source mapping that name (under that source's own guide
identifier) resurfaces, keyed by its start, under the single primary
identifier; concretely, with source A mapping x to "ESPN" and source B mapping
y to "ESPN", the name is owned by x, A's channel entry is emitted with display
name "ESPN", and programs of both x and y appear under x. -/
theorem c7_merge_first_claim_ownership (results : List (Option FilterResult)) :
    (∀ (name : GoStr) (o : GoStr × TV),
      eventsOwner (eventsOf results) name = some o →
      firstClaim results name = some o.1 ∧
      (MergeEPGs results).Channels.filter (fun ch => ch.DisplayName = name) =
        (match o.2.Channels.find? (fun ch => ch.ID = o.1) with
         | some ch => [{ ch with DisplayName := name }]
         | none => [])) ∧
    (∀ (fr : FilterResult) (tv : TV) (eid name : GoStr) (p : Programme),
      some fr ∈ results → fr.epg = some tv → (eid, name) ∈ fr.channelMap →
      p ∈ tv.Programs → p.PChannel = eid →
      ∃ id, firstClaim results name = some id ∧
        ∃ q ∈ (MergeEPGs results).Programs, q.PChannel = id ∧ q.Start = p.Start) ∧
    MergeEPGs
        [some ⟨some ⟨[⟨gs "x", gs "ESPN US", ⟨gs "logoA"⟩⟩],
           [⟨gs "x", gs "T1", gs "T1e", gs "ShowA1", gs "", gs ""⟩,
            ⟨gs "x", gs "T3", gs "T3e", gs "ShowA3", gs "", gs ""⟩]⟩,
          [(gs "x", gs "ESPN")]⟩,
         some ⟨some ⟨[⟨gs "y", gs "ESPN UK", ⟨gs "logoB"⟩⟩],
           [⟨gs "y", gs "T1", gs "T1e", gs "ShowB1", gs "", gs ""⟩,
            ⟨gs "y", gs "T2", gs "T2e", gs "ShowB2", gs "", gs ""⟩]⟩,
          [(gs "y", gs "ESPN")]⟩] =
      ⟨[⟨gs "x", gs "ESPN", ⟨gs "logoA"⟩⟩],
       [⟨gs "x", gs "T1", gs "T1e", gs "ShowA1", gs "", gs ""⟩,
        ⟨gs "x", gs "T3", gs "T3e", gs "ShowA3", gs "", gs ""⟩,
        ⟨gs "x", gs "T2", gs "T2e", gs "ShowB2", gs "", gs ""⟩],
       [(gs "x", gs "ESPN")]⟩ := by
  refine ⟨?_, ?_, rfl⟩
  · intro name o howner
    refine ⟨eventsOwner_firstClaim _ name o howner, ?_⟩
    have h := mergeEvents_channels_claim (eventsOf results) ⟨[], [], [], []⟩ name rfl rfl
    rw [howner] at h
    show ((results.foldl mergeSource ⟨[], [], [], []⟩).outChannels.filter
        (fun ch => ch.DisplayName = name)) = _
    rw [mergeFold_eq_events]
    exact h
  · intro fr tv eid name p hr hepg hcm hp hpc
    have hev : (⟨eid, name, tv⟩ : MEvent) ∈ eventsOf results :=
      mem_eventsOf results fr tv eid name hr hepg hcm
    obtain ⟨id, hfc⟩ :=
      eventsFirstClaim_exists (eventsOf results) name ⟨⟨eid, name, tv⟩, hev, rfl⟩
    refine ⟨id, hfc, ?_⟩
    have hstream : ({ p with PChannel := id }) ∈ mergedStream results id :=
      mem_mergedStream results ⟨eid, name, tv⟩ p id hev hfc hp hpc
    obtain ⟨q, hq, hqs⟩ := dedupFirstByStart_start_mem (mergedStream results id) _ hstream
    rw [← merge_filter_eq_dedup results id] at hq
    have hm := List.mem_filter.mp hq
    exact ⟨q, hm.1, by simpa using hm.2, hqs⟩

theorem c7_merge_first_claim_ownership_witness :
    firstClaim
        [some ⟨some ⟨[⟨gs "x", gs "ESPN US", ⟨gs "logoA"⟩⟩],
           [⟨gs "x", gs "T1", gs "T1e", gs "ShowA1", gs "", gs ""⟩,
            ⟨gs "x", gs "T3", gs "T3e", gs "ShowA3", gs "", gs ""⟩]⟩,
          [(gs "x", gs "ESPN")]⟩,
         some ⟨some ⟨[⟨gs "y", gs "ESPN UK", ⟨gs "logoB"⟩⟩],
           [⟨gs "y", gs "T1", gs "T1e", gs "ShowB1", gs "", gs ""⟩,
            ⟨gs "y", gs "T2", gs "T2e", gs "ShowB2", gs "", gs ""⟩]⟩,
          [(gs "y", gs "ESPN")]⟩] (gs "ESPN") = some (gs "x") := by
  exact ((c7_merge_first_claim_ownership
      [some ⟨some ⟨[⟨gs "x", gs "ESPN US", ⟨gs "logoA"⟩⟩],
         [⟨gs "x", gs "T1", gs "T1e", gs "ShowA1", gs "", gs ""⟩,
          ⟨gs "x", gs "T3", gs "T3e", gs "ShowA3", gs "", gs ""⟩]⟩,
        [(gs "x", gs "ESPN")]⟩,
       some ⟨some ⟨[⟨gs "y", gs "ESPN UK", ⟨gs "logoB"⟩⟩],
         [⟨gs "y", gs "T1", gs "T1e", gs "ShowB1", gs "", gs ""⟩,
          ⟨gs "y", gs "T2", gs "T2e", gs "ShowB2", gs "", gs ""⟩]⟩,
        [(gs "y", gs "ESPN")]⟩]).1 (gs "ESPN")
      (gs "x", ⟨[⟨gs "x", gs "ESPN US", ⟨gs "logoA"⟩⟩],
        [⟨gs "x", gs "T1", gs "T1e", gs "ShowA1", gs "", gs ""⟩,
         ⟨gs "x", gs "T3", gs "T3e", gs "ShowA3", gs "", gs ""⟩]⟩) rfl).1

/-! ## Claim C8 -/

/-- C8: no two programs in the merged output share both the final channel
identifier and the start timestamp; moreover the programs on each final
identifier are exactly the first-seen-wins dedup (by start) of the
merge-ordered stream of that identifier's remapped source programs, so on a
duplicate start the earliest-processed program is the one kept. -/
theorem c8_program_start_dedup (results : List (Option FilterResult)) :
    List.Pairwise (fun p q => p.PChannel = q.PChannel → p.Start ≠ q.Start)
      (MergeEPGs results).Programs ∧
    (∀ k, ((MergeEPGs results).Programs.filter (fun p => p.PChannel = k)) =
      dedupFirstByStart (mergedStream results k)) :=
  ⟨MergeEPGs_programs_pairwise results, fun k => merge_filter_eq_dedup results k⟩

end IPTV
